import Mathlib

/-!
# inkdown-sync-server: optimistic updates, conflicts, sync, tokens, connection registry

A shallow embedding of the note service (`internal/service/note_service.go`),
the conflict service (`internal/service/conflict_service.go`), the batch diff,
the manifest, the cursor sync and the change polling of the sync service
(`internal/service/sync_service.go`), of the repositories they call
(`internal/repository/*.go`), of the creation of CLI tokens
(`internal/service/cli_token_service.go`) and of the connection registry
(`internal/websocket/manager.go`).

Conventions of the embedding

* The document store is an explicit `Store` value; every operation returns its
  result together with the store it leaves behind, so that a failure after a
  partial write is visible. The store value also carries the connection
  registry that `NoteService.Create` and `NoteService.Update` call into.
* `time.Now()`, `uuid.New()`, random bytes, the failure of a storage call and the
  iteration order of a Go map are inputs, collected in `Env`, `TokenEnv` and
  `WsEnv`. Each place that reads the clock has its own reading.
* `int64` values are integers; the places that add one to an `int64`
  (`note.Version++`, `expectedVersion + 1`) wrap with `wrapInt64`. A number read
  from a document into a `map[string]interface{}` passes through `float64OfInt`.
* A Go pointer that may be nil is an `Option`; a `time.Time` is a natural number.
* A channel is addressed by a name; its buffer lives in the `Manager` value. A
  run-time panic is a value of `Err`; a goroutine that can never proceed ends in
  `Ending.blocked`, and a service call made on such a goroutine has the outcome
  `Err.neverReturns`.
-/

namespace Inkdown

/-! ## Domain (`internal/domain`) -/

/-- Instants of `time.Time`, totally ordered. -/
abbrev Time := Nat

/-- Largest `int64`. -/
def maxInt64 : Int := 9223372036854775807

/-- Smallest `int64`. -/
def minInt64 : Int := -9223372036854775808

/-- Two's-complement reduction of an integer to the `int64` range. -/
def wrapInt64 (x : Int) : Int := (x + 9223372036854775808) % 18446744073709551616 - 9223372036854775808

/-- Record `domain.Note`. -/
structure Note where
  ID : String
  UserID : String
  WorkspaceID : String
  ParentID : Option String
  Type_ : String
  EncryptedTitle : String
  EncryptedContent : String
  EncryptionAlgo : String
  Nonce : String
  CreatedAt : Time
  UpdatedAt : Time
  IsDeleted : Bool
  Version : Int
  ContentHash : String
  LastEditDevice : String
deriving DecidableEq, Repr

/-- Record `domain.CreateNoteRequest`. -/
structure CreateNoteRequest where
  WorkspaceID : String
  ParentID : Option String
  Type_ : String
  EncryptedTitle : String
  EncryptedContent : String
  EncryptionAlgo : String
  Nonce : String
  ContentHash : String
  DeviceID : String
deriving DecidableEq, Repr

/-- Record `domain.UpdateNoteRequest`: every patch field is a nullable pointer. -/
structure UpdateNoteRequest where
  EncryptedTitle : Option String
  EncryptedContent : Option String
  EncryptionAlgo : Option String
  Nonce : Option String
  ParentID : Option String
  IsDeleted : Option Bool
  ExpectedVersion : Option Int
  ContentHash : Option String
  DeviceID : String
deriving DecidableEq, Repr

/-- Record `domain.NoteResponse`. -/
structure NoteResponse where
  ID : String
  WorkspaceID : String
  ParentID : Option String
  Type_ : String
  EncryptedTitle : String
  EncryptedContent : String
  EncryptionAlgo : String
  Nonce : String
  CreatedAt : Time
  UpdatedAt : Time
  IsDeleted : Bool
  Version : Int
  ContentHash : String
  LastEditDevice : String
deriving DecidableEq, Repr

/-- Constant `domain.ConflictTypeUpdate`. -/
def ConflictTypeUpdate : String := "update"

/-- Constant `domain.ResolutionLWW`. -/
def ResolutionLWW : String := "lww"

/-- Constant `domain.ResolutionServer`. -/
def ResolutionServer : String := "server"

/-- Constant `domain.ResolutionClient`. -/
def ResolutionClient : String := "client"

/-- Constant `domain.ResolutionManual`. -/
def ResolutionManual : String := "manual"

/-- Record `domain.Conflict`. `ResolutionChoice` is the empty string while unset. -/
structure Conflict where
  ID : String
  NoteID : String
  UserID : String
  Type_ : String
  BaseVersion : Int
  ServerVersion : Int
  ClientVersion : Int
  ServerNote : Option Note
  ClientData : Option UpdateNoteRequest
  DeviceID : String
  DetectedAt : Time
  ResolvedAt : Option Time
  ResolutionChoice : String
deriving DecidableEq, Repr

/-- Record `domain.NoteVersion`. -/
structure NoteVersion where
  ID : String
  NoteID : String
  Version : Int
  EncryptedContent : String
  EncryptedTitle : String
  ContentHash : String
  DeviceID : String
  CreatedAt : Time
deriving DecidableEq, Repr

/-- Record `domain.SyncMetadata`, the cursor of one device. `NoteVersions` is a Go
map, kept as a list of entries. -/
structure SyncMetadata where
  UserID : String
  DeviceID : String
  LastSyncTime : Time
  NoteVersions : List (String × Int)
  PendingConflicts : List String
  UpdatedAt : Time
deriving DecidableEq, Repr

/-- Record `domain.SyncRequest`. `NoteVersions` is a Go map, kept as a list of
entries. -/
structure SyncRequest where
  DeviceID : String
  LastSyncTime : Time
  NoteVersions : List (String × Int)
deriving DecidableEq, Repr

/-- Record `domain.NoteChange`. -/
structure NoteChange where
  NoteID : String
  Operation : String
  Version : Int
  Note : Option NoteResponse
deriving DecidableEq, Repr

/-- Record `domain.SyncResponse`. -/
structure SyncResponse where
  Changes : List NoteChange
  SyncTime : Time
  HasMore : Bool
deriving DecidableEq, Repr

/-- Errors of the service layer: a plain `errors.New`/`fmt.Errorf` value, the
`*ConflictError` of `service/errors.go` (its `Conflict` pointer may be nil), a
run-time panic on a nil pointer, or another run-time panic with its text. The
last value is not an error that is returned: `neverReturns` is the outcome of a
call whose goroutine waits forever. -/
inductive Err where
  | msg (text : String)
  | conflict (c : Option Conflict)
  | nilDeref
  | panic (text : String)
  | neverReturns
deriving DecidableEq, Repr

/-! ## Go maps -/

/-- Assignment `m[k] = v` on a Go map, kept as a list of entries with distinct keys. -/
def mapInsert {α : Type} (k : String) (v : α) : List (String × α) → List (String × α)
  | [] => [(k, v)]
  | e :: rest => if e.1 = k then (k, v) :: rest else e :: mapInsert k v rest

/-- Lookup `m[k]` on a Go map. -/
def mapLookup {α : Type} (m : List (String × α)) (k : String) : Option α :=
  (m.find? (fun e => decide (e.1 = k))).map (fun e => e.2)

/-! ## Connection registry (`internal/websocket/manager.go`) -/

/-- A Go channel of byte strings: the buffered messages, oldest first, the
capacity given to `make` (256 in `NewClient`), and whether `close` was called on
it. The consumer of a queue (`WritePump`) runs elsewhere; the registry sees the
buffer as it stands. -/
structure Chan where
  buf : List String
  cap : Nat
  closed : Bool
deriving DecidableEq, Repr

/-- Record `websocket.Client`, without the network connection and the back
pointer to the manager. `Send` is the identity of the channel `client.Send`; the
channel itself lives in `Manager.chans`, because it is shared between the
goroutines that hold the client. -/
structure Client where
  ID : String
  UserID : String
  DeviceID : String
  Send : String
deriving DecidableEq, Repr

/-- Record `websocket.Message`. -/
structure Message where
  Type_ : String
  Timestamp : Time
  Payload : Option String
deriving DecidableEq, Repr

/-- Constant `websocket.TypeNoteUpdate`. -/
def TypeNoteUpdate : String := "note_update"

/-- Record `websocket.NoteUpdatePayload`. -/
structure NoteUpdatePayload where
  NoteID : String
  Version : Int
  EncryptedTitle : String
  EncryptedContent : String
  UpdatedAt : Time
  DeviceID : String
deriving DecidableEq, Repr

/-- Where the goroutine of `Manager.Run` (lines 51-64) stands: in its `select`,
ready to receive, or inside `unregisterClient` for a client it received from
`m.Unregister`, waiting for the write lock that a reader still holds. -/
inductive RunLoop where
  | selecting
  | unregistering (client : Client)
deriving DecidableEq, Repr

/-- Record `websocket.Manager`: the two indexes and the cap, together with the
channels its clients refer to and the state of its `Run` goroutine. A Go set
`map[string]bool` is a list of its keys. -/
structure Manager where
  clients : List (String × Client)
  userIndex : List (String × List String)
  maxConnPerUser : Int
  chans : List (String × Chan)
  run : RunLoop
deriving DecidableEq, Repr

/-- What a fan-out reads from outside the manager. -/
structure WsEnv where
  /-- Function `json.Marshal` on a message. -/
  jsonMarshal : Message → Except Err String
  /-- The order in which `range` visits the connection ids of a user. -/
  rangeClients : List String → List String := id

/-- How a call into the registry ends: it returns (with its error value), it
panics, or its goroutine waits forever in the send `m.Unregister <- client`. -/
inductive Ending where
  | returned (err : Option Err)
  | panicked (e : Err)
  | blocked (client : Client)
deriving DecidableEq, Repr

/-- Function `NewManager`; `chans` are the channels of the clients that
`NewClient` creates. -/
def NewManager (maxConnPerUser : Int) (chans : List (String × Chan)) : Manager :=
  { clients := [], userIndex := [], maxConnPerUser := maxConnPerUser, chans := chans,
    run := .selecting }

/-- Statement `delete(m, k)` on a Go map. -/
def mapErase {α : Type} (k : String) (m : List (String × α)) : List (String × α) :=
  m.filter (fun e => !decide (e.1 = k))

/-- Assignment `set[id] = true` on a Go set. -/
def setAdd (id : String) (ids : List String) : List String :=
  if id ∈ ids then ids else ids ++ [id]

/-- Statement `delete(set, id)` on a Go set. -/
def setRemove (id : String) (ids : List String) : List String :=
  ids.filter (fun x => !decide (x = id))

/-- The connection ids indexed for a user; none when the user has no entry. -/
def Manager.idsOf (m : Manager) (userID : String) : List String :=
  (mapLookup m.userIndex userID).getD []

/-- Statement `close(ch)`: a panic on a nil or closed channel. -/
def chanClose (chans : List (String × Chan)) (ref : String) : Except Err (List (String × Chan)) :=
  match mapLookup chans ref with
  | none => .error (.panic "close of nil channel")
  | some ch =>
    if ch.closed then .error (.panic "close of closed channel")
    else .ok (mapInsert ref { ch with closed := true } chans)

/-- Statement `select { case ch <- v: default: }`: the channels after the send,
or `none` when the `default` branch is taken because the buffer has no room (or
the channel is nil); a panic on a closed channel. -/
def chanTrySend (chans : List (String × Chan)) (ref : String) (v : String) :
    Except Err (Option (List (String × Chan))) :=
  match mapLookup chans ref with
  | none => .ok none
  | some ch =>
    if ch.closed then .error (.panic "send on closed channel")
    else if ch.buf.length < ch.cap then
      .ok (some (mapInsert ref { ch with buf := ch.buf ++ [v] } chans))
    else .ok none

/-- Function `Manager.registerClient`. -/
def registerClient (m : Manager) (client : Client) : Except Err Manager :=
  let index1 := match mapLookup m.userIndex client.UserID with
    | some _ => m.userIndex
    | none => mapInsert client.UserID [] m.userIndex
  let ids := (mapLookup index1 client.UserID).getD []
  if (ids.length : Int) ≥ m.maxConnPerUser then
    match chanClose m.chans client.Send with
    | .error e => .error e
    | .ok chans1 => .ok { m with userIndex := index1, chans := chans1 }
  else
    .ok { m with
      clients := mapInsert client.ID client m.clients
      userIndex := mapInsert client.UserID (setAdd client.ID ids) index1 }

/-- Function `Manager.unregisterClient`. -/
def unregisterClient (m : Manager) (client : Client) : Except Err Manager :=
  match mapLookup m.clients client.ID with
  | none => .ok m
  | some _ =>
    let index1 := match mapLookup m.userIndex client.UserID with
      | some ids => mapInsert client.UserID (setRemove client.ID ids) m.userIndex
      | none => m.userIndex
    let index2 :=
      if ((mapLookup index1 client.UserID).getD []).length = 0 then
        mapErase client.UserID index1
      else index1
    match chanClose m.chans client.Send with
    | .error e => .error e
    | .ok chans1 =>
      .ok { m with
        clients := mapErase client.ID m.clients
        userIndex := index2
        chans := chans1 }

/-- Function `Manager.GetUserConnections`. -/
def GetUserConnections (m : Manager) (userID : String) : Nat :=
  match mapLookup m.userIndex userID with
  | some clients => clients.length
  | none => 0

/-- The state carried through the loop of `BroadcastToUser`: the channels, the
`Run` goroutine, and how the call ended if it did not reach the end of the loop. -/
structure Fanout where
  chans : List (String × Chan)
  run : RunLoop
  stop : Option Ending
deriving DecidableEq, Repr

/-- One iteration of the loop of `BroadcastToUser` (lines 131-141). The send
`m.Unregister <- client` on the unbuffered channel completes only when the `Run`
goroutine receives it in its `select`; that goroutine then calls
`unregisterClient`, whose `Lock` cannot be granted before the broadcaster
releases its read lock on return. A second such send during the same call
therefore never completes. -/
def broadcastStep (clients : List (String × Client)) (messageBytes excludeDeviceID : String)
    (st : Fanout) (clientID : String) : Fanout :=
  match st.stop with
  | some _ => st
  | none =>
    match mapLookup clients clientID with
    | none => { st with stop := some (.panicked .nilDeref) }
    | some client =>
      if client.DeviceID ≠ excludeDeviceID then
        match chanTrySend st.chans client.Send messageBytes with
        | .error e => { st with stop := some (.panicked e) }
        | .ok (some chans1) => { st with chans := chans1 }
        | .ok none =>
          match st.run with
          | .selecting => { st with run := .unregistering client }
          | .unregistering _ => { st with stop := some (.blocked client) }
      else st

/-- Function `Manager.BroadcastToUser`. -/
def BroadcastToUser (env : WsEnv) (m : Manager) (userID : String) (message : Message)
    (excludeDeviceID : String) : Ending × Manager :=
  match env.jsonMarshal message with
  | .error e => (.returned (some e), m)
  | .ok messageBytes =>
    match mapLookup m.userIndex userID with
    | none => (.returned none, m)
    | some clientIDs =>
      let st := (env.rangeClients clientIDs).foldl
        (broadcastStep m.clients messageBytes excludeDeviceID) (Fanout.mk m.chans m.run none)
      (st.stop.getD (.returned none), { m with chans := st.chans, run := st.run })

/-- Function `Manager.SendToClient`. -/
def SendToClient (env : WsEnv) (m : Manager) (clientID : String) (message : Message) :
    Ending × Manager :=
  match mapLookup m.clients clientID with
  | none => (.returned none, m)
  | some client =>
    match env.jsonMarshal message with
    | .error e => (.returned (some e), m)
    | .ok messageBytes =>
      match chanTrySend m.chans client.Send messageBytes with
      | .error e => (.panicked e, m)
      | .ok (some chans1) => (.returned none, { m with chans := chans1 })
      | .ok none => (.returned none, m)

/-- A lifecycle command received by `Manager.Run` on `m.Register` or `m.Unregister`. -/
inductive RegistryEvent where
  | register (client : Client)
  | unregister (client : Client)
deriving DecidableEq, Repr

/-- The client a lifecycle command is about. -/
def RegistryEvent.client : RegistryEvent → Client
  | .register c => c
  | .unregister c => c

/-- One round of the loop of `Manager.Run` on a lifecycle command. -/
def runEvent (m : Manager) : RegistryEvent → Except Err Manager
  | .register c => registerClient m c
  | .unregister c => unregisterClient m c

/-- The loop of `Manager.Run` on a sequence of lifecycle commands; a panic ends it. -/
def runEvents : Manager → List RegistryEvent → Except Err Manager
  | m, [] => .ok m
  | m, ev :: rest =>
    match runEvent m ev with
    | .error e => .error e
    | .ok m1 => runEvents m1 rest

/-- The two indexes of the registry describe the same connections: an id is
indexed for a user exactly when `clients` holds it with that user, no user is
indexed with an empty set, no user exceeds the cap, and a set lists an id once. -/
def RegistryConsistent (m : Manager) : Prop :=
  (∀ u id, id ∈ m.idsOf u ↔ ∃ c, mapLookup m.clients id = some c ∧ c.UserID = u) ∧
  (∀ u ids, mapLookup m.userIndex u = some ids → ids ≠ []) ∧
  (∀ u, ((m.idsOf u).length : Int) ≤ m.maxConnPerUser) ∧
  (∀ u, (m.idsOf u).Nodup)

/-! ## The document store and the environment -/

/-- The documents of the database, one list per key prefix, and the connection
registry of the process.

* `notes`: the `note:<id>` documents, addressed by the note id (the `id` member
  of a note document is the id in its key).
* `versions`: the version documents, in the order they were posted.
* `conflicts`: the `conflict:<id>` documents as pairs of the id in the document
  key and the body that `conflictRepo.Get` decodes from the document. The
  document has no `id` member, so the decoded `Conflict.ID` is empty.
* `registry`: the `websocket.Manager` behind the sync service of the note
  service; `none` when the note service has no sync service
  (`s.syncService == nil`, as in the tests of the package).
* `cursors`: the `sync:<user>:<device>` documents as pairs of the document key
  and the body. -/
structure Store where
  notes : List Note
  versions : List NoteVersion
  conflicts : List (String × Conflict)
  registry : Option Manager := none
  cursors : List (String × SyncMetadata) := []
deriving DecidableEq, Repr

/-- What one service call reads from outside the store. -/
structure Env where
  /-- Reading of `time.Now()` in the service layer. -/
  now : Time
  /-- Reading of `time.Now()` inside `versionRepo.SaveVersion`, the `created_at` of
  a snapshot; in `NoteService.Update` it is read before `now` and `storeNow`. -/
  snapshotNow : Time
  /-- Reading of `time.Now()` inside a repository (stamps on written documents). -/
  storeNow : Time
  /-- Result of `uuid.New().String()`. -/
  uuid : String
  /-- The call of `noteRepo.Create` fails. -/
  noteCreateFails : Bool := false
  /-- The first `noteRepo.FindByID` of the call fails. -/
  findFails : Bool := false
  /-- The `noteRepo.FindByID` inside `DetectConflict` fails. -/
  detectFindFails : Bool := false
  /-- The call of `conflictRepo.Create` fails. -/
  conflictCreateFails : Bool := false
  /-- The call of `versionRepo.SaveVersion` fails. -/
  saveVersionFails : Bool := false
  /-- The call of `noteRepo.Update` fails. -/
  noteUpdateFails : Bool := false
  /-- The call of `conflictRepo.Get` fails. -/
  conflictGetFails : Bool := false
  /-- The call of `conflictRepo.MarkResolved` fails. -/
  markResolvedFails : Bool := false
  /-- The call of `versionRepo.GetVersions` fails. -/
  getVersionsFails : Bool := false
  /-- The call of `noteRepo.List` or `noteRepo.ListByWorkspace` fails. -/
  listFails : Bool := false
  /-- The order in which `range` visits the entries of the server map. -/
  rangeOrder : List (String × Note) → List (String × Note) := id
  /-- The call of `metadataRepo.UpdateLastSync` fails. -/
  lastSyncFails : Bool := false
  /-- The call of `metadataRepo.UpdateNoteVersion` for the given note id fails. -/
  noteVersionFails : String → Bool := fun _ => false
  /-- The order in which `range` visits the entries of `req.NoteVersions`. -/
  rangeVersions : List (String × Int) → List (String × Int) := id
  /-- The `db.Put` of `noteRepo.Delete` fails. -/
  noteDeleteFails : Bool := false
  /-- Result of the conversion `int64(v)` for a `float64` outside the `int64` range
  (left to the implementation by the language; the sign bit pattern on amd64). -/
  float64Overflow : Int := -9223372036854775808
  /-- Function `json.Marshal` on the payload of a note update (`NewMessage`). -/
  marshalPayload : NoteUpdatePayload → Except Err String
  /-- Reading of `time.Now()` inside `websocket.NewMessage`. -/
  messageNow : Time
  /-- What the fan-out of the connection registry reads from outside. -/
  ws : WsEnv

/-! ## Repositories (`internal/repository`) -/

/-- The stored note with the given id, if any. -/
def Store.noteByID (s : Store) (id : String) : Option Note :=
  s.notes.find? (fun n => decide (n.ID = id))

/-- Replace the first element satisfying `p` by its image under `f`. -/
def replaceFirst {α : Type} (p : α → Bool) (f : α → α) : List α → List α
  | [] => []
  | x :: xs => if p x then f x :: xs else x :: replaceFirst p f xs

/-- Function `noteRepository.FindByID`. -/
def noteRepoFindByID (fails : Bool) (s : Store) (id : String) : Except Err Note :=
  if fails then .error (.msg "failed to find note")
  else match s.noteByID id with
    | some n => .ok n
    | none => .error (.msg "failed to find note")

/-- Function `noteRepository.Create`: put the new document `note:<id>`. The store
refuses a key that is already taken. -/
def noteRepoCreate (env : Env) (s : Store) (note : Note) : Except Err Store :=
  if env.noteCreateFails then .error (.msg "failed to create note")
  else if (s.noteByID note.ID).isSome then .error (.msg "failed to create note")
  else .ok { s with notes := s.notes ++ [note] }

/-- The document that `noteRepository.Update` puts back: the existing document
with the ten members the function overwrites. -/
def updatedDoc (storeNow : Time) (note existing : Note) : Note :=
  { existing with
    EncryptedTitle := note.EncryptedTitle
    EncryptedContent := note.EncryptedContent
    EncryptionAlgo := note.EncryptionAlgo
    Nonce := note.Nonce
    ContentHash := note.ContentHash
    LastEditDevice := note.LastEditDevice
    UpdatedAt := storeNow
    Version := note.Version
    IsDeleted := note.IsDeleted
    ParentID := note.ParentID }

/-- Function `noteRepository.Update`. -/
def noteRepoUpdate (env : Env) (s : Store) (note : Note) : Except Err Store :=
  match s.noteByID note.ID with
  | none => .error (.msg "failed to fetch existing note for update")
  | some _ =>
    if env.noteUpdateFails then .error (.msg "failed to update note")
    else
      .ok { s with
        notes := replaceFirst (fun n => decide (n.ID = note.ID))
          (updatedDoc env.storeNow note) s.notes }

/-- Function `noteVersionRepo.SaveVersion`: post a snapshot of the note. -/
def versionRepoSaveVersion (env : Env) (s : Store) (note : Note) : Except Err Store :=
  if env.saveVersionFails then .error (.msg "failed to save version")
  else
    let version : NoteVersion :=
      { ID := "version:" ++ note.ID ++ ":" ++ toString note.Version
        NoteID := note.ID
        Version := note.Version
        EncryptedContent := note.EncryptedContent
        EncryptedTitle := note.EncryptedTitle
        ContentHash := note.ContentHash
        DeviceID := note.LastEditDevice
        CreatedAt := env.snapshotNow }
    .ok { s with versions := s.versions ++ [version] }

/-- Function `conflictRepo.Create`: post the document `conflict:<id>`. The store
refuses a key that is already taken. The document is written with the members
`_id`, `note_id`, `user_id`, ... and without an `id` member, so the body read
back later has an empty `ID`. -/
def conflictRepoCreate (env : Env) (s : Store) (c : Conflict) : Except Err Store :=
  if env.conflictCreateFails then .error (.msg "failed to create conflict")
  else if (s.conflicts.find? (fun d => decide (d.1 = c.ID))).isSome then
    .error (.msg "failed to create conflict")
  else .ok { s with conflicts := s.conflicts ++ [(c.ID, { c with ID := "" })] }

/-! ## Conflict detection (`ConflictService.DetectConflict`) -/

/-- Function `ConflictService.DetectConflict`. -/
def DetectConflict (env : Env) (s : Store) (noteID userID deviceID : String)
    (expectedVersion : Int) (updateReq : UpdateNoteRequest) : Except Err (Option Conflict) × Store :=
  match noteRepoFindByID env.detectFindFails s noteID with
  | .error e => (.error e, s)
  | .ok note =>
    if note.UserID ≠ userID then (.error (.msg "unauthorized"), s)
    else if note.Version = expectedVersion then (.ok none, s)
    else
      let conflict : Conflict :=
        { ID := env.uuid
          NoteID := noteID
          UserID := userID
          Type_ := ConflictTypeUpdate
          BaseVersion := expectedVersion
          ServerVersion := note.Version
          ClientVersion := wrapInt64 (expectedVersion + 1)
          ServerNote := some note
          ClientData := some updateReq
          DeviceID := deviceID
          DetectedAt := env.now
          ResolvedAt := none
          ResolutionChoice := "" }
      match conflictRepoCreate env s conflict with
      | .error e => (.error e, s)
      | .ok s1 => (.ok (some conflict), s1)

/-! ## Optimistic update (`NoteService.Update`) -/

/-- The response record built from a note (`note_service.go`, lines 193-208). -/
def noteResponse (note : Note) : NoteResponse :=
  { ID := note.ID
    ParentID := note.ParentID
    Type_ := note.Type_
    EncryptedTitle := note.EncryptedTitle
    EncryptedContent := note.EncryptedContent
    EncryptionAlgo := note.EncryptionAlgo
    Nonce := note.Nonce
    CreatedAt := note.CreatedAt
    UpdatedAt := note.UpdatedAt
    IsDeleted := note.IsDeleted
    Version := note.Version
    ContentHash := note.ContentHash
    LastEditDevice := note.LastEditDevice
    WorkspaceID := note.WorkspaceID }

/-- Function `websocket.NewMessage` for the payload of a note update. -/
def NewMessage (env : Env) (msgType : String) (payload : NoteUpdatePayload) :
    Except Err Message :=
  match env.marshalPayload payload with
  | .error e => .error e
  | .ok payloadBytes =>
    .ok { Type_ := msgType, Timestamp := env.messageNow, Payload := some payloadBytes }

/-- Function `SyncService.BroadcastNoteUpdate`: build the message and hand it to
`Manager.BroadcastToUser`, the editing device excluded. -/
def BroadcastNoteUpdate (env : Env) (m : Manager) (userID deviceID : String)
    (note : NoteResponse) : Ending × Manager :=
  let payload : NoteUpdatePayload :=
    { NoteID := note.ID
      Version := note.Version
      EncryptedTitle := note.EncryptedTitle
      EncryptedContent := note.EncryptedContent
      UpdatedAt := note.UpdatedAt
      DeviceID := deviceID }
  match NewMessage env TypeNoteUpdate payload with
  | .error e => (.returned (some e), m)
  | .ok msg => BroadcastToUser env.ws m userID msg deviceID

/-- The end of `NoteService.Create` and `NoteService.Update` (`note_service.go`,
lines 77-81 and 210-214): when the service has a sync service, the synchronous
call of `BroadcastNoteUpdate`, whose returned error is discarded, and then the
return of the response. A fan-out that panics ends the call with the panic; a
fan-out that waits forever leaves a call that never returns. -/
def NoteService.broadcastAndReturn (env : Env) (s : Store) (userID deviceID : String)
    (response : NoteResponse) : Except Err NoteResponse × Store :=
  match s.registry with
  | none => (.ok response, s)
  | some m =>
    match BroadcastNoteUpdate env m userID deviceID response with
    | (.returned _, m1) => (.ok response, { s with registry := some m1 })
    | (.panicked e, m1) => (.error e, { s with registry := some m1 })
    | (.blocked _, m1) => (.error .neverReturns, { s with registry := some m1 })

/-- Function `NoteService.Create`. -/
def NoteService.Create (env : Env) (s : Store) (userID : String) (req : CreateNoteRequest) :
    Except Err NoteResponse × Store :=
  let note : Note :=
    { ID := env.uuid
      UserID := userID
      ParentID := req.ParentID
      Type_ := req.Type_
      EncryptedTitle := req.EncryptedTitle
      EncryptedContent := req.EncryptedContent
      EncryptionAlgo := req.EncryptionAlgo
      Nonce := req.Nonce
      CreatedAt := env.now
      UpdatedAt := env.now
      IsDeleted := false
      Version := 1
      ContentHash := req.ContentHash
      LastEditDevice := req.DeviceID
      WorkspaceID := req.WorkspaceID }
  match noteRepoCreate env s note with
  | .error e => (.error e, s)
  | .ok s1 => NoteService.broadcastAndReturn env s1 userID req.DeviceID (noteResponse note)

/-- The in-memory note after the patch has been applied (`note_service.go`,
lines 163-187): present fields overwrite, absent fields are kept, then the
time stamp, the version and the editing device are set. -/
def applyPatch (now : Time) (note : Note) (req : UpdateNoteRequest) : Note :=
  { note with
    EncryptedTitle := match req.EncryptedTitle with
      | some t => t
      | none => note.EncryptedTitle
    EncryptedContent := match req.EncryptedContent with
      | some c => c
      | none => note.EncryptedContent
    EncryptionAlgo := match req.EncryptionAlgo with
      | some a => a
      | none => note.EncryptionAlgo
    Nonce := match req.Nonce with
      | some n => n
      | none => note.Nonce
    ParentID := match req.ParentID with
      | some p => some p
      | none => note.ParentID
    IsDeleted := match req.IsDeleted with
      | some d => d
      | none => note.IsDeleted
    ContentHash := match req.ContentHash with
      | some h => h
      | none => note.ContentHash
    UpdatedAt := now
    Version := wrapInt64 (note.Version + 1)
    LastEditDevice := req.DeviceID }

/-- The mutating half of `NoteService.Update` (lines 159-214): snapshot, patch,
persist, then the fan-out and the return. The result of `SaveVersion` is
discarded by the source. -/
def NoteService.applyUpdate (env : Env) (s : Store) (userID : String) (note : Note)
    (req : UpdateNoteRequest) : Except Err NoteResponse × Store :=
  let s1 := match versionRepoSaveVersion env s note with
    | .ok s1 => s1
    | .error _ => s
  let note1 := applyPatch env.now note req
  match noteRepoUpdate env s1 note1 with
  | .error e => (.error e, s1)
  | .ok s2 => NoteService.broadcastAndReturn env s2 userID req.DeviceID (noteResponse note1)

/-- Function `NoteService.Update`. -/
def NoteService.Update (env : Env) (s : Store) (userID noteID : String)
    (req : UpdateNoteRequest) : Except Err NoteResponse × Store :=
  match noteRepoFindByID env.findFails s noteID with
  | .error e => (.error e, s)
  | .ok note =>
    if note.UserID ≠ userID then
      (.error (.msg "unauthorized: note does not belong to user"), s)
    else
      match req.ExpectedVersion with
      | some expected =>
        if expected ≠ note.Version then
          match DetectConflict env s noteID userID req.DeviceID expected req with
          | (.error e, s1) => (.error e, s1)
          | (.ok conflict, s1) => (.error (.conflict conflict), s1)
        else NoteService.applyUpdate env s userID note req
      | none => NoteService.applyUpdate env s userID note req

/-! ## Conflict resolution (`ConflictService.ApplyResolution`) -/

/-- Function `conflictRepo.Get`: the body decoded from the document `conflict:<id>`
(`Conflict.ID` has the JSON name `id`, which the document does not have). -/
def conflictRepoGet (fails : Bool) (s : Store) (conflictID : String) : Except Err Conflict :=
  if fails then .error (.msg "conflict not found")
  else match s.conflicts.find? (fun d => decide (d.1 = conflictID)) with
    | some d => .ok d.2
    | none => .error (.msg "conflict not found")

/-- The stored conflict with the given id in its document key, if any. -/
def Store.conflictByID (s : Store) (conflictID : String) : Option Conflict :=
  (s.conflicts.find? (fun d => decide (d.1 = conflictID))).map (fun d => d.2)

/-- Function `conflictRepo.MarkResolved`: read the document, set the resolution
time and choice, and put it back under the same key. -/
def conflictRepoMarkResolved (env : Env) (s : Store) (conflictID choice : String) :
    Except Err Store :=
  match conflictRepoGet env.markResolvedFails s conflictID with
  | .error e => .error e
  | .ok _ =>
    .ok { s with
      conflicts := replaceFirst (fun d => decide (d.1 = conflictID))
        (fun d => (d.1, { d.2 with ResolvedAt := some env.storeNow, ResolutionChoice := choice }))
        s.conflicts }

/-- Modelled from the spec: the view `_design/versions/_view/by_note` queried by
`noteVersionRepo.GetVersions` is not part of the sources. Following the spec
("the note's recent version log, bounded window"), the call returns the
snapshots of the note, most recent first, at most `limit` of them. -/
def versionRepoGetVersions (env : Env) (s : Store) (noteID : String) (limit : Nat) :
    Except Err (List NoteVersion) :=
  if env.getVersionsFails then .error (.msg "failed to get versions")
  else .ok (((s.versions.filter (fun v => decide (v.NoteID = noteID))).reverse).take limit)

/-- The note written by a resolution that applies a patch (`conflict_service.go`,
lines 94-109, 144-159 and 177-192): content, title, nonce and hash are taken
from the patch when present, then the time stamp, the version and the editing
device are set. -/
def resolvePatch (now : Time) (note : Note) (data : UpdateNoteRequest) (device : String) : Note :=
  { note with
    EncryptedContent := match data.EncryptedContent with
      | some c => c
      | none => note.EncryptedContent
    EncryptedTitle := match data.EncryptedTitle with
      | some t => t
      | none => note.EncryptedTitle
    Nonce := match data.Nonce with
      | some n => n
      | none => note.Nonce
    ContentHash := match data.ContentHash with
      | some h => h
      | none => note.ContentHash
    UpdatedAt := now
    Version := wrapInt64 (note.Version + 1)
    LastEditDevice := device }

/-- Persist a patched snapshot and mark the conflict resolved: the common tail of
the client, manual and last-writer-wins branches. -/
def persistResolution (env : Env) (s : Store) (note : Note) (conflictID choice : String) :
    Except Err (Option Note) × Store :=
  match noteRepoUpdate env s note with
  | .error e => (.error e, s)
  | .ok s1 =>
    match conflictRepoMarkResolved env s1 conflictID choice with
    | .error e => (.error e, s1)
    | .ok s2 => (.ok (some note), s2)

/-- The client's effective edit time in `ResolveWithLWW` (lines 74-85): the
creation time of the first listed snapshot at the expected version, and the
current time when there is none. -/
def clientUpdatedAt (env : Env) (s : Store) (conflict : Conflict) (data : UpdateNoteRequest) :
    Time :=
  match data.ExpectedVersion with
  | none => env.now
  | some expected =>
    match versionRepoGetVersions env s conflict.NoteID 10 with
    | .error _ => env.now
    | .ok versions =>
      match versions.find? (fun v => decide (v.Version = expected)) with
      | some v => v.CreatedAt
      | none => env.now

/-- Function `ConflictService.ResolveWithLWW`. -/
def ResolveWithLWW (env : Env) (s : Store) (conflict : Conflict) :
    Except Err (Option Note) × Store :=
  match conflict.ClientData with
  | none => (.ok conflict.ServerNote, s)
  | some data =>
    match conflict.ServerNote with
    | none => (.error .nilDeref, s)
    | some serverNote =>
      if serverNote.UpdatedAt > clientUpdatedAt env s conflict data then
        match conflictRepoMarkResolved env s conflict.ID ResolutionLWW with
        | .error e => (.error e, s)
        | .ok s1 => (.ok (some serverNote), s1)
      else
        persistResolution env s (resolvePatch env.now serverNote data conflict.DeviceID)
          conflict.ID ResolutionLWW

/-- Function `ConflictService.ApplyResolution`. -/
def ApplyResolution (env : Env) (s : Store) (conflictID strategy : String)
    (noteData : Option UpdateNoteRequest) : Except Err (Option Note) × Store :=
  match conflictRepoGet env.conflictGetFails s conflictID with
  | .error e => (.error e, s)
  | .ok conflict =>
    if strategy = ResolutionLWW then ResolveWithLWW env s conflict
    else if strategy = ResolutionServer then
      match conflictRepoMarkResolved env s conflictID ResolutionServer with
      | .error e => (.error e, s)
      | .ok s1 => (.ok conflict.ServerNote, s1)
    else if strategy = ResolutionClient then
      match conflict.ClientData with
      | none => (.error (.msg "no client data available"), s)
      | some data =>
        match conflict.ServerNote with
        | none => (.error .nilDeref, s)
        | some note =>
          persistResolution env s (resolvePatch env.now note data conflict.DeviceID)
            conflictID ResolutionClient
    else if strategy = ResolutionManual then
      match noteData with
      | none => (.error (.msg "manual resolution requires note data"), s)
      | some data =>
        match conflict.ServerNote with
        | none => (.error .nilDeref, s)
        | some note =>
          persistResolution env s (resolvePatch env.now note data data.DeviceID)
            conflictID ResolutionManual
    else (.error (.msg ("unknown resolution strategy: " ++ strategy)), s)

/-! ## Batch diff (`SyncService.ProcessBatchDiff`) -/

/-- Record `domain.LocalNoteInfo`. -/
structure LocalNoteInfo where
  ID : String
  ContentHash : String
  Version : Int
deriving DecidableEq, Repr

/-- Record `domain.ConflictInfo`. -/
structure ConflictInfo where
  NoteID : String
  LocalHash : String
  ServerHash : String
  LocalVersion : Int
  ServerVersion : Int
deriving DecidableEq, Repr

/-- Record `domain.BatchDiffRequest`. -/
structure BatchDiffRequest where
  WorkspaceID : String
  DeviceID : String
  LocalNotes : List LocalNoteInfo
deriving DecidableEq, Repr

/-- Record `domain.BatchDiffResponse`. -/
structure BatchDiffResponse where
  ToDownload : List NoteResponse
  ToUpload : List String
  ToDelete : List String
  Conflicts : List ConflictInfo
  SyncTime : Time
deriving DecidableEq, Repr

/-- Function `noteRepository.List`: the note documents of the user. Every note
document has an `encrypted_title` member, which the selector also asks for. -/
def noteRepoList (env : Env) (s : Store) (userID : String) : Except Err (List Note) :=
  if env.listFails then .error (.msg "failed to list notes")
  else .ok (s.notes.filter (fun n => decide (n.UserID = userID)))

/-- Function `noteRepository.ListByWorkspace`: the note documents of the workspace. -/
def noteRepoListByWorkspace (env : Env) (s : Store) (workspaceID : String) :
    Except Err (List Note) :=
  if env.listFails then .error (.msg "failed to list notes by workspace")
  else .ok (s.notes.filter (fun n => decide (n.WorkspaceID = workspaceID)))

/-- The server map of `ProcessBatchDiff` (lines 208-211): a later note replaces an
earlier one with the same id. -/
def serverMapOf (serverNotes : List Note) : List (String × Note) :=
  serverNotes.foldl (fun m n => mapInsert n.ID n m) []

/-- The client map of `ProcessBatchDiff` (lines 214-217): a later entry replaces an
earlier one with the same id. -/
def clientMapOf (localNotes : List LocalNoteInfo) : List (String × LocalNoteInfo) :=
  localNotes.foldl (fun m c => mapInsert c.ID c m) []

/-- The notes `ProcessBatchDiff` compares against (lines 195-205): those of the
workspace when the request names one, those of the user otherwise. -/
def listServerNotes (env : Env) (s : Store) (userID : String) (req : BatchDiffRequest) :
    Except Err (List Note) :=
  if req.WorkspaceID ≠ "" then noteRepoListByWorkspace env s req.WorkspaceID
  else noteRepoList env s userID

/-- The payload appended to `ToDownload` (lines 241-256). -/
def downloadPayload (serverNote : Note) : NoteResponse :=
  { ID := serverNote.ID
    WorkspaceID := serverNote.WorkspaceID
    ParentID := serverNote.ParentID
    Type_ := serverNote.Type_
    EncryptedTitle := serverNote.EncryptedTitle
    EncryptedContent := serverNote.EncryptedContent
    EncryptionAlgo := serverNote.EncryptionAlgo
    Nonce := serverNote.Nonce
    CreatedAt := serverNote.CreatedAt
    UpdatedAt := serverNote.UpdatedAt
    IsDeleted := serverNote.IsDeleted
    Version := serverNote.Version
    ContentHash := serverNote.ContentHash
    LastEditDevice := serverNote.LastEditDevice }

/-- One iteration of the loop over the server map (lines 228-284). -/
def diffStep (clientMap : List (String × LocalNoteInfo)) (response : BatchDiffResponse)
    (entry : String × Note) : BatchDiffResponse :=
  let noteID := entry.1
  let serverNote := entry.2
  if serverNote.IsDeleted then
    match mapLookup clientMap noteID with
    | some _ => { response with ToDelete := response.ToDelete ++ [noteID] }
    | none => response
  else
    match mapLookup clientMap noteID with
    | none => { response with ToDownload := response.ToDownload ++ [downloadPayload serverNote] }
    | some clientNote =>
      if serverNote.ContentHash = clientNote.ContentHash then response
      else if serverNote.Version > clientNote.Version then
        let info : ConflictInfo :=
          { NoteID := noteID
            LocalHash := clientNote.ContentHash
            ServerHash := serverNote.ContentHash
            LocalVersion := clientNote.Version
            ServerVersion := serverNote.Version }
        { response with Conflicts := response.Conflicts ++ [info] }
      else { response with ToUpload := response.ToUpload ++ [noteID] }

/-- The response before the loop (lines 219-225). -/
def emptyDiff (now : Time) : BatchDiffResponse :=
  { ToDownload := [], ToUpload := [], ToDelete := [], Conflicts := [], SyncTime := now }

/-- Function `SyncService.ProcessBatchDiff`. The entries of the server map are
visited in the order `env.rangeOrder` gives them. -/
def ProcessBatchDiff (env : Env) (s : Store) (userID : String) (req : BatchDiffRequest) :
    Except Err BatchDiffResponse :=
  match listServerNotes env s userID req with
  | .error e => .error e
  | .ok serverNotes =>
    .ok ((env.rangeOrder (serverMapOf serverNotes)).foldl
      (diffStep (clientMapOf req.LocalNotes)) (emptyDiff env.now))

/-- Number of entries of a response that concern one note id. -/
def viewSize (v : List NoteResponse × List String × List String × List ConflictInfo) : Nat :=
  v.1.length + v.2.1.length + v.2.2.1.length + v.2.2.2.length

/-- The entries of a response that concern the note id `k`. -/
def idView (k : String) (r : BatchDiffResponse) :
    List NoteResponse × List String × List String × List ConflictInfo :=
  (r.ToDownload.filter (fun d => decide (d.ID = k)),
   r.ToUpload.filter (fun x => decide (x = k)),
   r.ToDelete.filter (fun x => decide (x = k)),
   r.Conflicts.filter (fun c => decide (c.NoteID = k)))

/-! ## Cursor sync (`SyncService.ProcessSyncRequest`, `GetChangesSince`) -/

/-- Key of the cursor document of a device (`sync_metadata_repository.go`, line 33). -/
def cursorDocID (userID deviceID : String) : String := "sync:" ++ userID ++ ":" ++ deviceID

/-- The stored cursor of a device, if any. -/
def Store.cursorOf (s : Store) (userID deviceID : String) : Option SyncMetadata :=
  mapLookup s.cursors (cursorDocID userID deviceID)

/-- Function `syncMetadataRepo.Get`: the stored cursor, or a fresh one with an
empty version map when the document does not exist. -/
def syncMetadataGet (fails : Bool) (env : Env) (s : Store) (userID deviceID : String) :
    Except Err SyncMetadata :=
  if fails then .error (.msg "failed to get sync metadata")
  else match s.cursorOf userID deviceID with
    | some metadata => .ok metadata
    | none =>
      .ok { UserID := userID
            DeviceID := deviceID
            LastSyncTime := 0
            NoteVersions := []
            PendingConflicts := []
            UpdatedAt := env.storeNow }

/-- The store after the cursor document `doc` was put under its key. -/
def Store.putCursor (s : Store) (doc : SyncMetadata) : Store :=
  { s with cursors := mapInsert (cursorDocID doc.UserID doc.DeviceID) doc s.cursors }

/-- Function `syncMetadataRepo.Upsert`: put the document of the cursor, stamped
with the repository's time. -/
def syncMetadataUpsert (fails : Bool) (env : Env) (s : Store) (metadata : SyncMetadata) :
    Except Err Store :=
  if fails then .error (.msg "failed to upsert sync metadata")
  else .ok (s.putCursor { metadata with UpdatedAt := env.storeNow })

/-- Function `syncMetadataRepo.UpdateLastSync`. -/
def syncMetadataUpdateLastSync (env : Env) (s : Store) (userID deviceID : String)
    (timestamp : Time) : Except Err Store :=
  match syncMetadataGet env.lastSyncFails env s userID deviceID with
  | .error e => .error e
  | .ok metadata =>
    syncMetadataUpsert env.lastSyncFails env s
      { metadata with LastSyncTime := timestamp, UpdatedAt := env.storeNow }

/-- Function `syncMetadataRepo.UpdateNoteVersion`. -/
def syncMetadataUpdateNoteVersion (env : Env) (s : Store) (userID deviceID noteID : String)
    (version : Int) : Except Err Store :=
  match syncMetadataGet (env.noteVersionFails noteID) env s userID deviceID with
  | .error e => .error e
  | .ok metadata =>
    syncMetadataUpsert (env.noteVersionFails noteID) env s
      { metadata with
        NoteVersions := mapInsert noteID version metadata.NoteVersions
        UpdatedAt := env.storeNow }

/-- The note payload of a change (`sync_service.go`, lines 53-67 and 109-123); the
workspace is not copied. -/
def changePayload (note : Note) : NoteResponse :=
  { ID := note.ID
    WorkspaceID := ""
    ParentID := note.ParentID
    Type_ := note.Type_
    EncryptedTitle := note.EncryptedTitle
    EncryptedContent := note.EncryptedContent
    EncryptionAlgo := note.EncryptionAlgo
    Nonce := note.Nonce
    CreatedAt := note.CreatedAt
    UpdatedAt := note.UpdatedAt
    IsDeleted := note.IsDeleted
    Version := note.Version
    ContentHash := note.ContentHash
    LastEditDevice := note.LastEditDevice }

/-- The change appended for a note (`sync_service.go`, lines 44-68 and 100-124). -/
def noteChange (note : Note) : NoteChange :=
  { NoteID := note.ID
    Operation := if note.IsDeleted then "delete" else "update"
    Version := note.Version
    Note := some (changePayload note) }

/-- One iteration of the first loop of `ProcessSyncRequest` (lines 40-70). -/
def syncStep (req : SyncRequest) (changes : List NoteChange) (note : Note) : List NoteChange :=
  match mapLookup req.NoteVersions note.ID with
  | none => changes ++ [noteChange note]
  | some clientVersion =>
    if clientVersion < note.Version then changes ++ [noteChange note] else changes

/-- One iteration of the second loop of `ProcessSyncRequest` (lines 77-81): a
failing `UpdateNoteVersion` is skipped. -/
def recordVersion (env : Env) (userID deviceID : String) (s : Store) (entry : String × Int) :
    Store :=
  match syncMetadataUpdateNoteVersion env s userID deviceID entry.1 entry.2 with
  | .ok s1 => s1
  | .error _ => s

/-- Function `SyncService.ProcessSyncRequest`. -/
def ProcessSyncRequest (env : Env) (s : Store) (userID deviceID : String) (req : SyncRequest) :
    Except Err SyncResponse × Store :=
  match noteRepoList env s userID with
  | .error e => (.error e, s)
  | .ok notes =>
    let changes := notes.foldl (syncStep req) []
    let syncTime := env.now
    match syncMetadataUpdateLastSync env s userID deviceID syncTime with
    | .error e => (.error e, s)
    | .ok s1 =>
      let s2 := (env.rangeVersions req.NoteVersions).foldl (recordVersion env userID deviceID) s1
      (.ok { Changes := changes, SyncTime := syncTime, HasMore := false }, s2)

/-- One iteration of the loop of `GetChangesSince` (lines 98-126). -/
def sinceStep (since : Time) (changes : List NoteChange) (note : Note) : List NoteChange :=
  if note.UpdatedAt > since then changes ++ [noteChange note] else changes

/-- Function `SyncService.GetChangesSince`. -/
def GetChangesSince (env : Env) (s : Store) (userID : String) (since : Time) :
    Except Err (List NoteChange) × Store :=
  match noteRepoList env s userID with
  | .error e => (.error e, s)
  | .ok notes => (.ok (notes.foldl (sinceStep since) []), s)

/-! ## Tombstoning (`NoteService.Delete`) -/

/-- The `float64` nearest to an integer, ties to the even significand: the value
`encoding/json` stores for a number member when a document is decoded into a
`map[string]interface{}`. Integers of magnitude below `2^53` are exact. -/
def float64OfInt (x : Int) : Int :=
  let n := x.natAbs
  if n < 9007199254740992 then x
  else
    let shift := Nat.log2 n + 1 - 53
    let q := n / 2 ^ shift
    let r := n % 2 ^ shift
    let half := 2 ^ (shift - 1)
    let q1 := if r > half ∨ (r = half ∧ q % 2 = 1) then q + 1 else q
    if x < 0 then -((q1 * 2 ^ shift : Nat) : Int) else ((q1 * 2 ^ shift : Nat) : Int)

/-- The conversion `int64(v)` of an integral `float64`. -/
def int64OfFloat64 (overflow : Int) (v : Int) : Int :=
  if minInt64 ≤ v ∧ v ≤ maxInt64 then v else overflow

/-- The document that `noteRepository.Delete` puts back (`note_repository.go`,
lines 160-165): the tombstone flag, the time stamp, and the version read as a
`float64`, converted and incremented. -/
def deletedDoc (env : Env) (existing : Note) : Note :=
  { existing with
    IsDeleted := true
    UpdatedAt := env.storeNow
    Version := wrapInt64 (int64OfFloat64 env.float64Overflow (float64OfInt existing.Version) + 1) }

/-- Function `noteRepository.Delete`. -/
def noteRepoDelete (env : Env) (s : Store) (id : String) : Except Err Store :=
  match s.noteByID id with
  | none => .error (.msg "not found")
  | some _ =>
    if env.noteDeleteFails then .error (.msg "failed to delete note")
    else .ok { s with notes := replaceFirst (fun n => decide (n.ID = id)) (deletedDoc env) s.notes }

/-- Function `NoteService.Delete`. -/
def NoteService.Delete (env : Env) (s : Store) (userID noteID : String) :
    Except Err Unit × Store :=
  match noteRepoFindByID env.findFails s noteID with
  | .error e => (.error e, s)
  | .ok note =>
    if note.UserID ≠ userID then
      (.error (.msg "unauthorized: note does not belong to user"), s)
    else
      match noteRepoDelete env s noteID with
      | .error e => (.error e, s)
      | .ok s1 => (.ok (), s1)

/-! ## Manifest (`SyncService.GetManifest`) -/

/-- Record `domain.ManifestEntry`. -/
structure ManifestEntry where
  ID : String
  ContentHash : String
  Version : Int
  UpdatedAt : Time
  IsDeleted : Bool
deriving DecidableEq, Repr

/-- Record `domain.ManifestResponse`. -/
structure ManifestResponse where
  Notes : List ManifestEntry
  SyncTime : Time
deriving DecidableEq, Repr

/-- The entry appended for a note (`sync_service.go`, lines 177-183). -/
def manifestEntry (note : Note) : ManifestEntry :=
  { ID := note.ID
    ContentHash := note.ContentHash
    Version := note.Version
    UpdatedAt := note.UpdatedAt
    IsDeleted := note.IsDeleted }

/-- Function `SyncService.GetManifest`: the notes of the workspace when one is
named, those of the user otherwise, one entry per note. -/
def GetManifest (env : Env) (s : Store) (userID workspaceID : String) :
    Except Err ManifestResponse :=
  let listed :=
    if workspaceID ≠ "" then noteRepoListByWorkspace env s workspaceID
    else noteRepoList env s userID
  match listed with
  | .error e => .error e
  | .ok notes => .ok { Notes := notes.map manifestEntry, SyncTime := env.now }

/-! ## CLI tokens (`CLITokenService.CreateToken`) -/

/-- Record `domain.CLIToken`. -/
structure CLIToken where
  ID : String
  UserID : String
  Name : String
  Token : String
  TokenPrefix : String
  Scopes : List String
  LastUsedAt : Option Time
  LastUsedIP : String
  CreatedAt : Time
  RevokedAt : Option Time
  IsRevoked : Bool
deriving DecidableEq, Repr

/-- Record `domain.CreateCLITokenRequest`. -/
structure CreateCLITokenRequest where
  Name : String
  Scopes : List String
deriving DecidableEq, Repr

/-- Record `domain.CreateCLITokenResponse`. -/
structure CreateCLITokenResponse where
  ID : String
  Name : String
  Token : String
  TokenPrefix : String
  Scopes : List String
  CreatedAt : Time
  Message : String
deriving DecidableEq, Repr

/-- What `CLITokenService.CreateToken` reads from outside the token documents. -/
structure TokenEnv where
  /-- The byte that `rand.Read` writes at each position of the buffer. -/
  rand : Nat → Nat
  /-- The call of `rand.Read` fails. -/
  randFails : Bool := false
  /-- Function `sha256.Sum256` followed by `hex.EncodeToString`. -/
  sha256Hex : String → String
  /-- Result of `uuid.New().String()`. -/
  uuid : String
  /-- Reading of `time.Now()`. -/
  now : Time
  /-- The user documents `userRepo.FindByID` finds. -/
  userExists : String → Bool
  /-- The call of `tokenRepo.Create` fails. -/
  tokenCreateFails : Bool := false

/-- The digits of `encoding/hex`. -/
def hextable : List Char := "0123456789abcdef".toList

/-- The two digits `hex.EncodeToString` writes for one byte. -/
def hexByte (b : Nat) : List Char :=
  [hextable.getD (b / 16 % 16) '0', hextable.getD (b % 16) '0']

/-- Function `hex.EncodeToString`. -/
def hexEncodeToString (bytes : List Nat) : String :=
  String.mk (bytes.flatMap hexByte)

/-- The buffer of `n` bytes after `rand.Read`. -/
def randBytes (env : TokenEnv) (n : Nat) : List Nat :=
  (List.range n).map (fun i => env.rand i % 256)

/-- Function `generateSecureToken`: the prefix `ink_` and the hexadecimal form of
32 random bytes. -/
def generateSecureToken (env : TokenEnv) : Except Err String :=
  if env.randFails then .error (.msg "failed to generate random bytes")
  else .ok ("ink_" ++ hexEncodeToString (randBytes env 32))

/-- Function `hashToken`. -/
def hashToken (env : TokenEnv) (token : String) : String := env.sha256Hex token

/-- Function `domain.DefaultCLIScopes`. -/
def DefaultCLIScopes : List String :=
  ["theme:publish", "theme:delete", "theme:update",
   "plugin:publish", "plugin:delete", "plugin:update"]

/-- Function `CLITokenService.CreateToken`; the token documents are the list
`tokens`. The slice `plainToken[:12]` panics on a shorter string. -/
def CreateToken (env : TokenEnv) (tokens : List CLIToken) (userID : String)
    (req : CreateCLITokenRequest) : Except Err CreateCLITokenResponse × List CLIToken :=
  if env.userExists userID = false then (.error (.msg "user not found"), tokens)
  else
    match generateSecureToken env with
    | .error _ => (.error (.msg "failed to generate token"), tokens)
    | .ok plainToken =>
      let hashedToken := hashToken env plainToken
      let scopes := if req.Scopes.length = 0 then DefaultCLIScopes else req.Scopes
      if plainToken.length < 12 then (.error (.panic "slice bounds out of range"), tokens)
      else
        let token : CLIToken :=
          { ID := env.uuid
            UserID := userID
            Name := req.Name
            Token := hashedToken
            TokenPrefix := plainToken.take 12
            Scopes := scopes
            LastUsedAt := none
            LastUsedIP := ""
            CreatedAt := env.now
            RevokedAt := none
            IsRevoked := false }
        if env.tokenCreateFails then (.error (.msg "failed to create token"), tokens)
        else
          (.ok { ID := token.ID
                 Name := token.Name
                 Token := plainToken
                 TokenPrefix := token.TokenPrefix
                 Scopes := token.Scopes
                 CreatedAt := token.CreatedAt
                 Message := "Token created successfully. Store it safely - it won\x27t be shown again!" },
           tokens ++ [token])

/-! ## Sample data -/

/-- A note of user `u1` at version 2. -/
def sampleNote : Note :=
  { ID := "n1"
    UserID := "u1"
    WorkspaceID := "w1"
    ParentID := none
    Type_ := "file"
    EncryptedTitle := "t"
    EncryptedContent := "c"
    EncryptionAlgo := "algo"
    Nonce := "x"
    CreatedAt := 1
    UpdatedAt := 2
    IsDeleted := false
    Version := 2
    ContentHash := "h"
    LastEditDevice := "d1" }

/-- A store holding `sampleNote` only. -/
def sampleStore : Store := { notes := [sampleNote], versions := [], conflicts := [] }

/-- A fan-out environment: messages marshal to their type and payload, the ids of
a user are visited in the order they were added. -/
def wsEnv : WsEnv := { jsonMarshal := fun msg => .ok (msg.Type_ ++ ":" ++ msg.Payload.getD "") }

/-- An environment in which every storage call succeeds; the payload of a note
update marshals to the note id. -/
def sampleEnv : Env :=
  { now := 5
    snapshotNow := 4
    storeNow := 6
    uuid := "c1"
    marshalPayload := fun payload => .ok payload.NoteID
    messageNow := 7
    ws := wsEnv }

/-- A patch of the title sent by device `d2`, without an expected version. -/
def titlePatch : UpdateNoteRequest :=
  { EncryptedTitle := some "t2"
    EncryptedContent := none
    EncryptionAlgo := none
    Nonce := none
    ParentID := none
    IsDeleted := none
    ExpectedVersion := none
    ContentHash := none
    DeviceID := "d2" }

/-- The creation request of the service test (`TestNoteService_Update`). -/
def createRequest : CreateNoteRequest :=
  { WorkspaceID := ""
    ParentID := none
    Type_ := "file"
    EncryptedTitle := "old"
    EncryptedContent := ""
    EncryptionAlgo := "algo"
    Nonce := "n"
    ContentHash := ""
    DeviceID := "d1" }

/-- The store after user `u1` created a note (id `c1`) in an empty store. -/
def freshStore : Store :=
  (NoteService.Create sampleEnv { notes := [], versions := [], conflicts := [] } "u1"
    createRequest).2

/-- The freshly created note, at version 1. -/
def freshNote : Note :=
  { ID := "c1"
    UserID := "u1"
    WorkspaceID := ""
    ParentID := none
    Type_ := "file"
    EncryptedTitle := "old"
    EncryptedContent := ""
    EncryptionAlgo := "algo"
    Nonce := "n"
    CreatedAt := 5
    UpdatedAt := 5
    IsDeleted := false
    Version := 1
    ContentHash := ""
    LastEditDevice := "d1" }

/-- The same patch sent by a stale device that expects version 1. -/
def staleRequest : UpdateNoteRequest := { titlePatch with ExpectedVersion := some 1 }

/-- Scenario B: a server note with hash `h1` at version 3. -/
def serverNoteB : Note := { sampleNote with ID := "b1", ContentHash := "h1", Version := 3 }

/-- The tombstone of `serverNoteB`. -/
def tombstoneB : Note := { serverNoteB with IsDeleted := true }

/-- A store holding `serverNoteB` only. -/
def storeB : Store := { notes := [serverNoteB], versions := [], conflicts := [] }

/-- A store holding `tombstoneB` only. -/
def tombstoneStoreB : Store := { notes := [tombstoneB], versions := [], conflicts := [] }

/-- A batch diff request of device `d2` for workspace `w1`. -/
def diffRequest (localNotes : List LocalNoteInfo) : BatchDiffRequest :=
  { WorkspaceID := "w1", DeviceID := "d2", LocalNotes := localNotes }

/-- The store after the stale update of `sampleNote` (version 2) was rejected and
recorded as conflict `c1`, and two further updates brought the note to version 4. -/
def storeAfterTwoUpdates : Store :=
  let s1 := (NoteService.Update sampleEnv sampleStore "u1" "n1" staleRequest).2
  let s2 := (NoteService.Update sampleEnv s1 "u1" "n1" titlePatch).2
  (NoteService.Update sampleEnv s2 "u1" "n1" titlePatch).2

/-- Two server notes with the id `b1` (the later one is the tombstone) and the
note `n1`. -/
def repeatedStore : Store :=
  { notes := [serverNoteB, sampleNote, tombstoneB], versions := [], conflicts := [] }

/-- The store after the stale update of `sampleNote` (version 2, updated at time 2)
was rejected and recorded as conflict `c1`. -/
def storeAfterConflict : Store :=
  (NoteService.Update sampleEnv sampleStore "u1" "n1" staleRequest).2

/-- An environment whose clock reads 1, before the last update of `sampleNote`. -/
def earlyEnv : Env := { sampleEnv with now := 1, snapshotNow := 1, uuid := "c2" }

/-- An environment in which `conflictRepo.MarkResolved` fails. -/
def markFailsEnv : Env := { sampleEnv with uuid := "c2", markResolvedFails := true }

/-- A stale patch that also moves the note, changes the algorithm and sets the
tombstone. -/
def movePatch : UpdateNoteRequest :=
  { EncryptedTitle := some "t2"
    EncryptedContent := none
    EncryptionAlgo := some "algo2"
    Nonce := none
    ParentID := some "p9"
    IsDeleted := some true
    ExpectedVersion := some 1
    ContentHash := none
    DeviceID := "d2" }

/-- The store after the stale update `movePatch` of `sampleNote` was rejected and
recorded as conflict `c1`. -/
def storeAfterMoveConflict : Store :=
  (NoteService.Update sampleEnv sampleStore "u1" "n1" movePatch).2

/-- A conflict document without client data, under the key `c9`. -/
def bareConflict : Conflict :=
  { ID := ""
    NoteID := "n1"
    UserID := "u1"
    Type_ := "update"
    BaseVersion := 1
    ServerVersion := 2
    ClientVersion := 2
    ServerNote := some sampleNote
    ClientData := none
    DeviceID := "d2"
    DetectedAt := 3
    ResolvedAt := none
    ResolutionChoice := "" }

/-- A store holding `sampleNote` and the conflict `c9` without client data. -/
def bareStore : Store :=
  { notes := [sampleNote], versions := [], conflicts := [("c9", bareConflict)] }

/-- A cursor of device `d2` of user `u1` that knows note `old` at version 7. -/
def oldCursor : SyncMetadata :=
  { UserID := "u1"
    DeviceID := "d2"
    LastSyncTime := 3
    NoteVersions := [("old", 7)]
    PendingConflicts := []
    UpdatedAt := 3 }

/-- A store holding `sampleNote`, `serverNoteB` and the cursor `oldCursor`. -/
def cursorStore : Store :=
  { notes := [sampleNote, serverNoteB]
    versions := []
    conflicts := []
    cursors := [("sync:u1:d2", oldCursor)] }

/-- A sync request of device `d2` declaring note `n1` at version 2. -/
def syncRequest : SyncRequest :=
  { DeviceID := "d2", LastSyncTime := 3, NoteVersions := [("n1", 2)] }

/-- An environment in which `versionRepo.SaveVersion` fails. -/
def saveFailsEnv : Env := { sampleEnv with saveVersionFails := true }

/-- A note of user `u2` in the workspace `w2`. -/
def foreignNote : Note := { sampleNote with ID := "f1", UserID := "u2", WorkspaceID := "w2" }

/-- A store holding `foreignNote` only. -/
def foreignStore : Store := { notes := [foreignNote], versions := [], conflicts := [] }

/-- A store without documents. -/
def emptyStore : Store := { notes := [], versions := [], conflicts := [] }

/-- A batch-diff request for the workspace `w2` from a device without local notes. -/
def foreignRequest : BatchDiffRequest :=
  { WorkspaceID := "w2", DeviceID := "d9", LocalNotes := [] }

/-- A token environment whose random bytes are 250, 1, 8, 15, ... and in which
user `u1` exists. -/
def tokenEnv : TokenEnv :=
  { rand := fun i => 7 * i + 250
    sha256Hex := fun t => "sha256:" ++ t
    uuid := "t1"
    now := 5
    userExists := fun u => decide (u = "u1") }

/-- A token request without scopes. -/
def tokenRequest : CreateCLITokenRequest := { Name := "laptop", Scopes := [] }

/-- An empty outbound queue with room for two messages. -/
def openChan : Chan := { buf := [], cap := 2, closed := false }

/-- An outbound queue of capacity two that is full. -/
def fullChan : Chan := { buf := ["m1", "m2"], cap := 2, closed := false }

/-- Connection `a` of user `u1`, device `d1`. -/
def clientA : Client := { ID := "a", UserID := "u1", DeviceID := "d1", Send := "chA" }

/-- Connection `b` of user `u1`, device `d2`. -/
def clientB : Client := { ID := "b", UserID := "u1", DeviceID := "d2", Send := "chB" }

/-- Connection `c` of user `u1`, device `d3`. -/
def clientC : Client := { ID := "c", UserID := "u1", DeviceID := "d3", Send := "chC" }

/-- A `note_update` message about note `n1`. -/
def noteUpdateMessage : Message :=
  { Type_ := "note_update", Timestamp := 5, Payload := some "n1" }

/-- The queues of the connections `a`, `b` and `c`, all open and empty. -/
def threeChans : List (String × Chan) :=
  [("chA", openChan), ("chB", openChan), ("chC", openChan)]

/-- Scenario C before the third registration: cap 2, `a` and `b` registered. -/
def twoClients : Manager :=
  { clients := [("a", clientA), ("b", clientB)]
    userIndex := [("u1", ["a", "b"])]
    maxConnPerUser := 2
    chans := threeChans
    run := .selecting }

/-- A registry in which the connections `a` and `b` of user `u1` are stalled
(their queues are full) and `c` has room. -/
def stalledManager : Manager :=
  { clients := [("a", clientA), ("b", clientB), ("c", clientC)]
    userIndex := [("u1", ["a", "b", "c"])]
    maxConnPerUser := 5
    chans := [("chA", fullChan), ("chB", fullChan), ("chC", openChan)]
    run := .selecting }

/-- The sample store in a process whose registry is `stalledManager`. -/
def stalledStore : Store := { sampleStore with registry := some stalledManager }

/-- The title patch sent by device `d3`, the device of connection `c`. -/
def titlePatchFromD3 : UpdateNoteRequest := { titlePatch with DeviceID := "d3" }

/-! ## Auxiliary lemmas -/

theorem wrapInt64_succ (v : Int) (hlo : minInt64 ≤ v) (hhi : v < maxInt64) :
    wrapInt64 (v + 1) = v + 1 := by
  unfold wrapInt64
  unfold minInt64 at hlo
  unfold maxInt64 at hhi
  omega

theorem find?_replaceFirst {α : Type} (p : α → Bool) (f : α → α)
    (hf : ∀ x, p x = true → p (f x) = true) (l : List α) :
    (replaceFirst p f l).find? p = (l.find? p).map f := by
  induction l with
  | nil => simp [replaceFirst]
  | cons x xs ih =>
    by_cases hx : p x = true
    · simp [replaceFirst, hx, List.find?_cons, hf x hx]
    · simp [replaceFirst, hx, List.find?_cons, ih]

theorem noteByID_id (s : Store) (id : String) (n : Note) (h : s.noteByID id = some n) :
    n.ID = id := by
  unfold Store.noteByID at h
  have := List.find?_some h
  simpa using this

theorem noteRepoUpdate_ok (env : Env) (s : Store) (note pre : Note)
    (hpre : s.noteByID note.ID = some pre) (hok : env.noteUpdateFails = false) :
    ∃ s1, noteRepoUpdate env s note = .ok s1 ∧
      s1.noteByID note.ID = some (updatedDoc env.storeNow note pre) ∧
      s1.versions = s.versions ∧ s1.conflicts = s.conflicts ∧ s1.registry = s.registry := by
  refine ⟨{ s with
    notes := replaceFirst (fun n => decide (n.ID = note.ID))
      (updatedDoc env.storeNow note) s.notes }, ?_, ?_, rfl, rfl, rfl⟩
  · simp [noteRepoUpdate, hpre, hok]
  · unfold Store.noteByID at hpre ⊢
    rw [find?_replaceFirst _ _ (by intro x hx; simpa [updatedDoc] using hx), hpre]
    rfl

theorem saveVersion_frame (env : Env) (s : Store) (note : Note) :
    (match versionRepoSaveVersion env s note with
      | .ok s1 => s1
      | .error _ => s).notes = s.notes ∧
    (match versionRepoSaveVersion env s note with
      | .ok s1 => s1
      | .error _ => s).conflicts = s.conflicts := by
  unfold versionRepoSaveVersion
  cases env.saveVersionFails <;> simp

/-- The fan-out at the end of a create or update touches the registry only. -/
theorem broadcastAndReturn_frame (env : Env) (s : Store) (userID deviceID : String)
    (response : NoteResponse) :
    (NoteService.broadcastAndReturn env s userID deviceID response).2.notes = s.notes ∧
    (NoteService.broadcastAndReturn env s userID deviceID response).2.versions = s.versions ∧
    (NoteService.broadcastAndReturn env s userID deviceID response).2.conflicts
      = s.conflicts ∧
    (NoteService.broadcastAndReturn env s userID deviceID response).2.cursors = s.cursors := by
  unfold NoteService.broadcastAndReturn
  cases s.registry with
  | none => exact ⟨rfl, rfl, rfl, rfl⟩
  | some m =>
    simp only
    rcases BroadcastNoteUpdate env m userID deviceID response with ⟨_ | _ | _, m1⟩ <;>
      exact ⟨rfl, rfl, rfl, rfl⟩

/-- What the call returns after the fan-out, when it returns, is the response. -/
theorem broadcastAndReturn_ok (env : Env) (s : Store) (userID deviceID : String)
    (response resp : NoteResponse)
    (h : (NoteService.broadcastAndReturn env s userID deviceID response).1 = .ok resp) :
    resp = response := by
  unfold NoteService.broadcastAndReturn at h
  cases hr : s.registry with
  | none =>
    rw [hr] at h
    simp only [Except.ok.injEq] at h
    exact h.symm
  | some m =>
    rw [hr] at h
    simp only at h
    rcases hb : BroadcastNoteUpdate env m userID deviceID response with ⟨_ | _ | _, m1⟩ <;>
      rw [hb] at h <;> simp only [Except.ok.injEq] at h
    · exact h.symm
    · cases h
    · cases h

/-- Without a sync service the call returns the response and leaves the store. -/
theorem broadcastAndReturn_none (env : Env) (s : Store) (userID deviceID : String)
    (response : NoteResponse) (h : s.registry = none) :
    NoteService.broadcastAndReturn env s userID deviceID response = (.ok response, s) := by
  unfold NoteService.broadcastAndReturn
  rw [h]

/-- When the fan-out returns, whatever its error, the call ends with the response. -/
theorem broadcastAndReturn_returned (env : Env) (s : Store) (userID deviceID : String)
    (response : NoteResponse) (m : Manager) (err : Option Err)
    (h : s.registry = some m)
    (hb : (BroadcastNoteUpdate env m userID deviceID response).1 = .returned err) :
    (NoteService.broadcastAndReturn env s userID deviceID response).1 = .ok response := by
  unfold NoteService.broadcastAndReturn
  rw [h]
  simp only
  rcases hb2 : BroadcastNoteUpdate env m userID deviceID response with ⟨_ | _ | _, m1⟩ <;>
    rw [hb2] at hb <;> first | rfl | cases hb

/-- The store after the mutating half of an update whose repository write
succeeds, whatever becomes of the fan-out. -/
theorem applyUpdate_store (env : Env) (s : Store) (userID : String) (note pre : Note)
    (req : UpdateNoteRequest) (hpre : s.noteByID note.ID = some pre)
    (hok : env.noteUpdateFails = false) :
    (∃ s2, s2.registry = s.registry ∧
      NoteService.applyUpdate env s userID note req
        = NoteService.broadcastAndReturn env s2 userID req.DeviceID
            (noteResponse (applyPatch env.now note req))) ∧
    (NoteService.applyUpdate env s userID note req).2.noteByID note.ID
      = some (updatedDoc env.storeNow (applyPatch env.now note req) pre) ∧
    (NoteService.applyUpdate env s userID note req).2.conflicts = s.conflicts := by
  obtain ⟨hn, hc⟩ := saveVersion_frame env s note
  have hreg : (match versionRepoSaveVersion env s note with
      | .ok s1 => s1
      | .error _ => s).registry = s.registry := by
    unfold versionRepoSaveVersion
    cases env.saveVersionFails <;> simp
  generalize hs1 : (match versionRepoSaveVersion env s note with
      | .ok s1 => s1
      | .error _ => s) = s1 at hn hc hreg
  have hpre1 : s1.noteByID (applyPatch env.now note req).ID = some pre := by
    have : (applyPatch env.now note req).ID = note.ID := rfl
    rw [this]
    unfold Store.noteByID at hpre ⊢
    rw [hn]
    exact hpre
  obtain ⟨s2, h2, hfind, _, hconf, hreg2⟩ :=
    noteRepoUpdate_ok env s1 (applyPatch env.now note req) pre hpre1 hok
  have hrun : NoteService.applyUpdate env s userID note req
      = NoteService.broadcastAndReturn env s2 userID req.DeviceID
          (noteResponse (applyPatch env.now note req)) := by
    unfold NoteService.applyUpdate
    simp only [hs1, h2]
  obtain ⟨f1, _, f3, _⟩ := broadcastAndReturn_frame env s2 userID req.DeviceID
    (noteResponse (applyPatch env.now note req))
  refine ⟨⟨s2, by rw [hreg2, hreg], hrun⟩, ?_, ?_⟩
  · rw [hrun]
    unfold Store.noteByID at hfind ⊢
    rw [f1]
    exact hfind
  · rw [hrun, f3, hconf, hc]

/-- The response of the mutating half of an update, when the call returns one. -/
theorem applyUpdate_ok (env : Env) (s : Store) (userID : String) (note pre : Note)
    (req : UpdateNoteRequest) (resp : NoteResponse)
    (hpre : s.noteByID note.ID = some pre) (hok : env.noteUpdateFails = false)
    (h : (NoteService.applyUpdate env s userID note req).1 = .ok resp) :
    resp = noteResponse (applyPatch env.now note req) := by
  obtain ⟨⟨s2, _, hrun⟩, _, _⟩ := applyUpdate_store env s userID note pre req hpre hok
  rw [hrun] at h
  exact broadcastAndReturn_ok env s2 userID req.DeviceID _ resp h

theorem applyUpdate_error (env : Env) (s : Store) (userID : String) (note : Note)
    (req : UpdateNoteRequest) (hfail : env.noteUpdateFails = true) :
    ∃ e, (NoteService.applyUpdate env s userID note req).1 = .error e := by
  have herr : ∀ s1 n, ∃ e, noteRepoUpdate env s1 n = .error e := by
    intro s1 n
    unfold noteRepoUpdate
    cases s1.noteByID n.ID <;> simp [hfail]
  unfold NoteService.applyUpdate
  obtain ⟨e, he⟩ := herr (match versionRepoSaveVersion env s note with
      | .ok s1 => s1
      | .error _ => s) (applyPatch env.now note req)
  exact ⟨e, by simp only [he]⟩

/-! ### Go maps as entry lists -/

theorem mem_mapInsert {α : Type} (k : String) (v : α) (m : List (String × α))
    (e : String × α) (he : e ∈ mapInsert k v m) : e = (k, v) ∨ e ∈ m := by
  induction m with
  | nil =>
    simp only [mapInsert, List.mem_singleton] at he
    exact Or.inl he
  | cons x xs ih =>
    unfold mapInsert at he
    by_cases hx : x.1 = k
    · simp only [hx, if_true, List.mem_cons] at he
      rcases he with he | he
      · exact Or.inl he
      · exact Or.inr (List.mem_cons_of_mem _ he)
    · simp only [hx, if_false, List.mem_cons] at he
      rcases he with he | he
      · exact Or.inr (he ▸ List.mem_cons_self _ _)
      · rcases ih he with h | h
        · exact Or.inl h
        · exact Or.inr (List.mem_cons_of_mem _ h)

theorem keys_mapInsert {α : Type} (k : String) (v : α) (m : List (String × α)) :
    (mapInsert k v m).map Prod.fst
      = if k ∈ m.map Prod.fst then m.map Prod.fst else m.map Prod.fst ++ [k] := by
  induction m with
  | nil => simp [mapInsert]
  | cons x xs ih =>
    unfold mapInsert
    by_cases hx : x.1 = k
    · simp [hx]
    · have hx2 : ¬ k = x.1 := fun h => hx h.symm
      simp only [hx, if_false, List.map_cons, ih, List.mem_cons, hx2, false_or]
      split <;> simp

theorem nodup_keys_mapInsert {α : Type} (k : String) (v : α) (m : List (String × α))
    (hm : (m.map Prod.fst).Nodup) : ((mapInsert k v m).map Prod.fst).Nodup := by
  rw [keys_mapInsert]
  split
  · exact hm
  · rename_i hk
    rw [List.nodup_append]
    refine ⟨hm, List.nodup_singleton k, ?_⟩
    intro a ha hb
    simp only [List.mem_singleton] at hb
    exact hk (hb ▸ ha)

theorem mapLookup_mapInsert {α : Type} (k : String) (v : α) (m : List (String × α))
    (k2 : String) :
    mapLookup (mapInsert k v m) k2 = if k2 = k then some v else mapLookup m k2 := by
  induction m with
  | nil =>
    by_cases h : k2 = k
    · simp [mapInsert, mapLookup, h]
    · have h2 : ¬ k = k2 := fun e => h e.symm
      simp [mapInsert, mapLookup, h, h2]
  | cons x xs ih =>
    unfold mapInsert
    by_cases hx : x.1 = k
    · by_cases h : k2 = k
      · simp [mapLookup, hx, h]
      · have h2 : ¬ k = k2 := fun e => h e.symm
        simp [mapLookup, hx, h, h2]
    · simp only [hx, if_false]
      by_cases hx2 : x.1 = k2
      · have h : ¬ k2 = k := fun e => hx (hx2.trans e)
        simp [mapLookup, hx2, h]
      · have step : ∀ l : List (String × α), mapLookup (x :: l) k2 = mapLookup l k2 := by
          intro l
          simp [mapLookup, hx2]
        rw [step, step, ih]

theorem mapLookup_mem {α : Type} (m : List (String × α)) (k : String) (v : α)
    (h : mapLookup m k = some v) : (k, v) ∈ m := by
  unfold mapLookup at h
  cases hf : m.find? (fun e => decide (e.1 = k)) with
  | none => simp [hf] at h
  | some e =>
    simp only [hf, Option.map_some', Option.some.injEq] at h
    have hk : e.1 = k := by simpa using List.find?_some hf
    have hm : e ∈ m := List.mem_of_find?_eq_some hf
    have : e = (k, v) := Prod.ext hk h
    exact this ▸ hm

/-- The map built by assigning `m[key x] = x` for the elements of a list in turn. -/
theorem nodup_keys_foldl {α : Type} (key : α → String) (l : List α) (m0 : List (String × α))
    (h0 : (m0.map Prod.fst).Nodup) :
    ((l.foldl (fun m x => mapInsert (key x) x m) m0).map Prod.fst).Nodup := by
  induction l generalizing m0 with
  | nil => exact h0
  | cons x xs ih => exact ih _ (nodup_keys_mapInsert _ _ _ h0)

theorem key_eq_foldl {α : Type} (key : α → String) (l : List α) (m0 : List (String × α))
    (h0 : ∀ e ∈ m0, key e.2 = e.1) :
    ∀ e ∈ l.foldl (fun m x => mapInsert (key x) x m) m0, key e.2 = e.1 := by
  induction l generalizing m0 with
  | nil => exact h0
  | cons x xs ih =>
    apply ih
    intro e he
    rcases mem_mapInsert _ _ _ _ he with h | h
    · rw [h]
    · exact h0 e h

theorem mapLookup_foldl_isSome {α : Type} (key : α → String) (l : List α)
    (m0 : List (String × α)) (k : String) :
    (mapLookup (l.foldl (fun m x => mapInsert (key x) x m) m0) k).isSome = true
      ↔ (∃ x ∈ l, key x = k) ∨ (mapLookup m0 k).isSome = true := by
  induction l generalizing m0 with
  | nil => simp
  | cons x xs ih =>
    rw [List.foldl_cons, ih, mapLookup_mapInsert]
    by_cases hk : k = key x
    · simp [hk]
    · have hk2 : ¬ key x = k := fun e => hk e.symm
      simp [hk, hk2]

theorem split_at_key {α : Type} (l : List (String × α)) (e : String × α)
    (hl : (l.map Prod.fst).Nodup) (he : e ∈ l) :
    ∃ pre post, l = pre ++ e :: post ∧ (∀ x ∈ pre, x.1 ≠ e.1) ∧ (∀ x ∈ post, x.1 ≠ e.1) := by
  obtain ⟨pre, post, rfl⟩ := List.append_of_mem he
  refine ⟨pre, post, rfl, ?_, ?_⟩
  · intro x hx hxe
    rw [List.map_append, List.nodup_append] at hl
    exact hl.2.2 (List.mem_map_of_mem Prod.fst hx) (by simp [hxe])
  · intro x hx hxe
    rw [List.map_append, List.map_cons, List.nodup_append, List.nodup_cons] at hl
    exact hl.2.1.1 (hxe ▸ List.mem_map_of_mem Prod.fst hx)

/-! ### The loop of the batch diff, seen from one note id -/

theorem idView_step_congr (cm : List (String × LocalNoteInfo)) (k : String)
    (r r2 : BatchDiffResponse) (e : String × Note) (h : idView k r = idView k r2) :
    idView k (diffStep cm r e) = idView k (diffStep cm r2 e) := by
  simp only [idView, Prod.mk.injEq] at h
  obtain ⟨h1, h2, h3, h4⟩ := h
  unfold diffStep
  by_cases hd : e.2.IsDeleted = true
  · cases hl : mapLookup cm e.1 <;> simp [idView, hd, hl, List.filter_append, h1, h2, h3, h4]
  · cases hl : mapLookup cm e.1 with
    | none => simp [idView, hd, hl, List.filter_append, h1, h2, h3, h4]
    | some c =>
      by_cases hh : e.2.ContentHash = c.ContentHash
      · simp [idView, hd, hl, hh, h1, h2, h3, h4]
      · by_cases hv : e.2.Version > c.Version
        · simp [idView, hd, hl, hh, hv, List.filter_append, h1, h2, h3, h4]
        · simp [idView, hd, hl, hh, hv, List.filter_append, h1, h2, h3, h4]

theorem idView_step_other (cm : List (String × LocalNoteInfo)) (k : String)
    (r : BatchDiffResponse) (e : String × Note) (hk : e.1 ≠ k) (hid : e.2.ID = e.1) :
    idView k (diffStep cm r e) = idView k r := by
  unfold diffStep
  by_cases hd : e.2.IsDeleted = true
  · cases hl : mapLookup cm e.1 <;> simp [idView, hd, hl, List.filter_append, hk]
  · cases hl : mapLookup cm e.1 with
    | none => simp [idView, hd, hl, List.filter_append, downloadPayload, hid, hk]
    | some c =>
      by_cases hh : e.2.ContentHash = c.ContentHash
      · simp [idView, hd, hl, hh]
      · by_cases hv : e.2.Version > c.Version
        · simp [idView, hd, hl, hh, hv, List.filter_append, hk]
        · simp [idView, hd, hl, hh, hv, List.filter_append, hk]

theorem idView_fold_other (cm : List (String × LocalNoteInfo)) (k : String)
    (l : List (String × Note)) (r : BatchDiffResponse)
    (hl : ∀ e ∈ l, e.1 ≠ k ∧ e.2.ID = e.1) :
    idView k (l.foldl (diffStep cm) r) = idView k r := by
  induction l generalizing r with
  | nil => rfl
  | cons x xs ih =>
    rw [List.foldl_cons, ih _ (fun e he => hl e (List.mem_cons_of_mem _ he))]
    exact idView_step_other cm k r x (hl x (List.mem_cons_self _ _)).1
      (hl x (List.mem_cons_self _ _)).2

theorem idView_fold (cm : List (String × LocalNoteInfo)) (k : String) (n : Note)
    (l : List (String × Note)) (r : BatchDiffResponse)
    (hnodup : (l.map Prod.fst).Nodup) (hid : ∀ e ∈ l, e.2.ID = e.1) (hmem : (k, n) ∈ l) :
    idView k (l.foldl (diffStep cm) r) = idView k (diffStep cm r (k, n)) := by
  obtain ⟨pre, post, rfl, hpre, hpost⟩ := split_at_key l (k, n) hnodup hmem
  rw [List.foldl_append, List.foldl_cons]
  rw [idView_fold_other cm k post _ (fun e he =>
    ⟨hpost e he, hid e (List.mem_append_right _ (List.mem_cons_of_mem _ he))⟩)]
  apply idView_step_congr
  exact idView_fold_other cm k pre r (fun e he =>
    ⟨hpre e he, hid e (List.mem_append_left _ he)⟩)

/-- The entries of the response of `ProcessBatchDiff` for the id of a note held by
the server map are those the loop body produces for that note alone. -/
theorem processBatchDiff_view (env : Env) (s : Store) (userID : String)
    (req : BatchDiffRequest) (serverNotes : List Note) (id : String) (n : Note)
    (hlist : listServerNotes env s userID req = .ok serverNotes)
    (hperm : ∀ m, (env.rangeOrder m).Perm m)
    (hs : mapLookup (serverMapOf serverNotes) id = some n) :
    n.ID = id ∧ ∃ resp, ProcessBatchDiff env s userID req = .ok resp ∧
      idView id resp
        = idView id (diffStep (clientMapOf req.LocalNotes) (emptyDiff env.now) (id, n)) := by
  have hmem : (id, n) ∈ serverMapOf serverNotes := mapLookup_mem _ _ _ hs
  have hkeys : ∀ e ∈ serverMapOf serverNotes, e.2.ID = e.1 :=
    key_eq_foldl (fun x : Note => x.ID) serverNotes [] (by simp)
  have hnodup : ((serverMapOf serverNotes).map Prod.fst).Nodup :=
    nodup_keys_foldl (fun x : Note => x.ID) serverNotes [] (by simp)
  have hp := hperm (serverMapOf serverNotes)
  refine ⟨hkeys _ hmem, (env.rangeOrder (serverMapOf serverNotes)).foldl
    (diffStep (clientMapOf req.LocalNotes)) (emptyDiff env.now), ?_, ?_⟩
  · simp only [ProcessBatchDiff, hlist]
  · exact idView_fold _ id n _ _ ((hp.map Prod.fst).nodup_iff.mpr hnodup)
      (fun e he => hkeys e (hp.mem_iff.mp he)) (hp.mem_iff.mpr hmem)

theorem filter_nil_forall {α : Type} (p : α → Bool) (l : List α) (h : l.filter p = []) :
    ∀ x ∈ l, p x = false := by
  induction l with
  | nil => intro x hx; cases hx
  | cons y ys ih =>
    cases hy : p y with
    | true => simp [List.filter_cons, hy] at h
    | false =>
      simp only [List.filter_cons, hy, Bool.false_eq_true, if_false] at h
      intro x hx
      rcases List.mem_cons.mp hx with hxy | hxs
      · rw [hxy]; exact hy
      · exact ih h x hxs

theorem count_one_of_filter (l : List String) (k : String)
    (h : l.filter (fun x => decide (x = k)) = [k]) : l.count k = 1 := by
  have hc : l.count k = (l.filter (fun x => decide (x = k))).length := by
    rw [List.count, List.countP_eq_length_filter]
    congr 2
  rw [hc, h]
  rfl

theorem not_mem_of_filter_nil (l : List String) (k : String)
    (h : l.filter (fun x => decide (x = k)) = []) : k ∉ l := by
  intro hk
  simpa using filter_nil_forall _ l h k hk

theorem ids_ne_of_filter_nil {α : Type} (key : α → String) (l : List α) (k : String)
    (h : l.filter (fun x => decide (key x = k)) = []) : ∀ x ∈ l, key x ≠ k := by
  intro x hx
  simpa using filter_nil_forall _ l h x hx

/-! ## Optimistic update: theorems -/

/-- C1. When the requester owns the stored note and the request carries an
expected version different from the stored one, `NoteService.Update` returns an
error, the note documents are exactly those of before (so the note keeps its
content, version, time stamp, editing device and tombstone) and no version
snapshot is appended. This holds whichever storage call fails or succeeds. -/
theorem update_mismatch_leaves_note_and_log (env : Env) (s : Store) (userID noteID : String)
    (req : UpdateNoteRequest) (note : Note) (e : Int)
    (hnote : s.noteByID noteID = some note) (howner : note.UserID = userID)
    (hexp : req.ExpectedVersion = some e) (hne : e ≠ note.Version) :
    (∃ err, (NoteService.Update env s userID noteID req).1 = .error err) ∧
    (NoteService.Update env s userID noteID req).2.notes = s.notes ∧
    (NoteService.Update env s userID noteID req).2.noteByID noteID = some note ∧
    (NoteService.Update env s userID noteID req).2.versions = s.versions := by
  have hne2 : ¬ note.Version = e := fun h => hne h.symm
  unfold NoteService.Update noteRepoFindByID
  cases hf : env.findFails
  · simp only [hnote, howner, hexp, hne, Bool.false_eq_true, if_false, if_true, ne_eq,
      not_true_eq_false, not_false_eq_true]
    unfold DetectConflict noteRepoFindByID
    cases hd : env.detectFindFails
    · simp only [hnote, howner, hne2, Bool.false_eq_true, if_false, ne_eq, not_true_eq_false]
      unfold conflictRepoCreate
      cases hc : env.conflictCreateFails
      · by_cases hk : (s.conflicts.find? (fun d => decide (d.1 = env.uuid))).isSome = true
        · simp [hk, hnote]
        · simpa [hk, Store.noteByID] using hnote
      · simp [hnote]
    · simp [hnote]
  · simp [hnote]

/-- Witness for C1: the note at version 2 updated with expected version 1. -/
theorem update_mismatch_leaves_note_and_log_witness :
    (∃ err, (NoteService.Update sampleEnv sampleStore "u1" "n1" staleRequest).1 = .error err) ∧
    (NoteService.Update sampleEnv sampleStore "u1" "n1" staleRequest).2.notes
      = sampleStore.notes ∧
    (NoteService.Update sampleEnv sampleStore "u1" "n1" staleRequest).2.noteByID "n1"
      = some sampleNote ∧
    (NoteService.Update sampleEnv sampleStore "u1" "n1" staleRequest).2.versions
      = sampleStore.versions :=
  update_mismatch_leaves_note_and_log sampleEnv sampleStore "u1" "n1" staleRequest sampleNote 1
    (by decide) (by decide) (by decide) (by decide)

/-- C2. When the requester owns the stored note, the request carries an expected
version `e` different from the stored version `v`, the storage calls succeed and
the generated conflict id is unused, `NoteService.Update` appends exactly one
conflict document and returns a `ConflictError` carrying that conflict, which
is not nil and has base version `e`, server version `v`, client version
`e + 1` (the `int64` sum, which is the integer `e + 1` for every `e` below the
largest `int64`), the stored note as server snapshot, the request as client
data, and no resolution time or choice. -/
theorem update_mismatch_records_conflict (env : Env) (s : Store) (userID noteID : String)
    (req : UpdateNoteRequest) (note : Note) (e : Int)
    (hnote : s.noteByID noteID = some note) (howner : note.UserID = userID)
    (hexp : req.ExpectedVersion = some e) (hne : e ≠ note.Version)
    (hfind : env.findFails = false) (hdetect : env.detectFindFails = false)
    (hcreate : env.conflictCreateFails = false)
    (hfresh : s.conflicts.find? (fun d => decide (d.1 = env.uuid)) = none) :
    ∃ c : Conflict,
      (NoteService.Update env s userID noteID req).1 = .error (.conflict (some c)) ∧
      (NoteService.Update env s userID noteID req).2.conflicts
        = s.conflicts ++ [(c.ID, { c with ID := "" })] ∧
      c.NoteID = noteID ∧ c.UserID = userID ∧
      c.BaseVersion = e ∧ c.ServerVersion = note.Version ∧
      c.ClientVersion = wrapInt64 (e + 1) ∧
      (minInt64 ≤ e → e < maxInt64 → c.ClientVersion = e + 1) ∧
      c.ServerNote = some note ∧ c.ClientData = some req ∧
      c.ResolvedAt = none ∧ c.ResolutionChoice = "" := by
  have hne2 : ¬ note.Version = e := fun h => hne h.symm
  refine ⟨Conflict.mk env.uuid noteID userID ConflictTypeUpdate e note.Version
    (wrapInt64 (e + 1)) (some note) (some req) req.DeviceID env.now none "",
    ?_, ?_, rfl, rfl, rfl, rfl, rfl, ?_, rfl, rfl, rfl, rfl⟩
  · simp [NoteService.Update, noteRepoFindByID, DetectConflict, conflictRepoCreate, hnote,
      howner, hexp, hne, hne2, hfind, hdetect, hcreate, hfresh]
  · simp [NoteService.Update, noteRepoFindByID, DetectConflict, conflictRepoCreate, hnote,
      howner, hexp, hne, hne2, hfind, hdetect, hcreate, hfresh]
  · intro hlo hhi
    exact wrapInt64_succ e hlo hhi

/-- Witness for C2: the note at version 2 updated with expected version 1 yields a
conflict with base version 1, server version 2 and client version 2. -/
theorem update_mismatch_records_conflict_witness :
    sampleNote.Version = 2 ∧ staleRequest.ExpectedVersion = some 1 ∧
    ∃ c : Conflict,
      (NoteService.Update sampleEnv sampleStore "u1" "n1" staleRequest).1
        = .error (.conflict (some c)) ∧
      (NoteService.Update sampleEnv sampleStore "u1" "n1" staleRequest).2.conflicts
        = sampleStore.conflicts ++ [(c.ID, { c with ID := "" })] ∧
      c.BaseVersion = 1 ∧ c.ServerVersion = 2 ∧ c.ClientVersion = 1 + 1 ∧
      c.ServerNote = some sampleNote ∧ c.ClientData = some staleRequest ∧
      c.ResolvedAt = none ∧ c.ResolutionChoice = "" := by
  obtain ⟨c, h1, h2, _, _, h5, h6, _, h8, h9, h10, h11, h12⟩ :=
    update_mismatch_records_conflict sampleEnv sampleStore "u1" "n1" staleRequest sampleNote 1
      (by decide) (by decide) (by decide) (by decide) rfl rfl rfl (by decide)
  exact ⟨rfl, rfl, c, h1, h2, h5, h6, h8 (by decide) (by decide), h9, h10, h11, h12⟩

/-- An update that passes the owner and version checks and whose repository
write succeeds leaves the conflict documents as they were and stores the note
with version `v + 1` (the `int64` increment) and the request's device as last
editing device, whatever becomes of the fan-out that follows the write. A note
that the call returns has the same version and device, and without a sync
service the call returns one. -/
theorem update_writes_bumped_version (env : Env) (s : Store) (userID noteID : String)
    (req : UpdateNoteRequest) (note : Note)
    (hnote : s.noteByID noteID = some note) (howner : note.UserID = userID)
    (hexp : req.ExpectedVersion = none ∨ req.ExpectedVersion = some note.Version)
    (hfind : env.findFails = false) (hupdate : env.noteUpdateFails = false) :
    ∃ post : Note,
      (NoteService.Update env s userID noteID req).2.conflicts = s.conflicts ∧
      (NoteService.Update env s userID noteID req).2.noteByID noteID = some post ∧
      post.Version = wrapInt64 (note.Version + 1) ∧
      (minInt64 ≤ note.Version → note.Version < maxInt64 →
        post.Version = note.Version + 1) ∧
      post.LastEditDevice = req.DeviceID ∧
      (∀ resp, (NoteService.Update env s userID noteID req).1 = .ok resp →
        resp.Version = wrapInt64 (note.Version + 1) ∧ resp.LastEditDevice = req.DeviceID) ∧
      (s.registry = none → ∃ resp, (NoteService.Update env s userID noteID req).1 = .ok resp) := by
  have hid : note.ID = noteID := noteByID_id s noteID note hnote
  have hpre : s.noteByID note.ID = some note := by rw [hid]; exact hnote
  obtain ⟨⟨s2, hreg, hbr⟩, h2, h3⟩ :=
    applyUpdate_store env s userID note note req hpre hupdate
  have hrun : NoteService.Update env s userID noteID req
      = NoteService.applyUpdate env s userID note req := by
    rcases hexp with hexp | hexp <;>
      simp [NoteService.Update, noteRepoFindByID, hnote, howner, hexp, hfind]
  rw [hrun]
  rw [hid] at h2
  refine ⟨_, h3, h2, rfl, fun hlo hhi => wrapInt64_succ _ hlo hhi, rfl, ?_, ?_⟩
  · intro resp hresp
    rw [applyUpdate_ok env s userID note note req resp hpre hupdate hresp]
    exact ⟨rfl, rfl⟩
  · intro hnone
    rw [hbr, broadcastAndReturn_none env s2 userID req.DeviceID _ (by rw [hreg, hnone])]
    exact ⟨_, rfl⟩

/-- C3: `NoteService.Update` does not succeed for every owned note and every
request without a version mismatch. The note `n1` of user `u1` is stored at
version 2; `u1` has three connections, of which `a` and `b` have a full queue;
device `d3` sends a title patch without an expected version. The note is
written at version 3 with `d3` as last editing device and no conflict is
recorded, but the fan-out that follows hands `a` to the `Run` goroutine and
then waits forever in the send of `b` on `m.Unregister`: the call never returns
a note. The same request in a process without a sync service returns the note
at version 3. -/
theorem update_blocks_in_fanout :
    stalledStore.noteByID "n1" = some sampleNote ∧ sampleNote.UserID = "u1" ∧
    sampleNote.Version = 2 ∧ titlePatchFromD3.ExpectedVersion = none ∧
    stalledStore.registry = some stalledManager ∧
    (NoteService.Update sampleEnv stalledStore "u1" "n1" titlePatchFromD3).1
      = .error .neverReturns ∧
    ((NoteService.Update sampleEnv stalledStore "u1" "n1" titlePatchFromD3).2.noteByID
      "n1").map (fun n => (n.Version, n.LastEditDevice)) = some (3, "d3") ∧
    (NoteService.Update sampleEnv stalledStore "u1" "n1" titlePatchFromD3).2.conflicts = [] ∧
    (NoteService.Update sampleEnv stalledStore "u1" "n1" titlePatchFromD3).2.registry.map
      (fun m => m.run) = some (.unregistering clientA) ∧
    (BroadcastNoteUpdate sampleEnv stalledManager "u1" "d3"
      (noteResponse (applyPatch sampleEnv.now sampleNote titlePatchFromD3))).1
      = .blocked clientB ∧
    ((NoteService.Update sampleEnv sampleStore "u1" "n1" titlePatchFromD3).1.toOption.map
      (fun r => (r.Version, r.LastEditDevice))) = some (3, "d3") := by
  refine ⟨?_, ?_, ?_, ?_, ?_, ?_, ?_, ?_, ?_, ?_, ?_⟩ <;> rfl

/-- C5. After a successful `NoteService.Update` the stored note carries, for each
of the seven patch fields, the patch's value when the patch supplies one and
the value of before otherwise; its id, owner, workspace, type and creation
time are those of before. -/
theorem update_success_partial_patch (env : Env) (s : Store) (userID noteID : String)
    (req : UpdateNoteRequest) (resp : NoteResponse)
    (hok : (NoteService.Update env s userID noteID req).1 = .ok resp) :
    ∃ (pre post : Note),
      s.noteByID noteID = some pre ∧
      (NoteService.Update env s userID noteID req).2.noteByID noteID = some post ∧
      post.EncryptedTitle = req.EncryptedTitle.getD pre.EncryptedTitle ∧
      post.EncryptedContent = req.EncryptedContent.getD pre.EncryptedContent ∧
      post.EncryptionAlgo = req.EncryptionAlgo.getD pre.EncryptionAlgo ∧
      post.Nonce = req.Nonce.getD pre.Nonce ∧
      post.ParentID = (if req.ParentID.isSome then req.ParentID else pre.ParentID) ∧
      post.IsDeleted = req.IsDeleted.getD pre.IsDeleted ∧
      post.ContentHash = req.ContentHash.getD pre.ContentHash ∧
      post.ID = pre.ID ∧ post.UserID = pre.UserID ∧ post.WorkspaceID = pre.WorkspaceID ∧
      post.Type_ = pre.Type_ ∧ post.CreatedAt = pre.CreatedAt := by
  cases hnote : s.noteByID noteID with
  | none =>
    exfalso
    revert hok
    cases hf : env.findFails <;> simp [NoteService.Update, noteRepoFindByID, hnote, hf]
  | some note =>
    have hid : note.ID = noteID := noteByID_id s noteID note hnote
    have hpre : s.noteByID note.ID = some note := by rw [hid]; exact hnote
    have hrun : NoteService.Update env s userID noteID req
        = NoteService.applyUpdate env s userID note req ∧ env.noteUpdateFails = false := by
      revert hok
      unfold NoteService.Update noteRepoFindByID
      cases hf : env.findFails
      · simp only [hnote, Bool.false_eq_true, if_false]
        by_cases ho : note.UserID ≠ userID
        · simp [ho]
        · simp only [ho, if_false]
          have hupd : (NoteService.applyUpdate env s userID note req).1 = .ok resp →
              env.noteUpdateFails = false := by
            intro h
            cases hu : env.noteUpdateFails
            · rfl
            · obtain ⟨e, he⟩ := applyUpdate_error env s userID note req hu
              rw [he] at h
              cases h
          cases hexp : req.ExpectedVersion with
          | none => exact fun h => ⟨rfl, hupd h⟩
          | some e =>
            by_cases hv : e ≠ note.Version
            · simp only [hv, if_true, ne_eq, not_false_eq_true]
              intro h
              exfalso
              revert h
              generalize DetectConflict env s noteID userID req.DeviceID e req = r
              rcases r with ⟨_ | _, _⟩ <;> simp
            · simp only [hv, if_false]
              exact fun h => ⟨trivial, hupd h⟩
      · simp
    obtain ⟨hrun, hupdate⟩ := hrun
    obtain ⟨_, h2, _⟩ := applyUpdate_store env s userID note note req hpre hupdate
    rw [hrun]
    rw [hid] at h2
    refine ⟨note, _, rfl, h2, ?_, ?_, ?_, ?_, ?_, ?_, ?_, rfl, rfl, rfl, rfl, rfl⟩
    · simp only [updatedDoc, applyPatch]
      cases req.EncryptedTitle <;> rfl
    · simp only [updatedDoc, applyPatch]
      cases req.EncryptedContent <;> rfl
    · simp only [updatedDoc, applyPatch]
      cases req.EncryptionAlgo <;> rfl
    · simp only [updatedDoc, applyPatch]
      cases req.Nonce <;> rfl
    · simp only [updatedDoc, applyPatch]
      cases req.ParentID <;> rfl
    · simp only [updatedDoc, applyPatch]
      cases req.IsDeleted <;> rfl
    · simp only [updatedDoc, applyPatch]
      cases req.ContentHash <;> rfl

/-- Witness for C5: the title patch applied to the freshly created note. -/
theorem update_success_partial_patch_witness :
    ∃ (pre post : Note),
      freshStore.noteByID "c1" = some pre ∧
      (NoteService.Update sampleEnv freshStore "u1" "c1" titlePatch).2.noteByID "c1"
        = some post ∧
      post.EncryptedTitle = titlePatch.EncryptedTitle.getD pre.EncryptedTitle ∧
      post.EncryptedContent = titlePatch.EncryptedContent.getD pre.EncryptedContent ∧
      post.EncryptionAlgo = titlePatch.EncryptionAlgo.getD pre.EncryptionAlgo ∧
      post.Nonce = titlePatch.Nonce.getD pre.Nonce ∧
      post.ParentID = (if titlePatch.ParentID.isSome then titlePatch.ParentID
        else pre.ParentID) ∧
      post.IsDeleted = titlePatch.IsDeleted.getD pre.IsDeleted ∧
      post.ContentHash = titlePatch.ContentHash.getD pre.ContentHash ∧
      post.ID = pre.ID ∧ post.UserID = pre.UserID ∧ post.WorkspaceID = pre.WorkspaceID ∧
      post.Type_ = pre.Type_ ∧ post.CreatedAt = pre.CreatedAt :=
  update_success_partial_patch sampleEnv freshStore "u1" "c1" titlePatch
    (noteResponse (applyPatch 5 freshNote titlePatch)) rfl

/-- C6. When the requester is not the owner of the stored note,
`NoteService.Update` fails whatever the patch and the expected version are, and
the whole store (notes, version log, conflicts) is the one of before; the
error is the ownership error whenever the note can be read. -/
theorem update_not_owner_rejected (env : Env) (s : Store) (userID noteID : String)
    (req : UpdateNoteRequest) (note : Note)
    (hnote : s.noteByID noteID = some note) (howner : note.UserID ≠ userID) :
    (∃ err, (NoteService.Update env s userID noteID req).1 = .error err) ∧
    (NoteService.Update env s userID noteID req).2 = s ∧
    (env.findFails = false →
      (NoteService.Update env s userID noteID req).1
        = .error (.msg "unauthorized: note does not belong to user")) := by
  cases hf : env.findFails <;>
    simp [NoteService.Update, noteRepoFindByID, hnote, howner, hf]

/-- Witness for C6: user `u2` sends a stale update for the note of user `u1`. -/
theorem update_not_owner_rejected_witness :
    (∃ err, (NoteService.Update sampleEnv sampleStore "u2" "n1" staleRequest).1 = .error err) ∧
    (NoteService.Update sampleEnv sampleStore "u2" "n1" staleRequest).2 = sampleStore ∧
    (sampleEnv.findFails = false →
      (NoteService.Update sampleEnv sampleStore "u2" "n1" staleRequest).1
        = .error (.msg "unauthorized: note does not belong to user")) :=
  update_not_owner_rejected sampleEnv sampleStore "u2" "n1" staleRequest sampleNote
    (by decide) (by decide)

/-! ## Conflict resolution: theorems -/

/-- C4 fails on `ApplyResolution`: the resolution writes the version of the
conflict's snapshot plus one, not the stored version plus one. A note at
version 2 gets a conflict recorded, is updated twice (stored version 4), and
the resolution of the conflict with the client strategy then succeeds and
leaves the stored note at version 3. -/
theorem applyResolution_version_regresses :
    (storeAfterTwoUpdates.noteByID "n1").map (fun n => n.Version) = some 4 ∧
    ((ApplyResolution sampleEnv storeAfterTwoUpdates "c1" ResolutionClient none).1.toOption.map
      (fun r => r.map (fun n => n.Version))) = some (some 3) ∧
    ((ApplyResolution sampleEnv storeAfterTwoUpdates "c1" ResolutionClient none).2.noteByID
      "n1").map (fun n => n.Version) = some 3 := by
  refine ⟨?_, ?_, ?_⟩ <;> rfl

/-! ## Batch diff: theorems -/

/-- C7 fails for a tombstoned server note: server note `b1` is tombstoned, the
client entry for `b1` has the same content hash, and `b1` is listed in
`to_delete`. -/
theorem batchDiff_equal_hash_tombstone_listed :
    tombstoneB ∈ tombstoneStoreB.notes ∧ tombstoneB.ID = "b1" ∧
    tombstoneB.ContentHash = "h1" ∧
    ProcessBatchDiff sampleEnv tombstoneStoreB "u1"
        (diffRequest [LocalNoteInfo.mk "b1" "h1" 3])
      = .ok (BatchDiffResponse.mk [] [] ["b1"] [] 5) := by
  refine ⟨?_, ?_, ?_, ?_⟩ <;> first | rfl | decide

/-- C7, amended. For a server note that is not tombstoned and a client entry with
the same id (the entries the two id-indexed maps hold for that id) whose
content hashes are equal, the id occurs in none of `to_download`, `to_upload`,
`to_delete` and `conflicts`, in whatever order the server map is visited. -/
theorem batchDiff_equal_hash_no_action (env : Env) (s : Store) (userID : String)
    (req : BatchDiffRequest) (serverNotes : List Note) (id : String) (n : Note)
    (c : LocalNoteInfo)
    (hlist : listServerNotes env s userID req = .ok serverNotes)
    (hperm : ∀ m, (env.rangeOrder m).Perm m)
    (hs : mapLookup (serverMapOf serverNotes) id = some n)
    (hc : mapLookup (clientMapOf req.LocalNotes) id = some c)
    (hlive : n.IsDeleted = false) (hhash : n.ContentHash = c.ContentHash) :
    ∃ resp, ProcessBatchDiff env s userID req = .ok resp ∧
      (∀ d ∈ resp.ToDownload, d.ID ≠ id) ∧ id ∉ resp.ToUpload ∧ id ∉ resp.ToDelete ∧
      (∀ x ∈ resp.Conflicts, x.NoteID ≠ id) := by
  obtain ⟨_, resp, hok, hview⟩ := processBatchDiff_view env s userID req serverNotes id n
    hlist hperm hs
  simp only [diffStep, hlive, hc, hhash, Bool.false_eq_true, if_false, if_true, idView,
    emptyDiff, List.filter_nil, Prod.mk.injEq] at hview
  obtain ⟨h1, h2, h3, h4⟩ := hview
  exact ⟨resp, hok, ids_ne_of_filter_nil (fun d : NoteResponse => d.ID) _ id h1,
    not_mem_of_filter_nil _ id h2, not_mem_of_filter_nil _ id h3,
    ids_ne_of_filter_nil (fun x : ConflictInfo => x.NoteID) _ id h4⟩

/-- Witness for C7 (amended): server note `b1` with hash `h1` and a client entry
with the same hash. -/
theorem batchDiff_equal_hash_no_action_witness :
    ∃ resp, ProcessBatchDiff sampleEnv storeB "u1" (diffRequest [LocalNoteInfo.mk "b1" "h1" 2])
        = .ok resp ∧
      (∀ d ∈ resp.ToDownload, d.ID ≠ "b1") ∧ "b1" ∉ resp.ToUpload ∧ "b1" ∉ resp.ToDelete ∧
      (∀ x ∈ resp.Conflicts, x.NoteID ≠ "b1") :=
  batchDiff_equal_hash_no_action sampleEnv storeB "u1" (diffRequest [LocalNoteInfo.mk "b1" "h1" 2])
    [serverNoteB] "b1" serverNoteB (LocalNoteInfo.mk "b1" "h1" 2) rfl
    (fun m => List.Perm.refl m) rfl rfl rfl rfl

/-- C8. For a server note that is not tombstoned and a client entry with the same
id (the entries the two id-indexed maps hold for that id) whose content hash
differs and whose version is strictly below the server version, the response
has exactly one conflict entry for the id, built from the client's hash and
version and the server's hash and version, and the id occurs in none of
`to_download`, `to_upload`, `to_delete`, in whatever order the server map is
visited. -/
theorem batchDiff_conflict_entry (env : Env) (s : Store) (userID : String)
    (req : BatchDiffRequest) (serverNotes : List Note) (id : String) (n : Note)
    (c : LocalNoteInfo)
    (hlist : listServerNotes env s userID req = .ok serverNotes)
    (hperm : ∀ m, (env.rangeOrder m).Perm m)
    (hs : mapLookup (serverMapOf serverNotes) id = some n)
    (hc : mapLookup (clientMapOf req.LocalNotes) id = some c)
    (hlive : n.IsDeleted = false) (hhash : c.ContentHash ≠ n.ContentHash)
    (hver : c.Version < n.Version) :
    ∃ resp, ProcessBatchDiff env s userID req = .ok resp ∧
      resp.Conflicts.filter (fun x => decide (x.NoteID = id))
        = [ConflictInfo.mk id c.ContentHash n.ContentHash c.Version n.Version] ∧
      (∀ d ∈ resp.ToDownload, d.ID ≠ id) ∧ id ∉ resp.ToUpload ∧ id ∉ resp.ToDelete := by
  obtain ⟨_, resp, hok, hview⟩ := processBatchDiff_view env s userID req serverNotes id n
    hlist hperm hs
  have hhash2 : ¬ n.ContentHash = c.ContentHash := fun h => hhash h.symm
  simp only [diffStep, hlive, hc, hhash2, hver, gt_iff_lt, Bool.false_eq_true, if_false,
    if_true, idView, emptyDiff, List.filter_nil, List.nil_append, Prod.mk.injEq] at hview
  obtain ⟨h1, h2, h3, h4⟩ := hview
  refine ⟨resp, hok, ?_, ids_ne_of_filter_nil (fun d : NoteResponse => d.ID) _ id h1,
    not_mem_of_filter_nil _ id h2, not_mem_of_filter_nil _ id h3⟩
  rw [h4]
  simp

/-- Witness for C8 (scenario B): server `b1` with hash `h1` at version 3 against
the client entry with hash `h2` at version 2. -/
theorem batchDiff_conflict_entry_witness :
    ∃ resp, ProcessBatchDiff sampleEnv storeB "u1" (diffRequest [LocalNoteInfo.mk "b1" "h2" 2])
        = .ok resp ∧
      resp.Conflicts.filter (fun x => decide (x.NoteID = "b1"))
        = [ConflictInfo.mk "b1" "h2" serverNoteB.ContentHash 2 serverNoteB.Version] ∧
      (∀ d ∈ resp.ToDownload, d.ID ≠ "b1") ∧ "b1" ∉ resp.ToUpload ∧ "b1" ∉ resp.ToDelete :=
  batchDiff_conflict_entry sampleEnv storeB "u1" (diffRequest [LocalNoteInfo.mk "b1" "h2" 2])
    [serverNoteB] "b1" serverNoteB (LocalNoteInfo.mk "b1" "h2" 2) rfl
    (fun m => List.Perm.refl m) rfl rfl rfl (by decide) (by decide)

/-- C9. For a server note that is not tombstoned and a client entry with the same
id (the entries the two id-indexed maps hold for that id) whose content hash
differs and whose version is at least the server version, the id occurs
exactly once in `to_upload` and in none of `to_download`, `to_delete`,
`conflicts`, in whatever order the server map is visited. -/
theorem batchDiff_upload (env : Env) (s : Store) (userID : String)
    (req : BatchDiffRequest) (serverNotes : List Note) (id : String) (n : Note)
    (c : LocalNoteInfo)
    (hlist : listServerNotes env s userID req = .ok serverNotes)
    (hperm : ∀ m, (env.rangeOrder m).Perm m)
    (hs : mapLookup (serverMapOf serverNotes) id = some n)
    (hc : mapLookup (clientMapOf req.LocalNotes) id = some c)
    (hlive : n.IsDeleted = false) (hhash : c.ContentHash ≠ n.ContentHash)
    (hver : n.Version ≤ c.Version) :
    ∃ resp, ProcessBatchDiff env s userID req = .ok resp ∧
      resp.ToUpload.count id = 1 ∧
      (∀ d ∈ resp.ToDownload, d.ID ≠ id) ∧ id ∉ resp.ToDelete ∧
      (∀ x ∈ resp.Conflicts, x.NoteID ≠ id) := by
  obtain ⟨_, resp, hok, hview⟩ := processBatchDiff_view env s userID req serverNotes id n
    hlist hperm hs
  have hhash2 : ¬ n.ContentHash = c.ContentHash := fun h => hhash h.symm
  have hver2 : ¬ c.Version < n.Version := not_lt.mpr hver
  simp only [diffStep, hlive, hc, hhash2, hver2, gt_iff_lt, Bool.false_eq_true, if_false,
    idView, emptyDiff, List.filter_nil, List.nil_append, Prod.mk.injEq] at hview
  obtain ⟨h1, h2, h3, h4⟩ := hview
  refine ⟨resp, hok, ?_, ids_ne_of_filter_nil (fun d : NoteResponse => d.ID) _ id h1,
    not_mem_of_filter_nil _ id h3, ids_ne_of_filter_nil (fun x : ConflictInfo => x.NoteID) _ id h4⟩
  apply count_one_of_filter
  rw [h2]
  simp

/-- Witness for C9: server `b1` at version 3 against a client entry with another
hash at version 3. -/
theorem batchDiff_upload_witness :
    ∃ resp, ProcessBatchDiff sampleEnv storeB "u1" (diffRequest [LocalNoteInfo.mk "b1" "h2" 3])
        = .ok resp ∧
      resp.ToUpload.count "b1" = 1 ∧
      (∀ d ∈ resp.ToDownload, d.ID ≠ "b1") ∧ "b1" ∉ resp.ToDelete ∧
      (∀ x ∈ resp.Conflicts, x.NoteID ≠ "b1") :=
  batchDiff_upload sampleEnv storeB "u1" (diffRequest [LocalNoteInfo.mk "b1" "h2" 3])
    [serverNoteB] "b1" serverNoteB (LocalNoteInfo.mk "b1" "h2" 3) rfl
    (fun m => List.Perm.refl m) rfl rfl rfl (by decide) (by decide)

/-- C10. For a tombstoned server note (the note the id-indexed server map holds
for its id) for which the client's list has an entry with the same id, the id
occurs exactly once in `to_delete` and in none of `to_download`, `to_upload`,
`conflicts`, whatever the hashes and versions are and in whatever order the
server map is visited. -/
theorem batchDiff_tombstone_delete (env : Env) (s : Store) (userID : String)
    (req : BatchDiffRequest) (serverNotes : List Note) (id : String) (n : Note)
    (c : LocalNoteInfo)
    (hlist : listServerNotes env s userID req = .ok serverNotes)
    (hperm : ∀ m, (env.rangeOrder m).Perm m)
    (hs : mapLookup (serverMapOf serverNotes) id = some n)
    (hc : c ∈ req.LocalNotes) (hcid : c.ID = id)
    (hdead : n.IsDeleted = true) :
    ∃ resp, ProcessBatchDiff env s userID req = .ok resp ∧
      resp.ToDelete.count id = 1 ∧
      (∀ d ∈ resp.ToDownload, d.ID ≠ id) ∧ id ∉ resp.ToUpload ∧
      (∀ x ∈ resp.Conflicts, x.NoteID ≠ id) := by
  obtain ⟨_, resp, hok, hview⟩ := processBatchDiff_view env s userID req serverNotes id n
    hlist hperm hs
  have hsome : (mapLookup (clientMapOf req.LocalNotes) id).isSome = true :=
    (mapLookup_foldl_isSome (fun x : LocalNoteInfo => x.ID) req.LocalNotes [] id).mpr
      (Or.inl ⟨c, hc, hcid⟩)
  obtain ⟨c2, hc2⟩ := Option.isSome_iff_exists.mp hsome
  simp only [diffStep, hdead, hc2, if_true, idView, emptyDiff, List.filter_nil,
    List.nil_append, Prod.mk.injEq] at hview
  obtain ⟨h1, h2, h3, h4⟩ := hview
  refine ⟨resp, hok, ?_, ids_ne_of_filter_nil (fun d : NoteResponse => d.ID) _ id h1,
    not_mem_of_filter_nil _ id h2, ids_ne_of_filter_nil (fun x : ConflictInfo => x.NoteID) _ id h4⟩
  apply count_one_of_filter
  rw [h3]
  simp

/-- Witness for C10: the tombstone of `b1` against a client entry with the same
hash and version. -/
theorem batchDiff_tombstone_delete_witness :
    ∃ resp, ProcessBatchDiff sampleEnv tombstoneStoreB "u1"
        (diffRequest [LocalNoteInfo.mk "b1" "h1" 3]) = .ok resp ∧
      resp.ToDelete.count "b1" = 1 ∧
      (∀ d ∈ resp.ToDownload, d.ID ≠ "b1") ∧ "b1" ∉ resp.ToUpload ∧
      (∀ x ∈ resp.Conflicts, x.NoteID ≠ "b1") :=
  batchDiff_tombstone_delete sampleEnv tombstoneStoreB "u1"
    (diffRequest [LocalNoteInfo.mk "b1" "h1" 3]) [tombstoneB] "b1" tombstoneB
    (LocalNoteInfo.mk "b1" "h1" 3) rfl (fun m => List.Perm.refl m) rfl
    (List.mem_singleton.mpr rfl) rfl rfl

/-! ## Batch diff: downloads and the shape of the four lists -/

theorem value_mem_foldl {α : Type} (key : α → String) (l : List α) (m0 : List (String × α)) :
    ∀ e ∈ l.foldl (fun m x => mapInsert (key x) x m) m0, e.2 ∈ l ∨ e ∈ m0 := by
  induction l generalizing m0 with
  | nil => intro e he; exact Or.inr he
  | cons x xs ih =>
    intro e he
    rcases ih _ e he with h | h
    · exact Or.inl (List.mem_cons_of_mem _ h)
    · rcases mem_mapInsert _ _ _ _ h with h2 | h2
      · exact Or.inl (by rw [h2]; exact List.mem_cons_self _ _)
      · exact Or.inr h2

theorem mapLookup_none_of_not_mem {α : Type} (key : α → String) (l : List α) (k : String)
    (h : ∀ x ∈ l, key x ≠ k) :
    mapLookup (l.foldl (fun m x => mapInsert (key x) x m) []) k = none := by
  cases hl : mapLookup (l.foldl (fun m x => mapInsert (key x) x m) []) k with
  | none => rfl
  | some v =>
    have hs : (mapLookup (l.foldl (fun m x => mapInsert (key x) x m) []) k).isSome = true := by
      rw [hl]; rfl
    rcases (mapLookup_foldl_isSome key l [] k).mp hs with ⟨x, hx, hk⟩ | h0
    · exact absurd hk (h x hx)
    · simp [mapLookup] at h0

theorem viewSize_step (cm : List (String × LocalNoteInfo)) (k : String) (now : Time)
    (e : String × Note) : viewSize (idView k (diffStep cm (emptyDiff now) e)) ≤ 1 := by
  unfold diffStep
  by_cases hd : e.2.IsDeleted = true
  · cases hl : mapLookup cm e.1 with
    | none => simp [viewSize, idView, emptyDiff, hd, hl]
    | some c =>
      simp only [viewSize, idView, emptyDiff, hd, hl, if_true, List.filter_nil, List.nil_append,
        List.length_nil, Nat.zero_add, Nat.add_zero]
      by_cases hk : e.1 = k <;> simp [List.filter_cons, hk]
  · cases hl : mapLookup cm e.1 with
    | none =>
      simp only [viewSize, idView, emptyDiff, hd, hl, if_false, List.filter_nil, List.nil_append,
        List.length_nil, Nat.zero_add, Nat.add_zero]
      by_cases hk : (downloadPayload e.2).ID = k <;> simp [List.filter_cons, hk]
    | some c =>
      by_cases hh : e.2.ContentHash = c.ContentHash
      · simp [viewSize, idView, emptyDiff, hd, hl, hh]
      · by_cases hv : e.2.Version > c.Version
        · simp only [viewSize, idView, emptyDiff, hd, hl, hh, hv, if_false, if_true,
            List.filter_nil, List.nil_append, List.length_nil, Nat.zero_add, Nat.add_zero]
          by_cases hk : e.1 = k <;> simp [List.filter_cons, hk]
        · simp only [viewSize, idView, emptyDiff, hd, hl, hh, hv, if_false,
            List.filter_nil, List.nil_append, List.length_nil, Nat.zero_add, Nat.add_zero]
          by_cases hk : e.1 = k <;> simp [List.filter_cons, hk]

/-- For every note id, the response of `ProcessBatchDiff` has at most one entry,
and it has one only for the id of a listed server note. -/
theorem processBatchDiff_viewSize (env : Env) (s : Store) (userID : String)
    (req : BatchDiffRequest) (serverNotes : List Note)
    (hlist : listServerNotes env s userID req = .ok serverNotes)
    (hperm : ∀ m, (env.rangeOrder m).Perm m) :
    ∃ resp, ProcessBatchDiff env s userID req = .ok resp ∧
      ∀ k, viewSize (idView k resp) ≤ 1 ∧
        (0 < viewSize (idView k resp) → ∃ n ∈ serverNotes, n.ID = k) := by
  have hkeys : ∀ e ∈ serverMapOf serverNotes, e.2.ID = e.1 :=
    key_eq_foldl (fun x : Note => x.ID) serverNotes [] (by simp)
  have hvals : ∀ e ∈ serverMapOf serverNotes, e.2 ∈ serverNotes := by
    intro e he
    rcases value_mem_foldl (fun x : Note => x.ID) serverNotes [] e he with h | h
    · exact h
    · cases h
  have hnodup : ((serverMapOf serverNotes).map Prod.fst).Nodup :=
    nodup_keys_foldl (fun x : Note => x.ID) serverNotes [] (by simp)
  have hp := hperm (serverMapOf serverNotes)
  refine ⟨(env.rangeOrder (serverMapOf serverNotes)).foldl
    (diffStep (clientMapOf req.LocalNotes)) (emptyDiff env.now), ?_, ?_⟩
  · simp only [ProcessBatchDiff, hlist]
  · intro k
    by_cases hk : ∃ e ∈ env.rangeOrder (serverMapOf serverNotes), e.1 = k
    · obtain ⟨e, he, hek⟩ := hk
      have hview := idView_fold (clientMapOf req.LocalNotes) k e.2
        (env.rangeOrder (serverMapOf serverNotes)) (emptyDiff env.now)
        ((hp.map Prod.fst).nodup_iff.mpr hnodup)
        (fun x hx => hkeys x (hp.mem_iff.mp hx)) (by rw [← hek]; exact he)
      rw [hview]
      refine ⟨viewSize_step _ _ _ _, fun _ => ⟨e.2, hvals e (hp.mem_iff.mp he), ?_⟩⟩
      rw [hkeys e (hp.mem_iff.mp he), hek]
    · have hview := idView_fold_other (clientMapOf req.LocalNotes) k
        (env.rangeOrder (serverMapOf serverNotes)) (emptyDiff env.now)
        (fun x hx => ⟨fun h => hk ⟨x, hx, h⟩, hkeys x (hp.mem_iff.mp hx)⟩)
      rw [hview]
      simp [viewSize, idView, emptyDiff]

theorem filter_pos_of_mem {α : Type} (p : α → Bool) (l : List α) (x : α) (hx : x ∈ l)
    (hp : p x = true) : 0 < (l.filter p).length :=
  List.length_pos_of_mem (List.mem_filter.mpr ⟨hx, hp⟩)

theorem nodup_of_filter_le_one {α : Type} (key : α → String) (l : List α)
    (h : ∀ k, (l.filter (fun x => decide (key x = k))).length ≤ 1) : (l.map key).Nodup := by
  rw [List.nodup_iff_count_le_one]
  intro k
  have hc : (l.map key).count k = (l.filter (fun x => decide (key x = k))).length := by
    rw [List.count, List.countP_eq_length_filter, List.filter_map, List.length_map]
    congr 2
  rw [hc]
  exact h k

/-- C11. For a server note that is not tombstoned (the note the id-indexed server
map holds for its id) and for which the client's list has no entry with that
id, the response has exactly one `to_download` entry for the id, whose id,
workspace, parent, type, encrypted title and content, algorithm, nonce, time
stamps, tombstone flag, version, content hash and last editing device are those
of the server note, and the id occurs in none of `to_upload`, `to_delete`,
`conflicts`, in whatever order the server map is visited. -/
theorem batchDiff_download (env : Env) (s : Store) (userID : String)
    (req : BatchDiffRequest) (serverNotes : List Note) (id : String) (n : Note)
    (hlist : listServerNotes env s userID req = .ok serverNotes)
    (hperm : ∀ m, (env.rangeOrder m).Perm m)
    (hs : mapLookup (serverMapOf serverNotes) id = some n)
    (hlive : n.IsDeleted = false)
    (hnone : ∀ c ∈ req.LocalNotes, c.ID ≠ id) :
    ∃ resp d, ProcessBatchDiff env s userID req = .ok resp ∧
      resp.ToDownload.filter (fun x => decide (x.ID = id)) = [d] ∧
      d.ID = n.ID ∧ d.WorkspaceID = n.WorkspaceID ∧ d.ParentID = n.ParentID ∧
      d.Type_ = n.Type_ ∧ d.EncryptedTitle = n.EncryptedTitle ∧
      d.EncryptedContent = n.EncryptedContent ∧ d.EncryptionAlgo = n.EncryptionAlgo ∧
      d.Nonce = n.Nonce ∧ d.CreatedAt = n.CreatedAt ∧ d.UpdatedAt = n.UpdatedAt ∧
      d.IsDeleted = n.IsDeleted ∧ d.Version = n.Version ∧ d.ContentHash = n.ContentHash ∧
      d.LastEditDevice = n.LastEditDevice ∧
      id ∉ resp.ToUpload ∧ id ∉ resp.ToDelete ∧ (∀ x ∈ resp.Conflicts, x.NoteID ≠ id) := by
  obtain ⟨hid, resp, hok, hview⟩ := processBatchDiff_view env s userID req serverNotes id n
    hlist hperm hs
  have hc : mapLookup (clientMapOf req.LocalNotes) id = none :=
    mapLookup_none_of_not_mem (fun x : LocalNoteInfo => x.ID) req.LocalNotes id hnone
  have hpid : (downloadPayload n).ID = id := hid
  simp only [diffStep, hlive, hc, Bool.false_eq_true, if_false, idView, emptyDiff,
    List.filter_nil, List.nil_append, Prod.mk.injEq, List.filter_cons, hpid, decide_True,
    if_true] at hview
  obtain ⟨h1, h2, h3, h4⟩ := hview
  exact ⟨resp, downloadPayload n, hok, h1, rfl, rfl, rfl, rfl, rfl, rfl, rfl, rfl, rfl, rfl, rfl,
    rfl, rfl, rfl, not_mem_of_filter_nil _ id h2, not_mem_of_filter_nil _ id h3,
    ids_ne_of_filter_nil (fun x : ConflictInfo => x.NoteID) _ id h4⟩

/-- Witness for C11: server note `b1` against an empty client list. -/
theorem batchDiff_download_witness :
    ∃ resp d, ProcessBatchDiff sampleEnv storeB "u1" (diffRequest []) = .ok resp ∧
      resp.ToDownload.filter (fun x => decide (x.ID = "b1")) = [d] ∧
      d.ID = serverNoteB.ID ∧ d.WorkspaceID = serverNoteB.WorkspaceID ∧
      d.ParentID = serverNoteB.ParentID ∧
      d.Type_ = serverNoteB.Type_ ∧ d.EncryptedTitle = serverNoteB.EncryptedTitle ∧
      d.EncryptedContent = serverNoteB.EncryptedContent ∧
      d.EncryptionAlgo = serverNoteB.EncryptionAlgo ∧
      d.Nonce = serverNoteB.Nonce ∧ d.CreatedAt = serverNoteB.CreatedAt ∧
      d.UpdatedAt = serverNoteB.UpdatedAt ∧
      d.IsDeleted = serverNoteB.IsDeleted ∧ d.Version = serverNoteB.Version ∧
      d.ContentHash = serverNoteB.ContentHash ∧
      d.LastEditDevice = serverNoteB.LastEditDevice ∧
      "b1" ∉ resp.ToUpload ∧ "b1" ∉ resp.ToDelete ∧ (∀ x ∈ resp.Conflicts, x.NoteID ≠ "b1") :=
  batchDiff_download sampleEnv storeB "u1" (diffRequest []) [serverNoteB] "b1" serverNoteB
    rfl (fun m => List.Perm.refl m) rfl rfl (by simp [diffRequest])

/-- C12. In every response of `ProcessBatchDiff`, each id in `to_download`,
`to_upload`, `to_delete` or `conflicts` is the id of a listed server note (so an
id that only the client knows occurs in no list), no id occurs in two of the
four lists, and no list holds an id twice. This holds for every server list
and every client list, with or without repeated ids, and in whatever order the
server map is visited. -/
theorem batchDiff_lists_wellformed (env : Env) (s : Store) (userID : String)
    (req : BatchDiffRequest) (serverNotes : List Note)
    (hlist : listServerNotes env s userID req = .ok serverNotes)
    (hperm : ∀ m, (env.rangeOrder m).Perm m) :
    ∃ resp, ProcessBatchDiff env s userID req = .ok resp ∧
      (∀ d ∈ resp.ToDownload, ∃ n ∈ serverNotes, n.ID = d.ID) ∧
      (∀ x ∈ resp.ToUpload, ∃ n ∈ serverNotes, n.ID = x) ∧
      (∀ x ∈ resp.ToDelete, ∃ n ∈ serverNotes, n.ID = x) ∧
      (∀ c ∈ resp.Conflicts, ∃ n ∈ serverNotes, n.ID = c.NoteID) ∧
      (∀ d ∈ resp.ToDownload, d.ID ∉ resp.ToUpload ∧ d.ID ∉ resp.ToDelete ∧
        ∀ c ∈ resp.Conflicts, c.NoteID ≠ d.ID) ∧
      (∀ x ∈ resp.ToUpload, x ∉ resp.ToDelete ∧ ∀ c ∈ resp.Conflicts, c.NoteID ≠ x) ∧
      (∀ x ∈ resp.ToDelete, ∀ c ∈ resp.Conflicts, c.NoteID ≠ x) ∧
      (resp.ToDownload.map (fun d => d.ID)).Nodup ∧ resp.ToUpload.Nodup ∧
      resp.ToDelete.Nodup ∧ (resp.Conflicts.map (fun c => c.NoteID)).Nodup := by
  obtain ⟨resp, hok, hsize⟩ := processBatchDiff_viewSize env s userID req serverNotes hlist hperm
  have hdl : ∀ d ∈ resp.ToDownload,
      0 < (resp.ToDownload.filter (fun x => decide (x.ID = d.ID))).length :=
    fun d hd => filter_pos_of_mem _ _ d hd (by simp)
  have hup : ∀ x ∈ resp.ToUpload,
      0 < (resp.ToUpload.filter (fun y => decide (y = x))).length :=
    fun x hx => filter_pos_of_mem _ _ x hx (by simp)
  have hde : ∀ x ∈ resp.ToDelete,
      0 < (resp.ToDelete.filter (fun y => decide (y = x))).length :=
    fun x hx => filter_pos_of_mem _ _ x hx (by simp)
  have hco : ∀ c ∈ resp.Conflicts,
      0 < (resp.Conflicts.filter (fun y => decide (y.NoteID = c.NoteID))).length :=
    fun c hc => filter_pos_of_mem _ _ c hc (by simp)
  have hle : ∀ k, (resp.ToDownload.filter (fun x => decide (x.ID = k))).length
      + (resp.ToUpload.filter (fun y => decide (y = k))).length
      + (resp.ToDelete.filter (fun y => decide (y = k))).length
      + (resp.Conflicts.filter (fun y => decide (y.NoteID = k))).length ≤ 1 :=
    fun k => (hsize k).1
  have hsrv : ∀ k, 0 < (resp.ToDownload.filter (fun x => decide (x.ID = k))).length
      + (resp.ToUpload.filter (fun y => decide (y = k))).length
      + (resp.ToDelete.filter (fun y => decide (y = k))).length
      + (resp.Conflicts.filter (fun y => decide (y.NoteID = k))).length →
      ∃ n ∈ serverNotes, n.ID = k :=
    fun k => (hsize k).2
  refine ⟨resp, hok, ?_, ?_, ?_, ?_, ?_, ?_, ?_, ?_, ?_, ?_, ?_⟩
  · intro d hd
    exact hsrv d.ID (by have := hdl d hd; omega)
  · intro x hx
    exact hsrv x (by have := hup x hx; omega)
  · intro x hx
    exact hsrv x (by have := hde x hx; omega)
  · intro c hc
    exact hsrv c.NoteID (by have := hco c hc; omega)
  · intro d hd
    have h0 := hdl d hd
    have h1 := hle d.ID
    refine ⟨fun h => ?_, fun h => ?_, fun c hc h => ?_⟩
    · have := hup d.ID h; omega
    · have := hde d.ID h; omega
    · have := hco c hc; rw [h] at this; omega
  · intro x hx
    have h0 := hup x hx
    have h1 := hle x
    refine ⟨fun h => ?_, fun c hc h => ?_⟩
    · have := hde x h; omega
    · have := hco c hc; rw [h] at this; omega
  · intro x hx c hc h
    have h0 := hde x hx
    have h1 := hle x
    have := hco c hc; rw [h] at this; omega
  · refine nodup_of_filter_le_one (fun d : NoteResponse => d.ID) _ (fun k => ?_)
    show (resp.ToDownload.filter (fun x => decide (x.ID = k))).length ≤ 1
    have := hle k; omega
  · have h : (resp.ToUpload.map (fun x : String => x)).Nodup := by
      refine nodup_of_filter_le_one (fun x : String => x) resp.ToUpload (fun k => ?_)
      show (resp.ToUpload.filter (fun y => decide (y = k))).length ≤ 1
      have := hle k; omega
    simpa using h
  · have h : (resp.ToDelete.map (fun x : String => x)).Nodup := by
      refine nodup_of_filter_le_one (fun x : String => x) resp.ToDelete (fun k => ?_)
      show (resp.ToDelete.filter (fun y => decide (y = k))).length ≤ 1
      have := hle k; omega
    simpa using h
  · refine nodup_of_filter_le_one (fun c : ConflictInfo => c.NoteID) _ (fun k => ?_)
    show (resp.Conflicts.filter (fun y => decide (y.NoteID = k))).length ≤ 1
    have := hle k; omega


/-- Witness for C12: a server list and a client list that both repeat the id `b1`,
and a client entry `zz` unknown to the server. -/
theorem batchDiff_lists_wellformed_witness :
    ∃ resp, ProcessBatchDiff sampleEnv repeatedStore "u1"
        (diffRequest [LocalNoteInfo.mk "b1" "h2" 1, LocalNoteInfo.mk "b1" "h1" 9,
          LocalNoteInfo.mk "zz" "h" 1]) = .ok resp ∧
      (∀ d ∈ resp.ToDownload, ∃ n ∈ repeatedStore.notes, n.ID = d.ID) ∧
      (∀ x ∈ resp.ToUpload, ∃ n ∈ repeatedStore.notes, n.ID = x) ∧
      (∀ x ∈ resp.ToDelete, ∃ n ∈ repeatedStore.notes, n.ID = x) ∧
      (∀ c ∈ resp.Conflicts, ∃ n ∈ repeatedStore.notes, n.ID = c.NoteID) ∧
      (∀ d ∈ resp.ToDownload, d.ID ∉ resp.ToUpload ∧ d.ID ∉ resp.ToDelete ∧
        ∀ c ∈ resp.Conflicts, c.NoteID ≠ d.ID) ∧
      (∀ x ∈ resp.ToUpload, x ∉ resp.ToDelete ∧ ∀ c ∈ resp.Conflicts, c.NoteID ≠ x) ∧
      (∀ x ∈ resp.ToDelete, ∀ c ∈ resp.Conflicts, c.NoteID ≠ x) ∧
      (resp.ToDownload.map (fun d => d.ID)).Nodup ∧ resp.ToUpload.Nodup ∧
      resp.ToDelete.Nodup ∧ (resp.Conflicts.map (fun c => c.NoteID)).Nodup :=
  batchDiff_lists_wellformed sampleEnv repeatedStore "u1"
    (diffRequest [LocalNoteInfo.mk "b1" "h2" 1, LocalNoteInfo.mk "b1" "h1" 9,
      LocalNoteInfo.mk "zz" "h" 1]) repeatedStore.notes rfl (fun m => List.Perm.refl m)

/-! ## Cursor sync: theorems -/

theorem foldl_syncStep (req : SyncRequest) (notes : List Note) (acc : List NoteChange) :
    notes.foldl (syncStep req) acc
      = acc ++ (notes.filter (fun n =>
          (mapLookup req.NoteVersions n.ID).all (fun v => decide (v < n.Version)))).map
          noteChange := by
  induction notes generalizing acc with
  | nil => simp
  | cons n ns ih =>
    rw [List.foldl_cons, ih]
    unfold syncStep
    cases hl : mapLookup req.NoteVersions n.ID with
    | none => simp [List.filter_cons, hl]
    | some v =>
      by_cases hv : v < n.Version
      · simp [List.filter_cons, hl, hv]
      · simp [List.filter_cons, hl, hv]

theorem foldl_sinceStep (since : Time) (notes : List Note) (acc : List NoteChange) :
    notes.foldl (sinceStep since) acc
      = acc ++ (notes.filter (fun n => decide (since < n.UpdatedAt))).map noteChange := by
  induction notes generalizing acc with
  | nil => simp
  | cons n ns ih =>
    rw [List.foldl_cons, ih]
    unfold sinceStep
    by_cases hv : n.UpdatedAt > since
    · simp [List.filter_cons, hv]
    · simp [List.filter_cons, hv]

theorem mapLookup_none_of_not_key {α : Type} (m : List (String × α)) (k : String)
    (h : k ∉ m.map Prod.fst) : mapLookup m k = none := by
  cases hl : mapLookup m k with
  | none => rfl
  | some v =>
    exact absurd (List.mem_map_of_mem Prod.fst (mapLookup_mem m k v hl)) h

theorem mapLookup_of_mem_nodup {α : Type} (m : List (String × α)) (k : String) (v : α)
    (hm : (m.map Prod.fst).Nodup) (h : (k, v) ∈ m) : mapLookup m k = some v := by
  induction m with
  | nil => cases h
  | cons x xs ih =>
    rw [List.map_cons, List.nodup_cons] at hm
    rcases List.mem_cons.mp h with h1 | h1
    · subst h1
      simp [mapLookup]
    · have hx : x.1 ≠ k := by
        intro hxk
        exact hm.1 (hxk ▸ List.mem_map_of_mem Prod.fst h1)
      have := ih hm.2 h1
      simpa [mapLookup, hx] using this

theorem mapLookup_perm {α : Type} (m1 m2 : List (String × α)) (k : String)
    (hp : m1.Perm m2) (hm : (m2.map Prod.fst).Nodup) : mapLookup m1 k = mapLookup m2 k := by
  have hm1 : (m1.map Prod.fst).Nodup := (hp.map Prod.fst).nodup_iff.mpr hm
  cases h2 : mapLookup m2 k with
  | some v =>
    exact mapLookup_of_mem_nodup m1 k v hm1 (hp.mem_iff.mpr (mapLookup_mem m2 k v h2))
  | none =>
    cases h1 : mapLookup m1 k with
    | none => rfl
    | some v =>
      have := mapLookup_of_mem_nodup m2 k v hm (hp.mem_iff.mp (mapLookup_mem m1 k v h1))
      rw [h2] at this
      cases this

theorem mapLookup_foldl_insert (entries : List (String × Int)) (m0 : List (String × Int))
    (k : String) (hm : (entries.map Prod.fst).Nodup) :
    mapLookup (entries.foldl (fun m e => mapInsert e.1 e.2 m) m0) k
      = (mapLookup entries k).orElse (fun _ => mapLookup m0 k) := by
  induction entries generalizing m0 with
  | nil => simp [mapLookup]
  | cons e es ih =>
    rw [List.map_cons, List.nodup_cons] at hm
    rw [List.foldl_cons, ih _ hm.2, mapLookup_mapInsert]
    by_cases hk : k = e.1
    · subst hk
      rw [mapLookup_none_of_not_key es e.1 hm.1]
      simp [mapLookup]
    · have hk2 : ¬ e.1 = k := fun h => hk h.symm
      have : mapLookup (e :: es) k = mapLookup es k := by simp [mapLookup, hk2]
      rw [this]
      simp [hk]

theorem cursorOf_putCursor (s : Store) (doc : SyncMetadata) (userID deviceID : String)
    (hkey : cursorDocID doc.UserID doc.DeviceID = cursorDocID userID deviceID) :
    (s.putCursor doc).cursorOf userID deviceID = some doc := by
  simp [Store.putCursor, Store.cursorOf, mapLookup_mapInsert, hkey]

/-- The cursor store after the version loop of `ProcessSyncRequest`, when no
`UpdateNoteVersion` fails: the cursor document keeps its last sync time, and
the entries were assigned to its version map in turn. -/
theorem recordVersions_cursor (env : Env) (userID deviceID : String)
    (entries : List (String × Int)) (s : Store) (doc : SyncMetadata)
    (hdoc : s.cursorOf userID deviceID = some doc)
    (hkey : cursorDocID doc.UserID doc.DeviceID = cursorDocID userID deviceID)
    (hok : ∀ e ∈ entries, env.noteVersionFails e.1 = false) :
    ∃ doc2, (entries.foldl (recordVersion env userID deviceID) s).cursorOf userID deviceID
        = some doc2 ∧
      doc2.LastSyncTime = doc.LastSyncTime ∧
      doc2.NoteVersions = entries.foldl (fun m e => mapInsert e.1 e.2 m) doc.NoteVersions := by
  induction entries generalizing s doc with
  | nil => exact ⟨doc, hdoc, rfl, rfl⟩
  | cons e es ih =>
    have he : env.noteVersionFails e.1 = false := hok e (List.mem_cons_self _ _)
    have hstep : recordVersion env userID deviceID s e
        = s.putCursor (SyncMetadata.mk doc.UserID doc.DeviceID doc.LastSyncTime
            (mapInsert e.1 e.2 doc.NoteVersions) doc.PendingConflicts env.storeNow) := by
      simp [recordVersion, syncMetadataUpdateNoteVersion, syncMetadataGet, syncMetadataUpsert,
        he, hdoc]
    obtain ⟨doc2, h1, h2, h3⟩ := ih (recordVersion env userID deviceID s e)
      (SyncMetadata.mk doc.UserID doc.DeviceID doc.LastSyncTime
        (mapInsert e.1 e.2 doc.NoteVersions) doc.PendingConflicts env.storeNow)
      (by rw [hstep]; exact cursorOf_putCursor _ _ _ _ hkey) hkey
      (fun x hx => hok x (List.mem_cons_of_mem _ hx))
    exact ⟨doc2, by rw [List.foldl_cons]; exact h1, h2, by rw [List.foldl_cons]; exact h3⟩

/-- C13. For the note list `notes` that the store lists for the owner, when
`UpdateLastSync` succeeds, `ProcessSyncRequest` returns a change list that holds,
in the order of `notes`, exactly one change for each listed note for which the
request's cursor has no entry or an entry strictly below the note's stored
version, and nothing else; each change carries the note's id and stored
version, with operation `delete` for a tombstoned note and `update` otherwise.
The listed notes are the notes owned by the owner. -/
theorem processSync_changes (env : Env) (s : Store) (userID deviceID : String)
    (req : SyncRequest) (notes : List Note)
    (hlist : noteRepoList env s userID = .ok notes) (hsync : env.lastSyncFails = false) :
    ∃ resp, (ProcessSyncRequest env s userID deviceID req).1 = .ok resp ∧
      resp.Changes.map (fun c => (c.NoteID, c.Version, c.Operation))
        = (notes.filter (fun n =>
            (mapLookup req.NoteVersions n.ID).all (fun v => decide (v < n.Version)))).map
            (fun n => (n.ID, n.Version, if n.IsDeleted then "delete" else "update")) ∧
      (∀ n, n ∈ notes ↔ n ∈ s.notes ∧ n.UserID = userID) := by
  have hnotes : notes = s.notes.filter (fun n => decide (n.UserID = userID)) := by
    unfold noteRepoList at hlist
    cases hf : env.listFails with
    | true => simp [hf] at hlist
    | false =>
      simp only [hf, Bool.false_eq_true, if_false, Except.ok.injEq] at hlist
      exact hlist.symm
  refine ⟨SyncResponse.mk (notes.foldl (syncStep req) []) env.now false, ?_, ?_, ?_⟩
  · simp [ProcessSyncRequest, hlist, syncMetadataUpdateLastSync, syncMetadataGet,
      syncMetadataUpsert, hsync]
    cases s.cursorOf userID deviceID <;> rfl
  · simp only [foldl_syncStep, List.nil_append, List.map_map]
    rfl
  · intro n
    rw [hnotes]
    simp [List.mem_filter]


/-- Witness for C13: the cursor declares `n1` at its stored version 2 and does not
know `b1`, so the only change is the update of `b1` at version 3. -/
theorem processSync_changes_witness :
    ∃ resp, (ProcessSyncRequest sampleEnv cursorStore "u1" "d2" syncRequest).1 = .ok resp ∧
      resp.Changes.map (fun c => (c.NoteID, c.Version, c.Operation)) = [("b1", 3, "update")] := by
  obtain ⟨resp, h1, h2, _⟩ := processSync_changes sampleEnv cursorStore "u1" "d2" syncRequest
    [sampleNote, serverNoteB] rfl rfl
  exact ⟨resp, h1, h2.trans (by decide)⟩
/-- C14. When every storage call of `ProcessSyncRequest` succeeds (and the request's
version map is a Go map: no key twice), the cursor stored for the owner and
device afterwards has the returned sync time as last sync time, and its version
map is the previous one overridden by the request's: a declared id maps to the
declared version, an undeclared id keeps its previous entry, and an id that was
neither declared nor stored before has no entry, even if it was delivered as a
change. The previous cursor document, if any, is the one stored under the key
of the owner and device. -/
theorem processSync_cursor (env : Env) (s : Store) (userID deviceID : String)
    (req : SyncRequest)
    (hlist : env.listFails = false) (hsync : env.lastSyncFails = false)
    (hver : ∀ e ∈ req.NoteVersions, env.noteVersionFails e.1 = false)
    (hperm : ∀ m, (env.rangeVersions m).Perm m)
    (hmap : (req.NoteVersions.map Prod.fst).Nodup)
    (hkey : ∀ doc, s.cursorOf userID deviceID = some doc →
      cursorDocID doc.UserID doc.DeviceID = cursorDocID userID deviceID) :
    ∃ resp doc,
      (ProcessSyncRequest env s userID deviceID req).1 = .ok resp ∧
      (ProcessSyncRequest env s userID deviceID req).2.cursorOf userID deviceID = some doc ∧
      doc.LastSyncTime = resp.SyncTime ∧
      (∀ id, mapLookup doc.NoteVersions id
        = (mapLookup req.NoteVersions id).orElse (fun _ =>
            mapLookup (((s.cursorOf userID deviceID).map
              (fun d => d.NoteVersions)).getD []) id)) ∧
      (∀ id v, (id, v) ∈ req.NoteVersions → mapLookup doc.NoteVersions id = some v) ∧
      (∀ id, id ∉ req.NoteVersions.map Prod.fst →
        mapLookup doc.NoteVersions id
          = mapLookup (((s.cursorOf userID deviceID).map
              (fun d => d.NoteVersions)).getD []) id) := by
  have hp := hperm req.NoteVersions
  have hnd : ((env.rangeVersions req.NoteVersions).map Prod.fst).Nodup :=
    (hp.map Prod.fst).nodup_iff.mpr hmap
  have hok : ∀ e ∈ env.rangeVersions req.NoteVersions, env.noteVersionFails e.1 = false :=
    fun e he => hver e (hp.mem_iff.mp he)
  obtain ⟨doc0, hget, hkey0, hprev⟩ : ∃ doc0,
      syncMetadataGet false env s userID deviceID = .ok doc0 ∧
      cursorDocID doc0.UserID doc0.DeviceID = cursorDocID userID deviceID ∧
      doc0.NoteVersions
        = ((s.cursorOf userID deviceID).map (fun d => d.NoteVersions)).getD [] := by
    cases hc : s.cursorOf userID deviceID with
    | none =>
      exact ⟨SyncMetadata.mk userID deviceID 0 [] [] env.storeNow,
        by simp [syncMetadataGet, hc], rfl, rfl⟩
    | some d => exact ⟨d, by simp [syncMetadataGet, hc], hkey d hc, rfl⟩
  have hs1 : syncMetadataUpdateLastSync env s userID deviceID env.now
      = .ok (s.putCursor (SyncMetadata.mk doc0.UserID doc0.DeviceID env.now doc0.NoteVersions
          doc0.PendingConflicts env.storeNow)) := by
    simp [syncMetadataUpdateLastSync, hsync, hget, syncMetadataUpsert]
  obtain ⟨doc2, h1, h2, h3⟩ := recordVersions_cursor env userID deviceID
    (env.rangeVersions req.NoteVersions)
    (s.putCursor (SyncMetadata.mk doc0.UserID doc0.DeviceID env.now doc0.NoteVersions
      doc0.PendingConflicts env.storeNow))
    (SyncMetadata.mk doc0.UserID doc0.DeviceID env.now doc0.NoteVersions
      doc0.PendingConflicts env.storeNow)
    (cursorOf_putCursor _ _ _ _ hkey0) hkey0 hok
  have hall : ∀ id, mapLookup doc2.NoteVersions id
      = (mapLookup req.NoteVersions id).orElse (fun _ =>
          mapLookup (((s.cursorOf userID deviceID).map
            (fun d => d.NoteVersions)).getD []) id) := by
    intro id
    rw [h3, mapLookup_foldl_insert _ _ _ hnd, mapLookup_perm _ _ id hp hmap]
    exact congrArg _ (by rw [hprev])
  refine ⟨SyncResponse.mk ((s.notes.filter (fun n => decide (n.UserID = userID))).foldl
    (syncStep req) []) env.now false, doc2, ?_, ?_, h2, hall, ?_, ?_⟩
  · simp [ProcessSyncRequest, noteRepoList, hlist, hs1]
  · simp only [ProcessSyncRequest, noteRepoList, hlist, hs1]
    exact h1
  · intro id v hv
    rw [hall, mapLookup_of_mem_nodup _ _ _ hmap hv]
    rfl
  · intro id hid
    rw [hall, mapLookup_none_of_not_key _ _ hid]
    rfl


/-- Witness for C14: the device had declared `old` at version 7 before and now
declares `n1` at version 2; `b1` is delivered as a change and gets no entry. -/
theorem processSync_cursor_witness :
    ∃ resp doc,
      (ProcessSyncRequest sampleEnv cursorStore "u1" "d2" syncRequest).1 = .ok resp ∧
      (ProcessSyncRequest sampleEnv cursorStore "u1" "d2" syncRequest).2.cursorOf "u1" "d2"
        = some doc ∧
      doc.LastSyncTime = resp.SyncTime ∧
      mapLookup doc.NoteVersions "n1" = some 2 ∧
      mapLookup doc.NoteVersions "old" = some 7 ∧
      mapLookup doc.NoteVersions "b1" = none := by
  obtain ⟨resp, doc, h1, h2, h3, _, h5, h6⟩ :=
    processSync_cursor sampleEnv cursorStore "u1" "d2" syncRequest rfl rfl
      (fun _ _ => rfl) (fun m => List.Perm.refl m) (by decide)
      (by
        intro doc hdoc
        have hd : doc = oldCursor := by
          have : cursorStore.cursorOf "u1" "d2" = some oldCursor := by decide
          rw [this] at hdoc
          exact (Option.some.inj hdoc).symm
        rw [hd]
        decide)
  exact ⟨resp, doc, h1, h2, h3, h5 "n1" 2 (by decide),
    (h6 "old" (by decide)).trans (by decide), (h6 "b1" (by decide)).trans (by decide)⟩
/-- C15. For the note list `notes` that the store lists for the owner (the notes
owned by the owner), `GetChangesSince` returns, in the order of `notes`, the
changes of exactly the listed notes whose `updated_at` is strictly after the
given time (a note updated at that very time is left out), with operation
`delete` for a tombstoned note and `update` otherwise; it leaves the store as
it was, and its result is the same for any store with the same notes, whatever
the cursors are. -/
theorem getChangesSince_filter (env : Env) (s : Store) (userID : String) (since : Time)
    (notes : List Note) (hlist : noteRepoList env s userID = .ok notes) :
    ∃ changes, (GetChangesSince env s userID since).1 = .ok changes ∧
      changes = (notes.filter (fun n => decide (since < n.UpdatedAt))).map noteChange ∧
      changes.map (fun c => (c.NoteID, c.Version, c.Operation))
        = (notes.filter (fun n => decide (since < n.UpdatedAt))).map
            (fun n => (n.ID, n.Version, if n.IsDeleted then "delete" else "update")) ∧
      (∀ n ∈ notes, (noteChange n ∈ changes ↔ since < n.UpdatedAt)) ∧
      (∀ n, n ∈ notes ↔ n ∈ s.notes ∧ n.UserID = userID) ∧
      (GetChangesSince env s userID since).2 = s ∧
      (∀ s2 : Store, s2.notes = s.notes →
        (GetChangesSince env s2 userID since).1 = (GetChangesSince env s userID since).1) := by
  have hf : env.listFails = false := by
    unfold noteRepoList at hlist
    cases hf : env.listFails with
    | true => simp [hf] at hlist
    | false => rfl
  have hnotes : notes = s.notes.filter (fun n => decide (n.UserID = userID)) := by
    unfold noteRepoList at hlist
    simp only [hf, Bool.false_eq_true, if_false, Except.ok.injEq] at hlist
    exact hlist.symm
  refine ⟨_, ?_, rfl, ?_, ?_, ?_, ?_, ?_⟩
  · simp [GetChangesSince, hlist, foldl_sinceStep]
  · simp only [List.map_map]
    rfl
  · intro n hn
    constructor
    · intro h
      obtain ⟨m, hm, hmn⟩ := List.mem_map.mp h
      have hm2 := (List.mem_filter.mp hm).2
      have : m.UpdatedAt = n.UpdatedAt := by
        have h1 : (noteChange m).Note = (noteChange n).Note := by rw [hmn]
        simp only [noteChange, Option.some.injEq] at h1
        exact congrArg NoteResponse.UpdatedAt h1
      rw [← this]
      simpa using hm2
    · intro h
      exact List.mem_map.mpr ⟨n, List.mem_filter.mpr ⟨hn, by simpa using h⟩, rfl⟩
  · intro n
    rw [hnotes]
    simp [List.mem_filter]
  · simp [GetChangesSince, hlist]
  · intro s2 h2
    simp [GetChangesSince, noteRepoList, hf, h2]


/-- Witness for C15: both notes of `u1` were updated at time 2, so asking for the
changes since time 2 returns none of them. -/
theorem getChangesSince_filter_witness :
    sampleNote.UpdatedAt = 2 ∧
    ∃ changes, (GetChangesSince sampleEnv cursorStore "u1" 2).1 = .ok changes ∧
      noteChange sampleNote ∉ changes ∧
      (GetChangesSince sampleEnv cursorStore "u1" 2).2 = cursorStore := by
  obtain ⟨changes, h1, _, _, h4, _, h6, _⟩ := getChangesSince_filter sampleEnv cursorStore "u1" 2
    [sampleNote, serverNoteB] rfl
  refine ⟨rfl, changes, h1, ?_, h6⟩
  intro hmem
  exact absurd ((h4 sampleNote (by decide)).mp hmem) (by decide)

/-! ## Conflict resolution: strategies and failures -/

theorem conflictRepoGet_ok (s : Store) (id : String) (c : Conflict)
    (hc : s.conflictByID id = some c) : conflictRepoGet false s id = .ok c := by
  unfold Store.conflictByID at hc
  unfold conflictRepoGet
  cases hf : s.conflicts.find? (fun d => decide (d.1 = id)) with
  | none => simp [hf] at hc
  | some d =>
    simp only [hf, Option.map_some', Option.some.injEq] at hc
    simp [hc]

theorem conflictRepoGet_fails (s : Store) (id : String) :
    conflictRepoGet true s id = .error (.msg "conflict not found") := by
  simp [conflictRepoGet]

theorem markResolved_ok (env : Env) (s : Store) (id choice : String) (c : Conflict)
    (hc : s.conflictByID id = some c) (hmark : env.markResolvedFails = false) :
    ∃ s1, conflictRepoMarkResolved env s id choice = .ok s1 ∧
      s1.notes = s.notes ∧ s1.versions = s.versions ∧
      s1.conflictByID id
        = some (Conflict.mk c.ID c.NoteID c.UserID c.Type_ c.BaseVersion c.ServerVersion
            c.ClientVersion c.ServerNote c.ClientData c.DeviceID c.DetectedAt
            (some env.storeNow) choice) := by
  refine ⟨Store.mk s.notes s.versions (replaceFirst (fun d => decide (d.1 = id))
    (fun d => (d.1, Conflict.mk d.2.ID d.2.NoteID d.2.UserID d.2.Type_ d.2.BaseVersion
      d.2.ServerVersion d.2.ClientVersion d.2.ServerNote d.2.ClientData d.2.DeviceID
      d.2.DetectedAt (some env.storeNow) choice)) s.conflicts) s.registry s.cursors,
    ?_, rfl, rfl, ?_⟩
  · simp [conflictRepoMarkResolved, hmark, conflictRepoGet_ok s id c hc]
  · unfold Store.conflictByID at hc ⊢
    simp only []
    rw [find?_replaceFirst _ _ (by intro x hx; simpa using hx)]
    cases hf : s.conflicts.find? (fun d => decide (d.1 = id)) with
    | none => simp [hf] at hc
    | some d =>
      simp only [hf, Option.map_some', Option.some.injEq] at hc
      simp [hc]

theorem markResolved_fails (env : Env) (s : Store) (id choice : String)
    (hmark : env.markResolvedFails = true) :
    conflictRepoMarkResolved env s id choice = .error (.msg "conflict not found") := by
  simp [conflictRepoMarkResolved, hmark, conflictRepoGet]

theorem noteRepoUpdate_frame (env : Env) (s s1 : Store) (note : Note)
    (h : noteRepoUpdate env s note = .ok s1) :
    s1.conflicts = s.conflicts ∧ s1.versions = s.versions := by
  unfold noteRepoUpdate at h
  cases hn : s.noteByID note.ID with
  | none => simp [hn] at h
  | some n =>
    cases hf : env.noteUpdateFails with
    | true => simp [hn, hf] at h
    | false =>
      simp only [hn, hf, Bool.false_eq_true, if_false, Except.ok.injEq] at h
      rw [← h]
      exact ⟨rfl, rfl⟩

theorem noteRepoUpdate_fails (env : Env) (s : Store) (note : Note)
    (hf : env.noteUpdateFails = true) : ∃ e, noteRepoUpdate env s note = .error e := by
  unfold noteRepoUpdate
  cases s.noteByID note.ID <;> simp [hf]

theorem markResolved_frame (env : Env) (s s1 : Store) (id choice : String)
    (h : conflictRepoMarkResolved env s id choice = .ok s1) :
    s1.notes = s.notes ∧ s1.versions = s.versions := by
  unfold conflictRepoMarkResolved at h
  cases hg : conflictRepoGet env.markResolvedFails s id with
  | error e => simp [hg] at h
  | ok c =>
    simp only [hg, Except.ok.injEq] at h
    rw [← h]
    exact ⟨rfl, rfl⟩

theorem persistResolution_error (env : Env) (s : Store) (note : Note) (id choice : String)
    (e : Err) (h : (persistResolution env s note id choice).1 = .error e) :
    (persistResolution env s note id choice).2.conflicts = s.conflicts ∧
    (persistResolution env s note id choice).2.versions = s.versions := by
  unfold persistResolution at h ⊢
  cases hu : noteRepoUpdate env s note with
  | error e1 => simp
  | ok s1 =>
    obtain ⟨h1, h2⟩ := noteRepoUpdate_frame env s s1 note hu
    cases hm : conflictRepoMarkResolved env s1 id choice with
    | error e2 => simp [hm, h1, h2]
    | ok s2 => simp [hu, hm] at h

theorem persistResolution_notes (env : Env) (s : Store) (note : Note) (id choice : String)
    (hf : env.noteUpdateFails = true) :
    (∃ e, (persistResolution env s note id choice).1 = .error e) ∧
    (persistResolution env s note id choice).2 = s := by
  obtain ⟨e, he⟩ := noteRepoUpdate_fails env s note hf
  simp [persistResolution, he]

theorem persistResolution_mark_fails (env : Env) (s : Store) (note : Note) (id choice : String)
    (hm : env.markResolvedFails = true) :
    ∃ e, (persistResolution env s note id choice).1 = .error e := by
  unfold persistResolution
  cases hu : noteRepoUpdate env s note with
  | error e1 => exact ⟨e1, rfl⟩
  | ok s1 =>
    simp [markResolved_fails env s1 id choice hm]

theorem resolveWithLWW_error (env : Env) (s : Store) (c : Conflict) (e : Err)
    (h : (ResolveWithLWW env s c).1 = .error e) :
    (ResolveWithLWW env s c).2.conflicts = s.conflicts ∧
    (ResolveWithLWW env s c).2.versions = s.versions := by
  unfold ResolveWithLWW at h ⊢
  cases hd : c.ClientData with
  | none => simp
  | some data =>
    cases hn : c.ServerNote with
    | none => simp
    | some sn =>
      simp only [hd, hn] at h ⊢
      by_cases ht : sn.UpdatedAt > clientUpdatedAt env s c data
      · simp only [ht, if_true] at h ⊢
        cases hm : conflictRepoMarkResolved env s c.ID ResolutionLWW with
        | error e2 => simp [hm]
        | ok s2 => simp [hm] at h
      · simp only [ht, if_false] at h ⊢
        exact persistResolution_error env s _ _ _ e h

theorem noteByID_congr (s1 s2 : Store) (id : String) (h : s1.notes = s2.notes) :
    s1.noteByID id = s2.noteByID id := by
  unfold Store.noteByID
  rw [h]

theorem conflictByID_congr (s1 s2 : Store) (id : String) (h : s1.conflicts = s2.conflicts) :
    s1.conflictByID id = s2.conflictByID id := by
  unfold Store.conflictByID
  rw [h]

/-- The tail shared by the client and manual branches, when every storage call succeeds. -/
theorem persistResolution_ok (env : Env) (s : Store) (note existing : Note) (id choice : String)
    (c : Conflict) (hc : s.conflictByID id = some c)
    (hnote : s.noteByID note.ID = some existing)
    (hupd : env.noteUpdateFails = false) (hmark : env.markResolvedFails = false) :
    (persistResolution env s note id choice).1 = .ok (some note) ∧
    (persistResolution env s note id choice).2.noteByID note.ID
      = some (updatedDoc env.storeNow note existing) ∧
    (persistResolution env s note id choice).2.conflictByID id
      = some { c with ResolvedAt := some env.storeNow, ResolutionChoice := choice } := by
  obtain ⟨s1, h1, h2, _, h4, _⟩ := noteRepoUpdate_ok env s note existing hnote hupd
  have hc1 : s1.conflictByID id = some c := by
    rw [conflictByID_congr s1 s id h4]; exact hc
  obtain ⟨s2, k1, k2, _, k4⟩ := markResolved_ok env s1 id choice c hc1 hmark
  simp only [persistResolution, h1, k1]
  exact ⟨trivial, by rw [noteByID_congr s2 s1 _ k2]; exact h2, k4⟩


theorem applyResolution_error_frame (env : Env) (s : Store) (id strategy : String)
    (noteData : Option UpdateNoteRequest) (e : Err)
    (h : (ApplyResolution env s id strategy noteData).1 = .error e) :
    (ApplyResolution env s id strategy noteData).2.conflicts = s.conflicts ∧
    (ApplyResolution env s id strategy noteData).2.versions = s.versions := by
  unfold ApplyResolution at h ⊢
  cases hg : conflictRepoGet env.conflictGetFails s id with
  | error e1 => simp
  | ok c =>
    simp only [hg] at h ⊢
    by_cases h1 : strategy = ResolutionLWW
    · simp only [h1, if_true] at h ⊢
      exact resolveWithLWW_error env s c e h
    · simp only [h1, if_false] at h ⊢
      by_cases h2 : strategy = ResolutionServer
      · simp only [h2, if_true] at h ⊢
        cases hm : conflictRepoMarkResolved env s id ResolutionServer with
        | error e2 => simp [hm]
        | ok s2 => simp [hm] at h
      · simp only [h2, if_false] at h ⊢
        by_cases h3 : strategy = ResolutionClient
        · simp only [h3, if_true] at h ⊢
          cases hd : c.ClientData with
          | none => simp
          | some data =>
            cases hn : c.ServerNote with
            | none => simp
            | some sn =>
              simp only [hd, hn] at h ⊢
              exact persistResolution_error env s _ _ _ e h
        · simp only [h3, if_false] at h ⊢
          by_cases h4 : strategy = ResolutionManual
          · simp only [h4, if_true] at h ⊢
            cases hd : noteData with
            | none => simp
            | some data =>
              cases hn : c.ServerNote with
              | none => simp
              | some sn =>
                simp only [hd, hn] at h ⊢
                exact persistResolution_error env s _ _ _ e h
          · simp [h4]

theorem applyResolution_update_fails (env : Env) (s : Store) (id strategy : String)
    (noteData : Option UpdateNoteRequest) (hf : env.noteUpdateFails = true) :
    (ApplyResolution env s id strategy noteData).2.notes = s.notes ∧
    (strategy = ResolutionClient ∨ strategy = ResolutionManual →
      ∃ e, (ApplyResolution env s id strategy noteData).1 = .error e) := by
  unfold ApplyResolution
  cases hg : conflictRepoGet env.conflictGetFails s id with
  | error e1 => exact ⟨rfl, fun _ => ⟨e1, rfl⟩⟩
  | ok c =>
    simp only []
    by_cases h1 : strategy = ResolutionLWW
    · have hc : ¬ ResolutionLWW = ResolutionClient := by decide
      have hm : ¬ ResolutionLWW = ResolutionManual := by decide
      simp only [h1, if_true, hc, hm, or_self, false_implies, and_true]
      unfold ResolveWithLWW
      cases hd : c.ClientData with
      | none => rfl
      | some data =>
        cases hn : c.ServerNote with
        | none => rfl
        | some sn =>
          simp only []
          by_cases ht : sn.UpdatedAt > clientUpdatedAt env s c data
          · simp only [ht, if_true]
            cases hmr : conflictRepoMarkResolved env s c.ID ResolutionLWW with
            | error e2 => rfl
            | ok s2 => exact (markResolved_frame env s s2 _ _ hmr).1
          · simp only [ht, if_false]
            rw [(persistResolution_notes env s _ _ _ hf).2]
    · simp only [h1, if_false]
      by_cases h2 : strategy = ResolutionServer
      · have hc : ¬ ResolutionServer = ResolutionClient := by decide
        have hm : ¬ ResolutionServer = ResolutionManual := by decide
        simp only [h2, if_true, hc, hm, or_self, false_implies, and_true]
        cases hmr : conflictRepoMarkResolved env s id ResolutionServer with
        | error e2 => rfl
        | ok s2 => exact (markResolved_frame env s s2 _ _ hmr).1
      · simp only [h2, if_false]
        by_cases h3 : strategy = ResolutionClient
        · simp only [h3, if_true]
          cases hd : c.ClientData with
          | none => exact ⟨rfl, fun _ => ⟨_, rfl⟩⟩
          | some data =>
            cases hn : c.ServerNote with
            | none => exact ⟨rfl, fun _ => ⟨_, rfl⟩⟩
            | some sn =>
              simp only []
              obtain ⟨k1, k2⟩ := persistResolution_notes env s
                (resolvePatch env.now sn data c.DeviceID) id ResolutionClient hf
              exact ⟨by rw [k2], fun _ => k1⟩
        · simp only [h3, if_false]
          by_cases h4 : strategy = ResolutionManual
          · simp only [h4, if_true]
            cases hd : noteData with
            | none => exact ⟨rfl, fun _ => ⟨_, rfl⟩⟩
            | some data =>
              cases hn : c.ServerNote with
              | none => exact ⟨rfl, fun _ => ⟨_, rfl⟩⟩
              | some sn =>
                simp only []
                obtain ⟨k1, k2⟩ := persistResolution_notes env s
                  (resolvePatch env.now sn data data.DeviceID) id ResolutionManual hf
                exact ⟨by rw [k2], fun _ => k1⟩
          · simp only [h4, if_false]
            exact ⟨trivial, fun _ => ⟨_, rfl⟩⟩

theorem applyResolution_mark_fails (env : Env) (s : Store) (id strategy : String)
    (noteData : Option UpdateNoteRequest) (hf : env.markResolvedFails = true)
    (hs : strategy ≠ ResolutionLWW) :
    ∃ e, (ApplyResolution env s id strategy noteData).1 = .error e := by
  unfold ApplyResolution
  cases hg : conflictRepoGet env.conflictGetFails s id with
  | error e1 => exact ⟨e1, rfl⟩
  | ok c =>
    simp only [hs, if_false]
    by_cases h2 : strategy = ResolutionServer
    · simp only [h2, if_true, markResolved_fails env s id ResolutionServer hf]
      exact ⟨_, rfl⟩
    · simp only [h2, if_false]
      by_cases h3 : strategy = ResolutionClient
      · simp only [h3, if_true]
        cases hd : c.ClientData with
        | none => exact ⟨_, rfl⟩
        | some data =>
          cases hn : c.ServerNote with
          | none => exact ⟨_, rfl⟩
          | some sn => exact persistResolution_mark_fails env s _ _ _ hf
      · simp only [h3, if_false]
        by_cases h4 : strategy = ResolutionManual
        · simp only [h4, if_true]
          cases hd : noteData with
          | none => exact ⟨_, rfl⟩
          | some data =>
            cases hn : c.ServerNote with
            | none => exact ⟨_, rfl⟩
            | some sn => exact persistResolution_mark_fails env s _ _ _ hf
        · simp only [h4, if_false]
          exact ⟨_, rfl⟩

/-- C16 fails on the code: a conflict read back from the store has an empty `ID`
(the document has no `id` member), and `ResolveWithLWW` marks the conflict
resolved under that empty id, which is not found. For the recorded conflict
`c1`, whose snapshot was updated at time 2: with the client time 1 (server
strictly later) the call returns the error and not the snapshot; with the
client time 5 it persists the patched note (version 3) and still returns the
error, leaving the conflict unresolved. -/
theorem applyResolution_lww_not_found :
    (storeAfterConflict.conflictByID "c1").map (fun c => (c.ID, c.ClientData))
      = some ("", some staleRequest) ∧
    (storeAfterConflict.conflictByID "c1").map (fun c => c.ServerNote.map (fun n => n.UpdatedAt))
      = some (some 2) ∧
    (storeAfterConflict.conflictByID "c1").map
      (fun c => clientUpdatedAt earlyEnv storeAfterConflict c staleRequest) = some 1 ∧
    (storeAfterConflict.conflictByID "c1").map
      (fun c => clientUpdatedAt sampleEnv storeAfterConflict c staleRequest) = some 5 ∧
    (storeAfterConflict.noteByID "n1").map (fun n => (n.UpdatedAt, n.Version)) = some (2, 2) ∧
    ApplyResolution earlyEnv storeAfterConflict "c1" ResolutionLWW none
      = (.error (.msg "conflict not found"), storeAfterConflict) ∧
    (ApplyResolution sampleEnv storeAfterConflict "c1" ResolutionLWW none).1
      = .error (.msg "conflict not found") ∧
    ((ApplyResolution sampleEnv storeAfterConflict "c1" ResolutionLWW none).2.noteByID
      "n1").map (fun n => (n.Version, n.EncryptedTitle)) = some (3, "t2") ∧
    ((ApplyResolution sampleEnv storeAfterConflict "c1" ResolutionLWW none).2.conflictByID
      "c1").map (fun c => (c.ResolvedAt, c.ResolutionChoice)) = some (none, "") := by
  refine ⟨?_, ?_, ?_, ?_, ?_, ?_, ?_, ?_, ?_⟩ <;> rfl

/-- C17: the client strategy does not apply every non-null field of the stored
client patch. The patch of conflict `c1`, recorded by `NoteService.Update` for
a stale update, sets the encryption algorithm, the parent and the tombstone
flag; the note returned and persisted by the client strategy keeps the
snapshot's values for all three, where `NoteService.Update` applies them. -/
theorem applyResolution_client_ignores_fields :
    (storeAfterMoveConflict.conflictByID "c1").map (fun c => c.ClientData) = some (some movePatch) ∧
    movePatch.EncryptionAlgo = some "algo2" ∧ movePatch.ParentID = some "p9" ∧
    movePatch.IsDeleted = some true ∧
    ((ApplyResolution sampleEnv storeAfterMoveConflict "c1" ResolutionClient none).1.toOption.map
      (fun r => r.map (fun n => (n.EncryptionAlgo, n.ParentID, n.IsDeleted))))
      = some (some ("algo", none, false)) ∧
    ((ApplyResolution sampleEnv storeAfterMoveConflict "c1" ResolutionClient none).2.noteByID
      "n1").map (fun n => (n.EncryptionAlgo, n.ParentID, n.IsDeleted))
      = some ("algo", none, false) := by
  refine ⟨?_, ?_, ?_, ?_, ?_, ?_⟩ <;> rfl

/-- The client branch of `ApplyResolution` (lines 138-169) on every stored
conflict with a client patch and a server snapshot whose note document exists,
when the storage calls succeed: the four fields the branch copies from the
patch, the three it does not read, the version and the editing device of the
note it writes, and the mark on the conflict. -/
theorem applyResolution_client_patch (env : Env) (s : Store) (id : String) (c : Conflict)
    (data : UpdateNoteRequest) (snap existing : Note) (noteData : Option UpdateNoteRequest)
    (hc : s.conflictByID id = some c) (hdata : c.ClientData = some data)
    (hsnap : c.ServerNote = some snap) (hnote : s.noteByID snap.ID = some existing)
    (hget : env.conflictGetFails = false) (hupd : env.noteUpdateFails = false)
    (hmark : env.markResolvedFails = false) :
    ∃ (note post : Note),
      (ApplyResolution env s id ResolutionClient noteData).1 = .ok (some note) ∧
      (ApplyResolution env s id ResolutionClient noteData).2.noteByID snap.ID = some post ∧
      note.EncryptedTitle = data.EncryptedTitle.getD snap.EncryptedTitle ∧
      note.EncryptedContent = data.EncryptedContent.getD snap.EncryptedContent ∧
      note.Nonce = data.Nonce.getD snap.Nonce ∧
      note.ContentHash = data.ContentHash.getD snap.ContentHash ∧
      note.EncryptionAlgo = snap.EncryptionAlgo ∧ note.ParentID = snap.ParentID ∧
      note.IsDeleted = snap.IsDeleted ∧
      note.ID = snap.ID ∧ note.UserID = snap.UserID ∧ note.WorkspaceID = snap.WorkspaceID ∧
      note.Type_ = snap.Type_ ∧ note.CreatedAt = snap.CreatedAt ∧
      note.Version = wrapInt64 (snap.Version + 1) ∧
      (minInt64 ≤ snap.Version → snap.Version < maxInt64 → note.Version = snap.Version + 1) ∧
      note.LastEditDevice = c.DeviceID ∧
      post.EncryptedTitle = note.EncryptedTitle ∧ post.EncryptedContent = note.EncryptedContent ∧
      post.EncryptionAlgo = note.EncryptionAlgo ∧ post.Nonce = note.Nonce ∧
      post.ParentID = note.ParentID ∧ post.IsDeleted = note.IsDeleted ∧
      post.ContentHash = note.ContentHash ∧ post.Version = note.Version ∧
      post.LastEditDevice = note.LastEditDevice ∧
      (ApplyResolution env s id ResolutionClient noteData).2.conflictByID id
        = some { c with ResolvedAt := some env.storeNow, ResolutionChoice := ResolutionClient } := by
  have h1 : ¬ ResolutionClient = ResolutionLWW := by decide
  have h2 : ¬ ResolutionClient = ResolutionServer := by decide
  have hrun : ApplyResolution env s id ResolutionClient noteData
      = persistResolution env s (resolvePatch env.now snap data c.DeviceID) id
          ResolutionClient := by
    simp only [ApplyResolution, hget, conflictRepoGet_ok s id c hc, h1, h2, if_false, if_true,
      hdata, hsnap]
  obtain ⟨k1, k2, k3⟩ := persistResolution_ok env s (resolvePatch env.now snap data c.DeviceID)
    existing id ResolutionClient c hc hnote hupd hmark
  rw [hrun]
  refine ⟨resolvePatch env.now snap data c.DeviceID, _, k1, k2, ?_, ?_, ?_, ?_, rfl, rfl, rfl,
    rfl, rfl, rfl, rfl, rfl, rfl, ?_, rfl, rfl, rfl, rfl, rfl, rfl, rfl, rfl, rfl, rfl, k3⟩
  · simp only [resolvePatch]; cases data.EncryptedTitle <;> rfl
  · simp only [resolvePatch]; cases data.EncryptedContent <;> rfl
  · simp only [resolvePatch]; cases data.Nonce <;> rfl
  · simp only [resolvePatch]; cases data.ContentHash <;> rfl
  · intro hlo hhi
    exact wrapInt64_succ _ hlo hhi

/-- C18. For a stored conflict, when the storage calls succeed, `ApplyResolution`
with the server strategy returns the conflict's stored server snapshot as it
is, leaves the note documents and the version log untouched, and marks the
conflict resolved with strategy `server`. -/
theorem applyResolution_server_snapshot (env : Env) (s : Store) (id : String) (c : Conflict)
    (noteData : Option UpdateNoteRequest)
    (hc : s.conflictByID id = some c)
    (hget : env.conflictGetFails = false) (hmark : env.markResolvedFails = false) :
    (ApplyResolution env s id ResolutionServer noteData).1 = .ok c.ServerNote ∧
    (ApplyResolution env s id ResolutionServer noteData).2.notes = s.notes ∧
    (ApplyResolution env s id ResolutionServer noteData).2.versions = s.versions ∧
    (ApplyResolution env s id ResolutionServer noteData).2.conflictByID id
      = some { c with ResolvedAt := some env.storeNow, ResolutionChoice := ResolutionServer } := by
  have h1 : ¬ ResolutionServer = ResolutionLWW := by decide
  obtain ⟨s1, k1, k2, k3, k4⟩ := markResolved_ok env s id ResolutionServer c hc hmark
  simp only [ApplyResolution, hget, conflictRepoGet_ok s id c hc, h1, if_false, if_true, k1]
  exact ⟨trivial, k2, k3, k4⟩


/-- Witness for C18: the recorded conflict `c1` resolved with the server strategy. -/
theorem applyResolution_server_snapshot_witness :
    (ApplyResolution sampleEnv storeAfterConflict "c1" ResolutionServer none).1
      = .ok (some sampleNote) ∧
    (ApplyResolution sampleEnv storeAfterConflict "c1" ResolutionServer none).2.notes
      = storeAfterConflict.notes ∧
    ((ApplyResolution sampleEnv storeAfterConflict "c1" ResolutionServer none).2.conflictByID
      "c1").map (fun c => (c.ResolvedAt, c.ResolutionChoice)) = some (some 6, "server") := by
  obtain ⟨h1, h2, _, h4⟩ := applyResolution_server_snapshot sampleEnv storeAfterConflict "c1"
    (Conflict.mk "" "n1" "u1" "update" 1 2 2 (some sampleNote) (some staleRequest) "d2" 5 none "")
    none rfl rfl rfl
  exact ⟨h1, h2, by rw [h4]; rfl⟩
/-- A `MarkResolved` that succeeds on a stored conflict sets its resolution time
and choice. -/
theorem markResolved_of_ok (env : Env) (s s1 : Store) (id choice : String) (c : Conflict)
    (h : conflictRepoMarkResolved env s id choice = .ok s1)
    (hc : s.conflictByID id = some c) :
    s1.conflictByID id
      = some { c with ResolvedAt := some env.storeNow, ResolutionChoice := choice } := by
  cases hm : env.markResolvedFails with
  | true =>
    rw [markResolved_fails env s id choice hm] at h
    cases h
  | false =>
    obtain ⟨s2, k1, _, _, k4⟩ := markResolved_ok env s id choice c hc hm
    rw [k1] at h
    cases h
    exact k4

/-- A patch resolution that returns a note has written the note and then marked
the conflict once. -/
theorem persistResolution_of_ok (env : Env) (s : Store) (note : Note) (id choice : String)
    (c : Conflict) (result : Option Note) (hc : s.conflictByID id = some c)
    (h : (persistResolution env s note id choice).1 = .ok result) :
    (persistResolution env s note id choice).2.conflictByID id
      = some { c with ResolvedAt := some env.storeNow, ResolutionChoice := choice } ∧
    ∃ s1, s1.conflicts = s.conflicts ∧
      conflictRepoMarkResolved env s1 id choice = .ok (persistResolution env s note id choice).2 := by
  unfold persistResolution at h ⊢
  cases hu : noteRepoUpdate env s note with
  | error e => simp [hu] at h
  | ok s1 =>
    have hconf := (noteRepoUpdate_frame env s s1 note hu).1
    cases hm : conflictRepoMarkResolved env s1 id choice with
    | error e => simp [hu, hm] at h
    | ok s2 =>
      have hc1 : s1.conflictByID id = some c := by
        rw [conflictByID_congr s1 s id hconf]; exact hc
      simp only [hm]
      exact ⟨markResolved_of_ok env s1 s2 id choice c hm hc1, s1, hconf, hm⟩

/-- C19, counterexample: the last-writer-wins strategy on a conflict without
client data. The guard of `ResolveWithLWW` (lines 70-72) returns the server
snapshot at once: `ApplyResolution` returns successfully and the store is the
one of before, so the conflict has no resolution time and no choice. -/
theorem applyResolution_lww_bare_unmarked :
    bareStore.conflictByID "c9" = some bareConflict ∧ bareConflict.ClientData = none ∧
    ApplyResolution sampleEnv bareStore "c9" ResolutionLWW none
      = (.ok (some sampleNote), bareStore) ∧
    ((ApplyResolution sampleEnv bareStore "c9" ResolutionLWW none).2.conflictByID
      "c9").map (fun c => (c.ResolvedAt, c.ResolutionChoice)) = some (none, "") := by
  refine ⟨?_, ?_, ?_, ?_⟩ <;> rfl

/-- C19, amended. For a stored conflict and each of the strategies server, client
and manual, whenever `ApplyResolution` returns successfully the stored conflict
has its resolution time set and its resolution choice equal to the strategy,
and the store the call leaves is the result of one `MarkResolved` with that
strategy on a store holding the conflict documents of before the call (a
strategy other than last-writer-wins that returns successfully is one of the
three). With the last-writer-wins strategy on a conflict without client data
the call returns the conflict's server snapshot and leaves the store as it
was: the conflict is not marked. -/
theorem applyResolution_marks_resolved (env : Env) (s : Store) (id strategy : String)
    (noteData : Option UpdateNoteRequest) (c : Conflict) (result : Option Note)
    (hc : s.conflictByID id = some c)
    (hok : (ApplyResolution env s id strategy noteData).1 = .ok result) :
    (strategy ≠ ResolutionLWW →
      (strategy = ResolutionServer ∨ strategy = ResolutionClient ∨
        strategy = ResolutionManual) ∧
      (ApplyResolution env s id strategy noteData).2.conflictByID id
        = some { c with ResolvedAt := some env.storeNow, ResolutionChoice := strategy } ∧
      ∃ s1, s1.conflicts = s.conflicts ∧
        conflictRepoMarkResolved env s1 id strategy
          = .ok (ApplyResolution env s id strategy noteData).2) ∧
    (strategy = ResolutionLWW → c.ClientData = none →
      result = c.ServerNote ∧ (ApplyResolution env s id strategy noteData).2 = s) := by
  cases hget : env.conflictGetFails with
  | true => simp [ApplyResolution, hget, conflictRepoGet] at hok
  | false =>
    have hg := conflictRepoGet_ok s id c hc
    unfold ApplyResolution at hok ⊢
    simp only [hget, hg] at hok ⊢
    constructor
    · intro h1
      simp only [h1, if_false] at hok ⊢
      by_cases h2 : strategy = ResolutionServer
      · subst h2
        simp only [if_true] at hok ⊢
        cases hm : conflictRepoMarkResolved env s id ResolutionServer with
        | error e => simp [hm] at hok
        | ok s1 =>
          simp only
          exact ⟨by simp, markResolved_of_ok env s s1 id _ c hm hc, s, rfl, hm⟩
      · simp only [h2, if_false] at hok ⊢
        by_cases h3 : strategy = ResolutionClient
        · subst h3
          simp only [if_true] at hok ⊢
          cases hd : c.ClientData with
          | none => simp [hd] at hok
          | some data =>
            cases hn : c.ServerNote with
            | none => simp [hd, hn] at hok
            | some sn =>
              simp only [hd, hn] at hok ⊢
              have k := persistResolution_of_ok env s _ id _ c result hc hok
              simp only [hd, hn] at k
              exact ⟨by simp, k⟩
        · simp only [h3, if_false] at hok ⊢
          by_cases h4 : strategy = ResolutionManual
          · subst h4
            simp only [if_true] at hok ⊢
            cases hd : noteData with
            | none => simp [hd] at hok
            | some data =>
              cases hn : c.ServerNote with
              | none => simp [hd, hn] at hok
              | some sn =>
                simp only [hd, hn] at hok ⊢
                have k := persistResolution_of_ok env s _ id _ c result hc hok
                simp only [hn] at k
                exact ⟨by simp, k⟩
          · simp [h4] at hok
    · intro h1 hbare
      simp only [h1, if_true, ResolveWithLWW, hbare] at hok ⊢
      simp only [Except.ok.injEq] at hok
      exact ⟨hok.symm, trivial⟩

/-- Witness for C19 (amended): the recorded conflict `c1` resolved with the client
strategy is marked `client` at the repository time 6; the conflict `c9`
without client data resolved with last-writer-wins leaves the store. -/
theorem applyResolution_marks_resolved_witness :
    storeAfterConflict.conflictByID "c1"
      = some (Conflict.mk "" "n1" "u1" "update" 1 2 2 (some sampleNote) (some staleRequest)
          "d2" 5 none "") ∧
    ((ApplyResolution sampleEnv storeAfterConflict "c1" ResolutionClient none).2.conflictByID
      "c1").map (fun c => (c.ResolvedAt, c.ResolutionChoice)) = some (some 6, "client") ∧
    (∃ s1, s1.conflicts = storeAfterConflict.conflicts ∧
      conflictRepoMarkResolved sampleEnv s1 "c1" ResolutionClient
        = .ok (ApplyResolution sampleEnv storeAfterConflict "c1" ResolutionClient none).2) ∧
    (ApplyResolution sampleEnv bareStore "c9" ResolutionLWW none).2 = bareStore := by
  obtain ⟨_, h2, h3⟩ := (applyResolution_marks_resolved sampleEnv storeAfterConflict "c1"
    ResolutionClient none
    (Conflict.mk "" "n1" "u1" "update" 1 2 2 (some sampleNote) (some staleRequest) "d2" 5 none "")
    (some (resolvePatch 5 sampleNote staleRequest "d2")) rfl rfl).1 (by decide)
  exact ⟨rfl, by rw [h2]; rfl, h3,
    ((applyResolution_marks_resolved sampleEnv bareStore "c9" ResolutionLWW none bareConflict
      (some sampleNote) rfl rfl).2 rfl rfl).2⟩

/-- C20 fails when marking fails after the note was persisted: with the client
strategy and a failing `MarkResolved`, `ApplyResolution` returns an error and
the stored note has gone from version 2 with title `t` to version 3 with title
`t2`. -/
theorem applyResolution_mark_failure_note_written :
    markFailsEnv.markResolvedFails = true ∧
    (storeAfterConflict.noteByID "n1").map (fun n => (n.Version, n.EncryptedTitle))
      = some (2, "t") ∧
    (ApplyResolution markFailsEnv storeAfterConflict "c1" ResolutionClient none).1
      = .error (.msg "conflict not found") ∧
    ((ApplyResolution markFailsEnv storeAfterConflict "c1" ResolutionClient none).2.noteByID
      "n1").map (fun n => (n.Version, n.EncryptedTitle)) = some (3, "t2") := by
  refine ⟨?_, ?_, ?_, ?_⟩ <;> rfl

/-- C20, amended. Whenever `ApplyResolution` returns an error, the conflict
documents (so the resolution fields) and the version log are those of before.
When loading the conflict fails, it returns an error and the whole store is
unchanged. When persisting the note fails, the note documents are unchanged,
and the client and manual strategies return an error. When marking fails, the
server, client and manual strategies return an error (a note written before by
the client or manual strategy stays written). -/
theorem applyResolution_failure_frame (env : Env) (s : Store) (id strategy : String)
    (noteData : Option UpdateNoteRequest) :
    (∀ e, (ApplyResolution env s id strategy noteData).1 = .error e →
      (ApplyResolution env s id strategy noteData).2.conflicts = s.conflicts ∧
      (ApplyResolution env s id strategy noteData).2.versions = s.versions) ∧
    (env.conflictGetFails = true →
      (∃ e, (ApplyResolution env s id strategy noteData).1 = .error e) ∧
      (ApplyResolution env s id strategy noteData).2 = s) ∧
    (env.noteUpdateFails = true →
      (ApplyResolution env s id strategy noteData).2.notes = s.notes ∧
      (strategy = ResolutionClient ∨ strategy = ResolutionManual →
        ∃ e, (ApplyResolution env s id strategy noteData).1 = .error e)) ∧
    (env.markResolvedFails = true → strategy ≠ ResolutionLWW →
      ∃ e, (ApplyResolution env s id strategy noteData).1 = .error e) := by
  refine ⟨fun e h => applyResolution_error_frame env s id strategy noteData e h, ?_,
    fun hf => applyResolution_update_fails env s id strategy noteData hf,
    fun hf hs => applyResolution_mark_fails env s id strategy noteData hf hs⟩
  intro hf
  simp [ApplyResolution, hf, conflictRepoGet]


/-- Witness for C20 (amended): a failing `MarkResolved` under the client strategy. -/
theorem applyResolution_failure_frame_witness :
    (∃ e, (ApplyResolution markFailsEnv storeAfterConflict "c1" ResolutionClient none).1
      = .error e) ∧
    (ApplyResolution markFailsEnv storeAfterConflict "c1" ResolutionClient none).2.conflicts
      = storeAfterConflict.conflicts := by
  obtain ⟨h1, _, _, h4⟩ :=
    applyResolution_failure_frame markFailsEnv storeAfterConflict "c1" ResolutionClient none
  obtain ⟨e, he⟩ := h4 rfl (by decide)
  exact ⟨⟨e, he⟩, (h1 e he).1⟩

/-! ## Conflict resolution: invalid requests -/

/-- C21: `ApplyResolution` on an invalid request (manual strategy without note
data, or a strategy other than lww, server, client and manual) returns an error
and leaves the whole store as it was, so no note is written and no conflict is
marked resolved. When the conflict document is found the error is "manual
resolution requires note data", respectively "unknown resolution strategy: "
followed by the strategy; when it is not found the error is that of
`conflictRepo.Get`. -/
theorem applyResolution_invalid_request (env : Env) (s : Store) (id strategy : String)
    (noteData : Option UpdateNoteRequest)
    (hinvalid : (strategy = ResolutionManual ∧ noteData = none) ∨
      (strategy ≠ ResolutionLWW ∧ strategy ≠ ResolutionServer ∧
        strategy ≠ ResolutionClient ∧ strategy ≠ ResolutionManual)) :
    (∃ e, (ApplyResolution env s id strategy noteData).1 = .error e) ∧
    (ApplyResolution env s id strategy noteData).2 = s ∧
    (∀ c, conflictRepoGet env.conflictGetFails s id = .ok c →
      (strategy = ResolutionManual →
        (ApplyResolution env s id strategy noteData).1
          = .error (.msg "manual resolution requires note data")) ∧
      (strategy ≠ ResolutionManual →
        (ApplyResolution env s id strategy noteData).1
          = .error (.msg ("unknown resolution strategy: " ++ strategy)))) ∧
    (∀ e, conflictRepoGet env.conflictGetFails s id = .error e →
      (ApplyResolution env s id strategy noteData).1 = .error e) := by
  unfold ApplyResolution
  cases hg : conflictRepoGet env.conflictGetFails s id with
  | error e1 =>
    refine ⟨⟨e1, rfl⟩, rfl, ?_, ?_⟩
    · intro c hc; cases hc
    · intro e he; cases he; rfl
  | ok c =>
    rcases hinvalid with ⟨hm, hd⟩ | ⟨h1, h2, h3, h4⟩
    · have n1 : ResolutionManual ≠ ResolutionLWW := by decide
      have n2 : ResolutionManual ≠ ResolutionServer := by decide
      have n3 : ResolutionManual ≠ ResolutionClient := by decide
      subst hm; subst hd
      simp [n1, n2, n3]
    · simp [h1, h2, h3, h4]

/-- Witness for C21: the manual strategy without note data on the recorded conflict
`c1`. -/
theorem applyResolution_invalid_request_witness :
    (∃ e, (ApplyResolution sampleEnv storeAfterConflict "c1" "manual" none).1 = .error e) ∧
    (ApplyResolution sampleEnv storeAfterConflict "c1" "manual" none).2 = storeAfterConflict ∧
    (ApplyResolution sampleEnv storeAfterConflict "c1" "manual" none).1
      = .error (.msg "manual resolution requires note data") ∧
    storeAfterConflict.conflictByID "c1" ≠ none := by
  have h := applyResolution_invalid_request sampleEnv storeAfterConflict "c1" "manual" none
    (Or.inl ⟨rfl, rfl⟩)
  refine ⟨h.1, h.2.1, ?_, by decide⟩
  rfl

/-! ## Connection registry: Go maps and sets -/

theorem mapLookup_mapErase {α : Type} (k : String) (m : List (String × α)) (k2 : String) :
    mapLookup (mapErase k m) k2 = if k2 = k then none else mapLookup m k2 := by
  induction m with
  | nil => simp [mapErase, mapLookup]
  | cons x xs ih =>
    have step : mapErase k (x :: xs) = if x.1 = k then mapErase k xs else x :: mapErase k xs := by
      unfold mapErase
      by_cases hx : x.1 = k <;> simp [List.filter_cons, hx]
    rw [step]
    by_cases hx : x.1 = k
    · simp only [hx, if_true, ih]
      by_cases h : k2 = k
      · simp [h]
      · have h2 : ¬ k = k2 := fun e => h e.symm
        simp [h, mapLookup, hx, h2]
    · simp only [hx, if_false]
      by_cases hx2 : x.1 = k2
      · have h : ¬ k2 = k := fun e => hx (hx2.trans e)
        simp [mapLookup, hx2, h]
      · have st : ∀ l : List (String × α), mapLookup (x :: l) k2 = mapLookup l k2 := by
          intro l
          simp [mapLookup, hx2]
        rw [st, st, ih]

theorem mem_setAdd (id x : String) (ids : List String) :
    x ∈ setAdd id ids ↔ x = id ∨ x ∈ ids := by
  unfold setAdd
  by_cases h : id ∈ ids
  · simp only [h, if_true]
    constructor
    · exact Or.inr
    · rintro (rfl | hx)
      · exact h
      · exact hx
  · simp only [h, if_false, List.mem_append, List.mem_singleton]
    tauto

theorem mem_setRemove (id x : String) (ids : List String) :
    x ∈ setRemove id ids ↔ x ∈ ids ∧ x ≠ id := by
  simp [setRemove]

theorem nodup_setAdd (id : String) (ids : List String) (h : ids.Nodup) :
    (setAdd id ids).Nodup := by
  unfold setAdd
  by_cases hm : id ∈ ids
  · simpa [hm] using h
  · simp only [hm, if_false]
    rw [List.nodup_append]
    refine ⟨h, List.nodup_singleton id, ?_⟩
    intro a ha hb
    simp only [List.mem_singleton] at hb
    exact hm (hb ▸ ha)

theorem nodup_setRemove (id : String) (ids : List String) (h : ids.Nodup) :
    (setRemove id ids).Nodup := by
  unfold setRemove
  exact h.filter _

theorem length_setAdd (id : String) (ids : List String) :
    (setAdd id ids).length ≤ ids.length + 1 := by
  unfold setAdd
  by_cases hm : id ∈ ids <;> simp [hm]

theorem length_setRemove (id : String) (ids : List String) :
    (setRemove id ids).length ≤ ids.length := by
  unfold setRemove
  exact List.length_filter_le _ _

/-! ## Connection registry: admission and fan-out -/

theorem chanTrySend_frame (chans chans1 : List (String × Chan)) (ref v : String)
    (h : chanTrySend chans ref v = .ok (some chans1)) (ref2 : String) (hne : ref2 ≠ ref) :
    mapLookup chans1 ref2 = mapLookup chans ref2 := by
  unfold chanTrySend at h
  cases hl : mapLookup chans ref with
  | none => simp [hl] at h
  | some ch =>
    simp only [hl] at h
    by_cases hc : ch.closed = true
    · simp [hc] at h
    · by_cases hr : ch.buf.length < ch.cap
      · simp only [hc, hr, if_true, Bool.false_eq_true, if_false, Except.ok.injEq,
          Option.some.injEq] at h
        rw [← h, mapLookup_mapInsert]
        simp [hne]
      · simp [hc, hr] at h

/-- The part of the fan-out state that concerns connections of the excluded device. -/
theorem broadcastStep_excluded (clients : List (String × Client)) (msg exclude : String)
    (chans0 : List (String × Chan)) (run0 : RunLoop) (st : Fanout) (id : String)
    (h1 : ∀ ref, (∀ k c, mapLookup clients k = some c → c.Send = ref → c.DeviceID = exclude) →
      mapLookup st.chans ref = mapLookup chans0 ref)
    (h2 : st.run = run0 ∨ ∃ c, st.run = .unregistering c ∧ c.DeviceID ≠ exclude)
    (h3 : ∀ c, st.stop = some (.blocked c) → c.DeviceID ≠ exclude) :
    (∀ ref, (∀ k c, mapLookup clients k = some c → c.Send = ref → c.DeviceID = exclude) →
      mapLookup (broadcastStep clients msg exclude st id).chans ref = mapLookup chans0 ref) ∧
    ((broadcastStep clients msg exclude st id).run = run0 ∨
      ∃ c, (broadcastStep clients msg exclude st id).run = .unregistering c ∧
        c.DeviceID ≠ exclude) ∧
    (∀ c, (broadcastStep clients msg exclude st id).stop = some (.blocked c) →
      c.DeviceID ≠ exclude) := by
  unfold broadcastStep
  cases hs : st.stop with
  | some e => simp only []; exact ⟨h1, h2, h3⟩
  | none =>
    simp only []
    cases hc : mapLookup clients id with
    | none =>
      simp only []
      refine ⟨h1, h2, ?_⟩
      intro c hcc
      simp at hcc
    | some client =>
      simp only []
      by_cases hd : client.DeviceID ≠ exclude
      · simp only [hd, if_true, ne_eq, not_false_eq_true]
        cases ht : chanTrySend st.chans client.Send msg with
        | error e =>
          simp only []
          refine ⟨h1, h2, ?_⟩
          intro c hcc
          simp at hcc
        | ok r =>
          cases r with
          | some chans1 =>
            simp only []
            refine ⟨?_, h2, ?_⟩
            · intro ref href
              have hne : ref ≠ client.Send := by
                intro heq
                exact hd (href id client hc heq.symm)
              rw [chanTrySend_frame _ _ _ _ ht ref hne]
              exact h1 ref href
            · intro c hcc
              cases hcc
          | none =>
            simp only []
            cases hr : st.run with
            | selecting =>
              simp only []
              refine ⟨h1, Or.inr ⟨client, rfl, hd⟩, ?_⟩
              intro c hcc
              cases hcc
            | unregistering c0 =>
              simp only []
              refine ⟨h1, ?_, ?_⟩
              · rw [hr] at h2; exact h2
              · intro c hcc
                simp only [Option.some.injEq, Ending.blocked.injEq] at hcc
                rw [← hcc]; exact hd
      · simp only [hd, if_false]
        exact ⟨h1, h2, h3⟩

theorem broadcastFold_excluded (clients : List (String × Client)) (msg exclude : String)
    (chans0 : List (String × Chan)) (run0 : RunLoop) (ids : List String) (st : Fanout)
    (h1 : ∀ ref, (∀ k c, mapLookup clients k = some c → c.Send = ref → c.DeviceID = exclude) →
      mapLookup st.chans ref = mapLookup chans0 ref)
    (h2 : st.run = run0 ∨ ∃ c, st.run = .unregistering c ∧ c.DeviceID ≠ exclude)
    (h3 : ∀ c, st.stop = some (.blocked c) → c.DeviceID ≠ exclude) :
    (∀ ref, (∀ k c, mapLookup clients k = some c → c.Send = ref → c.DeviceID = exclude) →
      mapLookup (ids.foldl (broadcastStep clients msg exclude) st).chans ref
        = mapLookup chans0 ref) ∧
    ((ids.foldl (broadcastStep clients msg exclude) st).run = run0 ∨
      ∃ c, (ids.foldl (broadcastStep clients msg exclude) st).run = .unregistering c ∧
        c.DeviceID ≠ exclude) ∧
    (∀ c, (ids.foldl (broadcastStep clients msg exclude) st).stop = some (.blocked c) →
      c.DeviceID ≠ exclude) := by
  induction ids generalizing st with
  | nil => exact ⟨h1, h2, h3⟩
  | cons id rest ih =>
    obtain ⟨k1, k2, k3⟩ := broadcastStep_excluded clients msg exclude chans0 run0 st id h1 h2 h3
    exact ih _ k1 k2 k3

theorem broadcastStep_congr (clients : List (String × Client)) (msg exclude x : String)
    (st1 st : Fanout) (id : String)
    (hfresh : ∀ c, mapLookup clients id = some c → c.Send ≠ x)
    (h1 : st1.stop = st.stop) (h2 : st1.run = st.run)
    (h3 : ∀ ref, ref ≠ x → mapLookup st1.chans ref = mapLookup st.chans ref) :
    (broadcastStep clients msg exclude st1 id).stop = (broadcastStep clients msg exclude st id).stop ∧
    (broadcastStep clients msg exclude st1 id).run = (broadcastStep clients msg exclude st id).run ∧
    (∀ ref, ref ≠ x → mapLookup (broadcastStep clients msg exclude st1 id).chans ref
      = mapLookup (broadcastStep clients msg exclude st id).chans ref) := by
  unfold broadcastStep
  rw [h1]
  cases hs : st.stop with
  | some e => exact ⟨by rw [h1, hs], h2, h3⟩
  | none =>
    cases hc : mapLookup clients id with
    | none => exact ⟨rfl, h2, h3⟩
    | some client =>
      have hne : client.Send ≠ x := hfresh client hc
      by_cases hd : client.DeviceID ≠ exclude
      · simp only [hd, if_true, ne_eq, not_false_eq_true]
        unfold chanTrySend
        rw [h3 client.Send hne]
        cases hl : mapLookup st.chans client.Send with
        | none =>
          simp only [h2]
          cases hr : st.run with
          | selecting => exact ⟨rfl, rfl, h3⟩
          | unregistering c0 => exact ⟨rfl, rfl, h3⟩
        | some ch =>
          by_cases hcl : ch.closed = true
          · simp only [hcl, if_true]
            exact ⟨trivial, h2, h3⟩
          · by_cases hroom : ch.buf.length < ch.cap
            · simp only [hcl, hroom, if_true, Bool.false_eq_true, if_false]
              refine ⟨trivial, h2, ?_⟩
              intro ref href
              rw [mapLookup_mapInsert, mapLookup_mapInsert, h3 ref href]
            · simp only [hcl, hroom, Bool.false_eq_true, if_false, h2]
              cases hr : st.run with
              | selecting => exact ⟨rfl, rfl, h3⟩
              | unregistering c0 => exact ⟨rfl, rfl, h3⟩
      · simp only [hd, if_false]
        exact ⟨by rw [h1, hs], h2, h3⟩

theorem broadcastFold_congr (clients : List (String × Client)) (msg exclude x : String)
    (hfresh : ∀ id c, mapLookup clients id = some c → c.Send ≠ x)
    (ids : List String) (st1 st : Fanout)
    (h1 : st1.stop = st.stop) (h2 : st1.run = st.run)
    (h3 : ∀ ref, ref ≠ x → mapLookup st1.chans ref = mapLookup st.chans ref) :
    (ids.foldl (broadcastStep clients msg exclude) st1).stop
      = (ids.foldl (broadcastStep clients msg exclude) st).stop ∧
    (ids.foldl (broadcastStep clients msg exclude) st1).run
      = (ids.foldl (broadcastStep clients msg exclude) st).run ∧
    (∀ ref, ref ≠ x → mapLookup (ids.foldl (broadcastStep clients msg exclude) st1).chans ref
      = mapLookup (ids.foldl (broadcastStep clients msg exclude) st).chans ref) := by
  induction ids generalizing st1 st with
  | nil => exact ⟨h1, h2, h3⟩
  | cons id rest ih =>
    obtain ⟨k1, k2, k3⟩ := broadcastStep_congr clients msg exclude x st1 st id (hfresh id) h1 h2 h3
    exact ih _ _ k1 k2 k3

theorem broadcast_congr (env : WsEnv) (hperm : ∀ ids, (env.rangeClients ids).Perm ids)
    (m1 m : Manager) (x : String)
    (hcl : m1.clients = m.clients) (hrun : m1.run = m.run)
    (hidx : ∀ u, m1.idsOf u = m.idsOf u)
    (hch : ∀ ref, ref ≠ x → mapLookup m1.chans ref = mapLookup m.chans ref)
    (hfresh : ∀ id c, mapLookup m.clients id = some c → c.Send ≠ x)
    (userID : String) (message : Message) (exclude : String) :
    (BroadcastToUser env m1 userID message exclude).1
      = (BroadcastToUser env m userID message exclude).1 ∧
    (BroadcastToUser env m1 userID message exclude).2.run
      = (BroadcastToUser env m userID message exclude).2.run ∧
    (∀ ref, ref ≠ x →
      mapLookup (BroadcastToUser env m1 userID message exclude).2.chans ref
        = mapLookup (BroadcastToUser env m userID message exclude).2.chans ref) := by
  have hnil : env.rangeClients [] = [] := (hperm []).eq_nil
  have hu := hidx userID
  unfold Manager.idsOf at hu
  unfold BroadcastToUser
  cases hj : env.jsonMarshal message with
  | error e => exact ⟨rfl, hrun, hch⟩
  | ok bytes =>
    rw [hcl]
    cases hl1 : mapLookup m1.userIndex userID with
    | none =>
      cases hl : mapLookup m.userIndex userID with
      | none => exact ⟨rfl, hrun, hch⟩
      | some ids =>
        rw [hl1, hl] at hu
        simp only [Option.getD_none, Option.getD_some] at hu
        subst hu
        simp only [hnil, List.foldl_nil]
        exact ⟨rfl, hrun, hch⟩
    | some ids1 =>
      cases hl : mapLookup m.userIndex userID with
      | none =>
        rw [hl1, hl] at hu
        simp only [Option.getD_none, Option.getD_some] at hu
        subst hu
        simp only [hnil, List.foldl_nil]
        exact ⟨rfl, hrun, hch⟩
      | some ids =>
        rw [hl1, hl] at hu
        simp only [Option.getD_some] at hu
        subst hu
        obtain ⟨k1, k2, k3⟩ := broadcastFold_congr m.clients bytes exclude x hfresh
          (env.rangeClients ids1) (Fanout.mk m1.chans m1.run none) (Fanout.mk m.chans m.run none)
          rfl hrun hch
        exact ⟨by simp only [k1], k2, k3⟩

/-- C22: when the user of a new connection already has `maxConnPerUser` or more
indexed connections, `registerClient` refuses it: `clients` is unchanged, every
user keeps exactly the connection ids it had (the index itself is unchanged as
soon as the user has an entry), the cap and the `Run` goroutine are unchanged,
the queue of the new connection is closed, no other queue is touched, and every
later `BroadcastToUser` ends the same way and leaves the same queues for the
existing connections as it would have without the refused registration. -/
theorem register_at_cap_refused (m : Manager) (client : Client) (ch : Chan)
    (hcap : (GetUserConnections m client.UserID : Int) ≥ m.maxConnPerUser)
    (hch : mapLookup m.chans client.Send = some ch) (hopen : ch.closed = false)
    (hfresh : ∀ id c, mapLookup m.clients id = some c → c.Send ≠ client.Send) :
    ∃ m1, registerClient m client = .ok m1 ∧
      m1.clients = m.clients ∧
      (∀ u, m1.idsOf u = m.idsOf u) ∧
      (mapLookup m.userIndex client.UserID ≠ none → m1.userIndex = m.userIndex) ∧
      m1.maxConnPerUser = m.maxConnPerUser ∧ m1.run = m.run ∧
      mapLookup m1.chans client.Send = some (Chan.mk ch.buf ch.cap true) ∧
      (∀ ref, ref ≠ client.Send → mapLookup m1.chans ref = mapLookup m.chans ref) ∧
      (∀ (env : WsEnv) (userID : String) (message : Message) (exclude : String),
        (∀ ids, (env.rangeClients ids).Perm ids) →
        (BroadcastToUser env m1 userID message exclude).1
          = (BroadcastToUser env m userID message exclude).1 ∧
        (BroadcastToUser env m1 userID message exclude).2.run
          = (BroadcastToUser env m userID message exclude).2.run ∧
        (∀ ref, ref ≠ client.Send →
          mapLookup (BroadcastToUser env m1 userID message exclude).2.chans ref
            = mapLookup (BroadcastToUser env m userID message exclude).2.chans ref)) := by
  have hclose : chanClose m.chans client.Send
      = .ok (mapInsert client.Send (Chan.mk ch.buf ch.cap true) m.chans) := by
    simp [chanClose, hch, hopen]
  have hframe : ∀ ref, ref ≠ client.Send →
      mapLookup (mapInsert client.Send (Chan.mk ch.buf ch.cap true) m.chans) ref
        = mapLookup m.chans ref := by
    intro ref href
    rw [mapLookup_mapInsert]
    simp [href]
  have hself : mapLookup (mapInsert client.Send (Chan.mk ch.buf ch.cap true) m.chans) client.Send
      = some (Chan.mk ch.buf ch.cap true) := by
    rw [mapLookup_mapInsert]
    simp
  cases hl : mapLookup m.userIndex client.UserID with
  | some ids =>
    have hlen : (ids.length : Int) ≥ m.maxConnPerUser := by
      simpa [GetUserConnections, hl] using hcap
    have hreg : registerClient m client
        = .ok (Manager.mk m.clients m.userIndex m.maxConnPerUser
            (mapInsert client.Send (Chan.mk ch.buf ch.cap true) m.chans) m.run) := by
      simp [registerClient, hl, hlen, hclose]
    refine ⟨_, hreg, rfl, fun _ => rfl, fun _ => rfl, rfl, rfl, hself, hframe, ?_⟩
    intro env userID message exclude hperm
    exact broadcast_congr env hperm (Manager.mk m.clients m.userIndex m.maxConnPerUser
      (mapInsert client.Send (Chan.mk ch.buf ch.cap true) m.chans) m.run) m client.Send rfl rfl
      (fun _ => rfl) hframe hfresh userID message exclude
  | none =>
    have hlen : (0 : Int) ≥ m.maxConnPerUser := by
      simpa [GetUserConnections, hl] using hcap
    have hreg : registerClient m client
        = .ok (Manager.mk m.clients (mapInsert client.UserID [] m.userIndex) m.maxConnPerUser
            (mapInsert client.Send (Chan.mk ch.buf ch.cap true) m.chans) m.run) := by
      simp [registerClient, hl, mapLookup_mapInsert, hlen, hclose]
    have hids : ∀ u, (Manager.mk m.clients (mapInsert client.UserID [] m.userIndex)
        m.maxConnPerUser (mapInsert client.Send (Chan.mk ch.buf ch.cap true) m.chans)
        m.run).idsOf u = m.idsOf u := by
      intro u
      unfold Manager.idsOf
      simp only [mapLookup_mapInsert]
      by_cases hu : u = client.UserID
      · simp [hu, hl]
      · simp [hu]
    refine ⟨_, hreg, rfl, hids, fun h => absurd rfl h, rfl, rfl, hself, hframe, ?_⟩
    intro env userID message exclude hperm
    exact broadcast_congr env hperm (Manager.mk m.clients
      (mapInsert client.UserID [] m.userIndex) m.maxConnPerUser
      (mapInsert client.Send (Chan.mk ch.buf ch.cap true) m.chans) m.run) m client.Send rfl rfl
      hids hframe hfresh userID message exclude

/-- Witness for C22 (cap 2, the third registration of user `u1`): the connection
`c` is refused and its queue closed, `a` and `b` stay registered, and a later
broadcast reaches both. -/
theorem register_at_cap_refused_witness :
    runEvents (NewManager 2 threeChans)
      [.register clientA, .register clientB] = .ok twoClients ∧
    ∃ m1, registerClient twoClients clientC = .ok m1 ∧
      m1.clients = twoClients.clients ∧ m1.userIndex = twoClients.userIndex ∧
      mapLookup m1.chans "chC" = some (Chan.mk [] 2 true) ∧
      (BroadcastToUser wsEnv m1 "u1" noteUpdateMessage "d9").1 = .returned none ∧
      mapLookup (BroadcastToUser wsEnv m1 "u1" noteUpdateMessage "d9").2.chans "chA"
        = some (Chan.mk ["note_update:n1"] 2 false) ∧
      mapLookup (BroadcastToUser wsEnv m1 "u1" noteUpdateMessage "d9").2.chans "chB"
        = some (Chan.mk ["note_update:n1"] 2 false) := by
  refine ⟨rfl, ?_⟩
  obtain ⟨m1, h1, h2, _, h4, _, _, h7, _, h9⟩ :=
    register_at_cap_refused twoClients clientC openChan (by decide) (by decide) rfl (by
      intro id c hc
      have hm := mapLookup_mem _ _ _ hc
      simp only [twoClients, List.mem_cons, Prod.mk.injEq, List.mem_singleton] at hm
      rcases hm with ⟨_, rfl⟩ | ⟨_, rfl⟩ | hm
      · decide
      · decide
      · cases hm)
  obtain ⟨k1, _, k3⟩ := h9 wsEnv "u1" noteUpdateMessage "d9" (fun ids => List.Perm.refl ids)
  refine ⟨m1, h1, h2, h4 (by decide), h7, ?_, ?_, ?_⟩
  · rw [k1]; decide
  · rw [k3 "chA" (by decide)]; decide
  · rw [k3 "chB" (by decide)]; decide

/-- C23: `BroadcastToUser` with the excluded device `D` leaves untouched every
outbound queue that belongs only to connections of device `D`: nothing is
enqueued onto it. It also asks for the eviction of no such connection: the
connection handed to the `Run` goroutine during the call, and the connection on
whose eviction request the call may wait, have a device id other than `D`. -/
theorem broadcast_skips_excluded_device (env : WsEnv) (m : Manager) (userID : String)
    (message : Message) (exclude : String) :
    (∀ ref, (∀ k c, mapLookup m.clients k = some c → c.Send = ref → c.DeviceID = exclude) →
      mapLookup (BroadcastToUser env m userID message exclude).2.chans ref
        = mapLookup m.chans ref) ∧
    ((BroadcastToUser env m userID message exclude).2.run = m.run ∨
      ∃ c, (BroadcastToUser env m userID message exclude).2.run = .unregistering c ∧
        c.DeviceID ≠ exclude) ∧
    (∀ c, (BroadcastToUser env m userID message exclude).1 = .blocked c →
      c.DeviceID ≠ exclude) ∧
    (BroadcastToUser env m userID message exclude).2.clients = m.clients ∧
    (BroadcastToUser env m userID message exclude).2.userIndex = m.userIndex := by
  unfold BroadcastToUser
  cases hj : env.jsonMarshal message with
  | error e =>
    refine ⟨fun _ _ => rfl, Or.inl rfl, ?_, rfl, rfl⟩
    intro c hc
    simp at hc
  | ok bytes =>
    cases hu : mapLookup m.userIndex userID with
    | none =>
      refine ⟨fun _ _ => rfl, Or.inl rfl, ?_, rfl, rfl⟩
      intro c hc
      simp at hc
    | some ids =>
      obtain ⟨k1, k2, k3⟩ := broadcastFold_excluded m.clients bytes exclude m.chans m.run
        (env.rangeClients ids) (Fanout.mk m.chans m.run none) (fun _ _ => rfl) (Or.inl rfl)
        (fun c hc => by cases hc)
      refine ⟨k1, k2, ?_, rfl, rfl⟩
      intro c hc
      apply k3 c
      cases hst : ((env.rangeClients ids).foldl (broadcastStep m.clients bytes exclude)
        (Fanout.mk m.chans m.run none)).stop with
      | none => simp [hst] at hc
      | some e =>
        simp [hst] at hc
        rw [hc]

/-- Witness for C23: device `d1` edits; its connection `a` receives nothing, the
connection `b` of device `d2` receives the message. -/
theorem broadcast_skips_excluded_device_witness :
    mapLookup (BroadcastToUser wsEnv twoClients "u1" noteUpdateMessage "d1").2.chans "chA"
      = some openChan ∧
    mapLookup (BroadcastToUser wsEnv twoClients "u1" noteUpdateMessage "d1").2.chans "chB"
      = some (Chan.mk ["note_update:n1"] 2 false) := by
  refine ⟨?_, by decide⟩
  have h := (broadcast_skips_excluded_device wsEnv twoClients "u1" noteUpdateMessage "d1").1
    "chA" (by
      intro k c hk hs
      have hm := mapLookup_mem _ _ _ hk
      simp only [twoClients, List.mem_cons, Prod.mk.injEq, List.mem_singleton] at hm
      rcases hm with ⟨_, rfl⟩ | ⟨_, rfl⟩ | hm
      · rfl
      · simp [clientB] at hs
      · cases hm)
  rw [h]
  decide

/-- Whatever the order in which the three connection ids of `u1` are visited, the
fan-out over `stalledManager` ends waiting on the eviction of `a` or of `b`. -/
theorem broadcast_blocks_in_any_order (order : List String → List String)
    (hperm : (order ["a", "b", "c"]).Perm ["a", "b", "c"]) :
    (BroadcastToUser (WsEnv.mk wsEnv.jsonMarshal order) stalledManager "u1"
        noteUpdateMessage "d9").1 = .blocked clientA ∨
    (BroadcastToUser (WsEnv.mk wsEnv.jsonMarshal order) stalledManager "u1"
        noteUpdateMessage "d9").1 = .blocked clientB := by
  have hrun : ∀ l : List String,
      order ["a", "b", "c"] = l →
      (BroadcastToUser (WsEnv.mk wsEnv.jsonMarshal order) stalledManager "u1"
        noteUpdateMessage "d9").1
      = (l.foldl (broadcastStep stalledManager.clients "note_update:n1" "d9")
          (Fanout.mk stalledManager.chans stalledManager.run none)).stop.getD
            (.returned none) := by
    intro l hl
    rw [← hl]
    rfl
  generalize hl : order ["a", "b", "c"] = l at hperm
  rw [hrun l hl]
  have hlen : l.length = 3 := hperm.length_eq
  have hnd : l.Nodup := hperm.nodup_iff.mpr (by decide)
  match l, hlen with
  | [x, y, z], _ =>
    have hx : x ∈ ["a", "b", "c"] := hperm.subset (by simp)
    have hy : y ∈ ["a", "b", "c"] := hperm.subset (by simp)
    have hz : z ∈ ["a", "b", "c"] := hperm.subset (by simp)
    simp only [List.mem_cons, List.mem_singleton, List.not_mem_nil, or_false] at hx hy hz
    rcases hx with rfl | rfl | rfl <;> rcases hy with rfl | rfl | rfl <;>
      rcases hz with rfl | rfl | rfl <;>
      first
        | (exfalso; revert hnd; decide)
        | decide

/-- C24: with two stalled connections the fan-out never returns. Connections `a`
and `b` of user `u1` have full queues and `c` has room; the broadcast excludes
another device. `a` is handed to the `Run` goroutine, the send of `b` on
`m.Unregister` then waits forever, and `c` receives nothing. -/
theorem broadcast_blocks_on_second_full_queue :
    (BroadcastToUser wsEnv stalledManager "u1" noteUpdateMessage "d9").1 = .blocked clientB ∧
    (BroadcastToUser wsEnv stalledManager "u1" noteUpdateMessage "d9").2.run
      = .unregistering clientA ∧
    mapLookup stalledManager.chans "chC" = some openChan ∧
    mapLookup stalledManager.clients "c" = some clientC ∧ clientC.DeviceID ≠ "d9" ∧
    mapLookup (BroadcastToUser wsEnv stalledManager "u1" noteUpdateMessage "d9").2.chans "chC"
      = some openChan := by
  decide

/-- C25: `SendToClient` does not evict a connection whose queue is full. A direct
send to the registered connection `a`, whose queue is full, returns without
an error and leaves the manager exactly as it was: nothing reaches the `Run`
goroutine, to which `BroadcastToUser` hands the same connection. -/
theorem sendToClient_full_queue_no_eviction :
    mapLookup stalledManager.clients "a" = some clientA ∧
    mapLookup stalledManager.chans clientA.Send = some fullChan ∧
    fullChan.buf.length = fullChan.cap ∧
    SendToClient wsEnv stalledManager "a" noteUpdateMessage
      = (.returned none, stalledManager) ∧
    stalledManager.run = .selecting ∧
    (BroadcastToUser wsEnv stalledManager "u1" noteUpdateMessage "d9").2.run
      = .unregistering clientA := by
  decide

/-- The `default` branch of `SendToClient` (lines 160-164) on every registered
connection whose queue is open and full: the manager is left exactly as it
was and the call returns (with the error of `json.Marshal`, if any). -/
theorem sendToClient_full_queue_drops (env : WsEnv) (m : Manager) (clientID : String)
    (message : Message) (client : Client) (ch : Chan)
    (hc : mapLookup m.clients clientID = some client)
    (hch : mapLookup m.chans client.Send = some ch)
    (hopen : ch.closed = false) (hfull : ch.cap ≤ ch.buf.length) :
    (SendToClient env m clientID message).2 = m ∧
    (SendToClient env m clientID message).1
      = .returned (match env.jsonMarshal message with
          | .ok _ => none
          | .error e => some e) := by
  unfold SendToClient
  cases hj : env.jsonMarshal message with
  | error e => simp [hc]
  | ok bytes =>
    have hn : ¬ ch.buf.length < ch.cap := by omega
    simp [hc, chanTrySend, hch, hopen, hn]

/-! ## Tombstoning: theorems -/

theorem length_replaceFirst {α : Type} (p : α → Bool) (f : α → α) (l : List α) :
    (replaceFirst p f l).length = l.length := by
  induction l with
  | nil => rfl
  | cons x xs ih =>
    by_cases hx : p x = true
    · simp [replaceFirst, hx]
    · simp [replaceFirst, hx, ih]

theorem float64OfInt_exact (v : Int) (hlo : -9007199254740992 < v) (hhi : v < 9007199254740992) :
    float64OfInt v = v := by
  unfold float64OfInt
  have h : v.natAbs < 9007199254740992 := by omega
  simp [h]

theorem deletedDoc_version (env : Env) (n : Note) (hlo : -9007199254740992 < n.Version)
    (hhi : n.Version < 9007199254740992) : (deletedDoc env n).Version = n.Version + 1 := by
  have h1 : float64OfInt n.Version = n.Version := float64OfInt_exact _ hlo hhi
  have h2 : int64OfFloat64 env.float64Overflow n.Version = n.Version := by
    unfold int64OfFloat64 minInt64 maxInt64
    rw [if_pos]
    constructor <;> omega
  show wrapInt64 (int64OfFloat64 env.float64Overflow (float64OfInt n.Version) + 1) = _
  rw [h1, h2]
  exact wrapInt64_succ _ (by unfold minInt64; omega) (by unfold maxInt64; omega)

theorem noteRepoDelete_ok (env : Env) (s : Store) (id : String) (pre : Note)
    (hpre : s.noteByID id = some pre) (hok : env.noteDeleteFails = false) :
    ∃ s1, noteRepoDelete env s id = .ok s1 ∧
      s1.noteByID id = some (deletedDoc env pre) ∧ s1.notes.length = s.notes.length ∧
      s1.versions = s.versions ∧ s1.conflicts = s.conflicts := by
  refine ⟨{ s with notes := replaceFirst (fun n => decide (n.ID = id)) (deletedDoc env) s.notes },
    ?_, ?_, ?_, rfl, rfl⟩
  · simp [noteRepoDelete, hpre, hok]
  · unfold Store.noteByID at hpre ⊢
    rw [find?_replaceFirst _ _ (by intro x hx; simpa [deletedDoc] using hx), hpre]
    rfl
  · exact length_replaceFirst _ _ _

theorem noteRepoDelete_versions (env : Env) (s s1 : Store) (id : String)
    (h : noteRepoDelete env s id = .ok s1) : s1.versions = s.versions := by
  unfold noteRepoDelete at h
  cases hn : s.noteByID id with
  | none => simp [hn] at h
  | some n =>
    cases hf : env.noteDeleteFails with
    | true => simp [hn, hf] at h
    | false =>
      simp only [hn, hf, Bool.false_eq_true, if_false, Except.ok.injEq] at h
      rw [← h]

theorem delete_versions (env : Env) (s : Store) (userID noteID : String) :
    (NoteService.Delete env s userID noteID).2.versions = s.versions := by
  unfold NoteService.Delete
  cases hf : noteRepoFindByID env.findFails s noteID with
  | error e => rfl
  | ok note =>
    by_cases ho : note.UserID ≠ userID
    · simp [ho]
    · simp only [ho, if_false]
      cases hd : noteRepoDelete env s noteID with
      | error e => rfl
      | ok s1 => exact noteRepoDelete_versions env s s1 noteID hd

/-- C26: `NoteService.Delete` by the owner of a stored note succeeds; the note is
still found under its id, now with the tombstone flag set and with the version
the repository computes (the stored version read as a `float64`, converted and
incremented), which is the previous version plus 1 for every version of
magnitude below `2^53`; the encrypted title, content, algorithm, nonce and the
content hash are those of before, and no note document is removed. For a
requester who is not the owner the call fails and the store is unchanged. -/
theorem delete_sets_tombstone (env : Env) (s : Store) (userID noteID : String) (note : Note)
    (hnote : s.noteByID noteID = some note) (hfind : env.findFails = false) :
    (note.UserID = userID → env.noteDeleteFails = false →
      ∃ post : Note,
        (NoteService.Delete env s userID noteID).1 = .ok () ∧
        (NoteService.Delete env s userID noteID).2.noteByID noteID = some post ∧
        (NoteService.Delete env s userID noteID).2.notes.length = s.notes.length ∧
        post.IsDeleted = true ∧
        post.Version = wrapInt64
          (int64OfFloat64 env.float64Overflow (float64OfInt note.Version) + 1) ∧
        (-9007199254740992 < note.Version → note.Version < 9007199254740992 →
          post.Version = note.Version + 1) ∧
        post.EncryptedTitle = note.EncryptedTitle ∧
        post.EncryptedContent = note.EncryptedContent ∧
        post.EncryptionAlgo = note.EncryptionAlgo ∧
        post.Nonce = note.Nonce ∧
        post.ContentHash = note.ContentHash ∧
        post.ID = note.ID ∧ post.UserID = note.UserID ∧ post.WorkspaceID = note.WorkspaceID) ∧
    (note.UserID ≠ userID →
      (NoteService.Delete env s userID noteID).1
        = .error (.msg "unauthorized: note does not belong to user") ∧
      (NoteService.Delete env s userID noteID).2 = s) := by
  constructor
  · intro howner hok
    obtain ⟨s1, h1, h2, h3, _, _⟩ := noteRepoDelete_ok env s noteID note hnote hok
    have hrun : NoteService.Delete env s userID noteID = (.ok (), s1) := by
      simp [NoteService.Delete, noteRepoFindByID, hnote, hfind, howner, h1]
    rw [hrun]
    exact ⟨deletedDoc env note, rfl, h2, h3, rfl, rfl,
      fun hlo hhi => deletedDoc_version env note hlo hhi,
      rfl, rfl, rfl, rfl, rfl, rfl, rfl, rfl⟩
  · intro howner
    simp [NoteService.Delete, noteRepoFindByID, hnote, hfind, howner]

/-- Witness for C26: deleting `sampleNote` (version 2) as its owner `u1` leaves a
tombstone at version 3. -/
theorem delete_sets_tombstone_witness :
    sampleStore.noteByID "n1" = some sampleNote ∧
    ∃ post : Note,
      (NoteService.Delete sampleEnv sampleStore "u1" "n1").1 = .ok () ∧
      (NoteService.Delete sampleEnv sampleStore "u1" "n1").2.noteByID "n1" = some post ∧
      post.IsDeleted = true ∧ post.Version = 3 ∧ post.EncryptedContent = "c" := by
  obtain ⟨post, h1, h2, _, h4, _, h6, _, h8, _⟩ :=
    (delete_sets_tombstone sampleEnv sampleStore "u1" "n1" sampleNote (by decide) rfl).1
      (by decide) rfl
  exact ⟨by decide, post, h1, h2, h4, h6 (by decide) (by decide), h8⟩

/-! ## Version log -/

theorem persistResolution_versions (env : Env) (s : Store) (note : Note) (id choice : String) :
    (persistResolution env s note id choice).2.versions = s.versions := by
  unfold persistResolution
  cases hu : noteRepoUpdate env s note with
  | error e1 => rfl
  | ok s1 =>
    obtain ⟨_, h2⟩ := noteRepoUpdate_frame env s s1 note hu
    cases hm : conflictRepoMarkResolved env s1 id choice with
    | error e2 => simp [hm, h2]
    | ok s2 =>
      obtain ⟨_, h4⟩ := markResolved_frame env s1 s2 id choice hm
      simp [hm, h4, h2]

theorem resolveWithLWW_versions (env : Env) (s : Store) (c : Conflict) :
    (ResolveWithLWW env s c).2.versions = s.versions := by
  unfold ResolveWithLWW
  cases hd : c.ClientData with
  | none => rfl
  | some data =>
    cases hn : c.ServerNote with
    | none => rfl
    | some sn =>
      simp only []
      by_cases ht : sn.UpdatedAt > clientUpdatedAt env s c data
      · simp only [ht, if_true]
        cases hm : conflictRepoMarkResolved env s c.ID ResolutionLWW with
        | error e2 => rfl
        | ok s2 => exact (markResolved_frame env s s2 _ _ hm).2
      · simp only [ht, if_false]
        exact persistResolution_versions env s _ _ _

theorem applyResolution_versions (env : Env) (s : Store) (id strategy : String)
    (noteData : Option UpdateNoteRequest) :
    (ApplyResolution env s id strategy noteData).2.versions = s.versions := by
  unfold ApplyResolution
  cases hg : conflictRepoGet env.conflictGetFails s id with
  | error e1 => rfl
  | ok c =>
    simp only []
    by_cases h1 : strategy = ResolutionLWW
    · simp only [h1, if_true]
      exact resolveWithLWW_versions env s c
    · simp only [h1, if_false]
      by_cases h2 : strategy = ResolutionServer
      · simp only [h2, if_true]
        cases hm : conflictRepoMarkResolved env s id ResolutionServer with
        | error e2 => rfl
        | ok s2 => exact (markResolved_frame env s s2 _ _ hm).2
      · simp only [h2, if_false]
        by_cases h3 : strategy = ResolutionClient
        · simp only [h3, if_true]
          cases hd : c.ClientData with
          | none => rfl
          | some data =>
            cases hn : c.ServerNote with
            | none => rfl
            | some sn => exact persistResolution_versions env s _ _ _
        · simp only [h3, if_false]
          by_cases h4 : strategy = ResolutionManual
          · simp only [h4, if_true]
            cases hd : noteData with
            | none => rfl
            | some data =>
              cases hn : c.ServerNote with
              | none => rfl
              | some sn => exact persistResolution_versions env s _ _ _
          · simp [h4]

/-- The version log after the mutating half of an update. -/
theorem applyUpdate_versions (env : Env) (s : Store) (userID : String) (note : Note)
    (req : UpdateNoteRequest) :
    (env.saveVersionFails = false →
      (NoteService.applyUpdate env s userID note req).2.versions
        = s.versions ++ [NoteVersion.mk ("version:" ++ note.ID ++ ":" ++ toString note.Version)
            note.ID note.Version note.EncryptedContent note.EncryptedTitle note.ContentHash
            note.LastEditDevice env.snapshotNow]) ∧
    (env.saveVersionFails = true →
      (NoteService.applyUpdate env s userID note req).2.versions = s.versions) := by
  unfold NoteService.applyUpdate versionRepoSaveVersion
  constructor
  · intro hs
    simp only [hs, Bool.false_eq_true, if_false]
    cases hu : noteRepoUpdate env _ (applyPatch env.now note req) with
    | error e => rfl
    | ok s2 =>
      have := (noteRepoUpdate_frame env _ s2 _ hu).2
      simp only
      rw [(broadcastAndReturn_frame env s2 userID req.DeviceID _).2.1]
      simpa using this
  · intro hs
    simp only [hs, if_true]
    cases hu : noteRepoUpdate env s (applyPatch env.now note req) with
    | error e => rfl
    | ok s2 =>
      have := (noteRepoUpdate_frame env _ s2 _ hu).2
      simp only
      rw [(broadcastAndReturn_frame env s2 userID req.DeviceID _).2.1]
      simpa using this

/-- C27: three successful mutations that append no snapshot, where
`NoteService.Update` saves one before it mutates. The note `c1`, created at
version 1, is deleted and stands at version 2 while the log is empty; the
client resolution of conflict `c1` writes version 3 of note `n1` and the log
stays empty; an update whose `SaveVersion` fails succeeds and the log stays
empty. -/
theorem mutations_without_snapshot :
    freshStore.versions = [] ∧
    (NoteService.Delete sampleEnv freshStore "u1" "c1").1 = .ok () ∧
    ((NoteService.Delete sampleEnv freshStore "u1" "c1").2.noteByID "c1").map
      (fun n => (n.Version, n.IsDeleted)) = some (2, true) ∧
    (NoteService.Delete sampleEnv freshStore "u1" "c1").2.versions = [] ∧
    ((ApplyResolution sampleEnv storeAfterConflict "c1" "client" none).1.toOption.map
      (fun r => r.map (fun n => n.Version))) = some (some 3) ∧
    (ApplyResolution sampleEnv storeAfterConflict "c1" "client" none).2.versions = [] ∧
    ((NoteService.Update saveFailsEnv sampleStore "u1" "n1" titlePatch).1.toOption.map
      (fun r => r.Version)) = some 3 ∧
    (NoteService.Update saveFailsEnv sampleStore "u1" "n1" titlePatch).2.versions = [] := by
  refine ⟨rfl, rfl, ?_, ?_, ?_, ?_, ?_, ?_⟩ <;> decide

/-- The version log after each of the three mutations, on every input. A
`NoteService.Update` that passes the owner and version checks and whose
`SaveVersion` call succeeds appends exactly one snapshot, carrying the note id,
version, encrypted title, encrypted content, content hash and last editing
device the note had before the update; when `SaveVersion` fails its error is
discarded and the log is as it was. After `NoteService.Delete` and after
`ApplyResolution` the log is the one of before: neither calls `SaveVersion`. -/
theorem update_appends_snapshot (env : Env) (s : Store) (userID noteID : String)
    (req : UpdateNoteRequest) (note : Note)
    (hnote : s.noteByID noteID = some note) (howner : note.UserID = userID)
    (hexp : req.ExpectedVersion = none ∨ req.ExpectedVersion = some note.Version)
    (hfind : env.findFails = false) :
    (env.saveVersionFails = false →
      ∃ snap : NoteVersion,
        (NoteService.Update env s userID noteID req).2.versions = s.versions ++ [snap] ∧
        snap.NoteID = noteID ∧ snap.Version = note.Version ∧
        snap.EncryptedTitle = note.EncryptedTitle ∧
        snap.EncryptedContent = note.EncryptedContent ∧
        snap.ContentHash = note.ContentHash ∧ snap.DeviceID = note.LastEditDevice ∧
        ((∀ w, 1 ≤ w → w < note.Version →
            ∃ v ∈ s.versions, v.NoteID = noteID ∧ v.Version = w) →
          ∀ w, 1 ≤ w → w ≤ note.Version →
            ∃ v ∈ (NoteService.Update env s userID noteID req).2.versions,
              v.NoteID = noteID ∧ v.Version = w)) ∧
    (env.saveVersionFails = true →
      (NoteService.Update env s userID noteID req).2.versions = s.versions) ∧
    (∀ uid nid, (NoteService.Delete env s uid nid).2.versions = s.versions) ∧
    (∀ id strategy noteData,
      (ApplyResolution env s id strategy noteData).2.versions = s.versions) := by
  have hid : note.ID = noteID := noteByID_id s noteID note hnote
  have hrun : NoteService.Update env s userID noteID req
      = NoteService.applyUpdate env s userID note req := by
    rcases hexp with hexp | hexp <;>
      simp [NoteService.Update, noteRepoFindByID, hnote, howner, hexp, hfind]
  refine ⟨?_, ?_, fun uid nid => delete_versions env s uid nid,
    fun id strategy noteData => applyResolution_versions env s id strategy noteData⟩
  · intro hsave
    have hv := (applyUpdate_versions env s userID note req).1 hsave
    rw [hrun, hv]
    refine ⟨_, rfl, hid, rfl, rfl, rfl, rfl, rfl, ?_⟩
    intro hlog w h1 h2
    by_cases hw : w < note.Version
    · obtain ⟨v, hv1, hv2⟩ := hlog w h1 hw
      exact ⟨v, List.mem_append_left _ hv1, hv2⟩
    · have hw2 : w = note.Version := by omega
      refine ⟨_, List.mem_append_right _ (List.mem_singleton_self _), hid, ?_⟩
      exact hw2.symm
  · intro hsave
    rw [hrun]
    exact (applyUpdate_versions env s userID note req).2 hsave

/-! ## CLI tokens: theorems -/

theorem length_hexEncode (bytes : List Nat) :
    (bytes.flatMap hexByte).length = 2 * bytes.length := by
  induction bytes with
  | nil => rfl
  | cons b bs ih =>
    simp only [List.flatMap_cons, List.length_append, ih, List.length_cons]
    simp only [hexByte, List.length_cons, List.length_nil]
    omega

theorem generateSecureToken_ok (env : TokenEnv) (t : String)
    (h : generateSecureToken env = .ok t) :
    t = "ink_" ++ hexEncodeToString (randBytes env 32) ∧ t.length = 68 ∧
    t.take 4 = "ink_" ∧ (t.drop 4).length = 64 ∧ (t.take 12).length = 12 := by
  unfold generateSecureToken at h
  cases hf : env.randFails with
  | true => simp [hf] at h
  | false =>
    simp only [hf, Bool.false_eq_true, if_false, Except.ok.injEq] at h
    have hlen : (hexEncodeToString (randBytes env 32)).length = 64 := by
      show ((randBytes env 32).flatMap hexByte).length = 64
      rw [length_hexEncode]
      simp [randBytes]
    have hdata : t.data = ['i', 'n', 'k', '_'] ++ (hexEncodeToString (randBytes env 32)).data := by
      rw [← h]
      rfl
    have hl2 : (hexEncodeToString (randBytes env 32)).data.length = 64 := hlen
    refine ⟨h.symm, ?_, ?_, ?_, ?_⟩
    · show t.data.length = 68
      rw [hdata]
      simp [hl2]
    · rw [String.take_eq]
      rw [hdata]
      rfl
    · rw [String.drop_eq]
      show (t.data.drop 4).length = 64
      rw [hdata]
      simp [hl2]
    · rw [String.take_eq]
      show (t.data.take 12).length = 12
      rw [hdata]
      simp [hl2]

/-- C28: every token `generateSecureToken` produces is `ink_` followed by the 64
hexadecimal digits of its 32 random bytes, 68 characters in all (not 40 and 44),
and so is the plaintext token `CreateToken` returns; the stored `token_prefix`
is the first 12 characters of that token. -/
theorem createToken_token_length (env : TokenEnv) (tokens : List CLIToken) (userID : String)
    (req : CreateCLITokenRequest) (resp : CreateCLITokenResponse)
    (h : (CreateToken env tokens userID req).1 = .ok resp) :
    generateSecureToken env = .ok resp.Token ∧
    resp.Token = "ink_" ++ hexEncodeToString (randBytes env 32) ∧
    resp.Token.length = 68 ∧ (resp.Token.drop 4).length = 64 ∧ resp.Token.take 4 = "ink_" ∧
    resp.TokenPrefix = resp.Token.take 12 ∧ resp.TokenPrefix.length = 12 ∧
    ∃ stored, (CreateToken env tokens userID req).2 = tokens ++ [stored] ∧
      stored.TokenPrefix = resp.Token.take 12 ∧ stored.Token = hashToken env resp.Token := by
  cases hu : env.userExists userID with
  | false =>
    exfalso
    unfold CreateToken at h
    rw [hu, if_pos rfl] at h
    cases h
  | true =>
    cases hg : generateSecureToken env with
    | error e =>
      exfalso
      unfold CreateToken at h
      rw [hu, hg, if_neg (by decide)] at h
      cases h
    | ok t =>
      obtain ⟨k1, k2, k3, k4, k5⟩ := generateSecureToken_ok env t hg
      have hshort : ¬ t.length < 12 := by omega
      cases hc : env.tokenCreateFails with
      | true =>
        exfalso
        unfold CreateToken at h
        rw [hu, hg, if_neg (by decide)] at h
        dsimp only at h
        rw [if_neg hshort, if_pos hc] at h
        cases h
      | false =>
        obtain ⟨p, hp12⟩ : ∃ p, t.take 12 = p := ⟨_, rfl⟩
        have h1 : (CreateToken env tokens userID req).1
            = .ok (CreateCLITokenResponse.mk env.uuid req.Name t p
                (if req.Scopes.length = 0 then DefaultCLIScopes else req.Scopes) env.now
                "Token created successfully. Store it safely - it won\x27t be shown again!") := by
          unfold CreateToken
          rw [hu, hg, if_neg (by decide)]
          dsimp only
          rw [if_neg hshort, if_neg (by rw [hc]; decide), hp12]
        have h2 : (CreateToken env tokens userID req).2
            = tokens ++ [CLIToken.mk env.uuid userID req.Name (hashToken env t) p
                (if req.Scopes.length = 0 then DefaultCLIScopes else req.Scopes) none ""
                env.now none false] := by
          unfold CreateToken
          rw [hu, hg, if_neg (by decide)]
          dsimp only
          rw [if_neg hshort, if_neg (by rw [hc]; decide), hp12]
        rw [h1] at h
        have hresp := Except.ok.inj h
        have ht : resp.Token = t := by rw [← hresp]
        have hp : resp.TokenPrefix = p := by rw [← hresp]
        rw [ht, hp, hp12]
        rw [hp12] at k5
        exact ⟨rfl, k1, k2, k4, k3, rfl, k5, _, h2, rfl, rfl⟩

theorem createToken_ok (env : TokenEnv) (tokens : List CLIToken) (userID : String)
    (req : CreateCLITokenRequest) (hu : env.userExists userID = true)
    (hr : env.randFails = false) (hc : env.tokenCreateFails = false) :
    ∃ t p, generateSecureToken env = .ok t ∧
      (CreateToken env tokens userID req).1
        = .ok (CreateCLITokenResponse.mk env.uuid req.Name t p
            (if req.Scopes.length = 0 then DefaultCLIScopes else req.Scopes) env.now
            "Token created successfully. Store it safely - it won\x27t be shown again!") := by
  have hg : generateSecureToken env
      = .ok ("ink_" ++ hexEncodeToString (randBytes env 32)) := by
    simp [generateSecureToken, hr]
  obtain ⟨_, k2, _, _, _⟩ := generateSecureToken_ok env _ hg
  have hshort : ¬ ("ink_" ++ hexEncodeToString (randBytes env 32)).length < 12 := by omega
  obtain ⟨p, hp12⟩ : ∃ p, ("ink_" ++ hexEncodeToString (randBytes env 32)).take 12 = p :=
    ⟨_, rfl⟩
  refine ⟨_, p, hg, ?_⟩
  unfold CreateToken
  rw [hu, hg, if_neg (by decide)]
  dsimp only
  rw [if_neg hshort, if_neg (by rw [hc]; decide), hp12]

/-- Witness for C28: the token made from the bytes 250, 1, 8, 15, ... -/
theorem createToken_token_length_witness :
    ∃ resp, (CreateToken tokenEnv [] "u1" tokenRequest).1 = .ok resp ∧
      resp.Token.length = 68 ∧ resp.TokenPrefix.length = 12 := by
  obtain ⟨t, p, _, h⟩ := createToken_ok tokenEnv [] "u1" tokenRequest rfl rfl rfl
  have k := createToken_token_length tokenEnv [] "u1" tokenRequest _ h
  exact ⟨_, h, k.2.2.1, k.2.2.2.2.2.2.1⟩

/-! ## Connection registry: the two indexes -/

/-- The registry after a registration that `registerClient` accepts. -/
theorem registerClient_accepts (m : Manager) (c : Client)
    (hroom : ¬ ((m.idsOf c.UserID).length : Int) ≥ m.maxConnPerUser) :
    ∃ m1, registerClient m c = .ok m1 ∧
      m1.maxConnPerUser = m.maxConnPerUser ∧ m1.chans = m.chans ∧ m1.run = m.run ∧
      (∀ id, mapLookup m1.clients id = if id = c.ID then some c else mapLookup m.clients id) ∧
      (∀ u, mapLookup m1.userIndex u
        = if u = c.UserID then some (setAdd c.ID (m.idsOf c.UserID))
          else mapLookup m.userIndex u) := by
  unfold Manager.idsOf at hroom
  cases hl : mapLookup m.userIndex c.UserID with
  | some ids =>
    rw [hl] at hroom
    simp only [Option.getD_some] at hroom
    refine ⟨Manager.mk (mapInsert c.ID c m.clients)
      (mapInsert c.UserID (setAdd c.ID ids) m.userIndex) m.maxConnPerUser m.chans m.run,
      ?_, rfl, rfl, rfl, ?_, ?_⟩
    · simp [registerClient, hl, hroom]
    · intro id
      exact mapLookup_mapInsert _ _ _ _
    · intro u
      simp only [Manager.idsOf, hl, Option.getD_some]
      exact mapLookup_mapInsert _ _ _ _
  | none =>
    rw [hl] at hroom
    simp only [Option.getD_none] at hroom
    refine ⟨Manager.mk (mapInsert c.ID c m.clients)
      (mapInsert c.UserID (setAdd c.ID []) (mapInsert c.UserID [] m.userIndex))
      m.maxConnPerUser m.chans m.run, ?_, rfl, rfl, rfl, ?_, ?_⟩
    · have hroom2 : ¬ m.maxConnPerUser ≤ 0 := by simpa using hroom
      simp [registerClient, hl, mapLookup_mapInsert, hroom2]
    · intro id
      exact mapLookup_mapInsert _ _ _ _
    · intro u
      simp only [Manager.idsOf, hl, Option.getD_none]
      rw [mapLookup_mapInsert, mapLookup_mapInsert]
      by_cases hu : u = c.UserID <;> simp [hu]

/-- The registry after a registration that `registerClient` refuses, for a user
who has an entry in the index. -/
theorem registerClient_refuses (m m1 : Manager) (c : Client) (ids : List String)
    (hl : mapLookup m.userIndex c.UserID = some ids)
    (hfull : (ids.length : Int) ≥ m.maxConnPerUser)
    (h : registerClient m c = .ok m1) :
    m1.clients = m.clients ∧ m1.userIndex = m.userIndex ∧
    m1.maxConnPerUser = m.maxConnPerUser := by
  unfold registerClient at h
  simp only [hl, Option.getD_some, hfull, if_true] at h
  cases hc : chanClose m.chans c.Send with
  | error e => simp [hc] at h
  | ok chans1 =>
    simp only [hc, Except.ok.injEq] at h
    rw [← h]
    exact ⟨rfl, rfl, rfl⟩

/-- The registry after `unregisterClient` removed a registered connection. -/
theorem unregisterClient_removes (m m1 : Manager) (c c0 : Client)
    (hreg : mapLookup m.clients c.ID = some c0)
    (h : unregisterClient m c = .ok m1) :
    m1.maxConnPerUser = m.maxConnPerUser ∧
    (∀ id, mapLookup m1.clients id = if id = c.ID then none else mapLookup m.clients id) ∧
    (∀ u, u ≠ c.UserID → mapLookup m1.userIndex u = mapLookup m.userIndex u) ∧
    (mapLookup m1.userIndex c.UserID
      = if setRemove c.ID (m.idsOf c.UserID) = [] then none
        else some (setRemove c.ID (m.idsOf c.UserID))) := by
  unfold unregisterClient at h
  simp only [hreg] at h
  cases hc : chanClose m.chans c.Send with
  | error e => simp [hc] at h
  | ok chans1 =>
    simp only [hc, Except.ok.injEq] at h
    rw [← h]
    refine ⟨rfl, ?_, ?_, ?_⟩
    · intro id
      exact mapLookup_mapErase _ _ _
    · intro u hu
      cases hl : mapLookup m.userIndex c.UserID with
      | none =>
        simp only [hl, Option.getD_none, List.length_nil, if_true]
        rw [mapLookup_mapErase]
        simp [hu]
      | some ids =>
        simp only [mapLookup_mapInsert, if_true, Option.getD_some]
        by_cases he : (setRemove c.ID ids).length = 0
        · simp only [he, if_true]
          rw [mapLookup_mapErase, mapLookup_mapInsert]
          simp [hu]
        · simp only [he, if_false]
          rw [mapLookup_mapInsert]
          simp [hu]
    · unfold Manager.idsOf
      cases hl : mapLookup m.userIndex c.UserID with
      | none =>
        simp only [hl, Option.getD_none, List.length_nil, if_true]
        rw [mapLookup_mapErase]
        simp [setRemove]
      | some ids =>
        simp only [mapLookup_mapInsert, if_true, Option.getD_some]
        by_cases he : (setRemove c.ID ids).length = 0
        · have he2 : setRemove c.ID ids = [] := List.length_eq_zero.mp he
          simp only [he, if_true]
          rw [mapLookup_mapErase]
          simp [he2]
        · have he2 : ¬ setRemove c.ID ids = [] := fun e => he (by rw [e]; rfl)
          simp only [he, if_false]
          rw [mapLookup_mapInsert]
          simp [he2]

theorem consistent_congr (m m1 : Manager) (h1 : m1.clients = m.clients)
    (h2 : m1.userIndex = m.userIndex) (h3 : m1.maxConnPerUser = m.maxConnPerUser)
    (hinv : RegistryConsistent m) : RegistryConsistent m1 := by
  unfold RegistryConsistent Manager.idsOf at hinv ⊢
  rw [h1, h2, h3]
  exact hinv

theorem consistent_register (m m1 : Manager) (c : Client) (hcap : 1 ≤ m.maxConnPerUser)
    (hinv : RegistryConsistent m)
    (hsame : ∀ c0, mapLookup m.clients c.ID = some c0 → c0 = c)
    (h : registerClient m c = .ok m1) :
    RegistryConsistent m1 ∧ m1.maxConnPerUser = m.maxConnPerUser ∧
    (∀ id c0, mapLookup m1.clients id = some c0 →
      mapLookup m.clients id = some c0 ∨ (c0 = c ∧ id = c.ID)) := by
  by_cases hroom : ((m.idsOf c.UserID).length : Int) ≥ m.maxConnPerUser
  · cases hl : mapLookup m.userIndex c.UserID with
    | none =>
      exfalso
      simp only [Manager.idsOf, hl, Option.getD_none, List.length_nil] at hroom
      omega
    | some ids =>
      simp only [Manager.idsOf, hl, Option.getD_some] at hroom
      obtain ⟨k1, k2, k3⟩ := registerClient_refuses m m1 c ids hl hroom h
      refine ⟨consistent_congr m m1 k1 k2 k3 hinv, k3, ?_⟩
      intro id c0 hc0
      rw [k1] at hc0
      exact Or.inl hc0
  · obtain ⟨m2, k0, kcap, _, _, hC, hL⟩ := registerClient_accepts m c hroom
    rw [k0] at h
    cases h
    have hI : ∀ u, m1.idsOf u
        = if u = c.UserID then setAdd c.ID (m.idsOf c.UserID) else m.idsOf u := by
      intro u
      show (mapLookup m1.userIndex u).getD [] = _
      rw [hL u]
      by_cases hu : u = c.UserID
      · simp [hu]
      · simp [hu, Manager.idsOf]
    obtain ⟨i1, i2, i3, i4⟩ := hinv
    refine ⟨⟨?_, ?_, ?_, ?_⟩, kcap, ?_⟩
    · intro u id
      rw [hI u, hC id]
      by_cases hu : u = c.UserID
      · by_cases hid : id = c.ID
        · simp [hu, hid, mem_setAdd]
        · simp only [hu, hid, if_true, if_false, mem_setAdd, false_or]
          exact i1 c.UserID id
      · by_cases hid : id = c.ID
        · simp only [hu, hid, if_true, if_false]
          constructor
          · intro hm
            obtain ⟨c1, hc1, hu1⟩ := (i1 u c.ID).mp hm
            have := hsame c1 hc1
            subst this
            exact absurd hu1.symm hu
          · rintro ⟨c1, hc1, hu1⟩
            simp only [Option.some.injEq] at hc1
            subst hc1
            exact absurd hu1.symm hu
        · simp only [hu, hid, if_false]
          exact i1 u id
    · intro u ids hids
      rw [hL u] at hids
      by_cases hu : u = c.UserID
      · simp only [hu, if_true, Option.some.injEq] at hids
        intro he
        have : c.ID ∈ ids := by rw [← hids, mem_setAdd]; exact Or.inl rfl
        rw [he] at this
        cases this
      · simp only [hu, if_false] at hids
        exact i2 u ids hids
    · intro u
      rw [hI u, kcap]
      by_cases hu : u = c.UserID
      · simp only [hu, if_true]
        have := length_setAdd c.ID (m.idsOf c.UserID)
        omega
      · simp only [hu, if_false]
        exact i3 u
    · intro u
      rw [hI u]
      by_cases hu : u = c.UserID
      · simp only [hu, if_true]
        exact nodup_setAdd _ _ (i4 c.UserID)
      · simp only [hu, if_false]
        exact i4 u
    · intro id c0 hc0
      rw [hC id] at hc0
      by_cases hid : id = c.ID
      · simp only [hid, if_true, Option.some.injEq] at hc0
        exact Or.inr ⟨hc0.symm, hid⟩
      · simp only [hid, if_false] at hc0
        exact Or.inl hc0

theorem consistent_unregister (m m1 : Manager) (c : Client)
    (hinv : RegistryConsistent m)
    (hsame : ∀ c0, mapLookup m.clients c.ID = some c0 → c0 = c)
    (h : unregisterClient m c = .ok m1) :
    RegistryConsistent m1 ∧ m1.maxConnPerUser = m.maxConnPerUser ∧
    (∀ id c0, mapLookup m1.clients id = some c0 → mapLookup m.clients id = some c0) := by
  cases hreg : mapLookup m.clients c.ID with
  | none =>
    have : m1 = m := by
      simp only [unregisterClient, hreg, Except.ok.injEq] at h
      exact h.symm
    subst this
    exact ⟨hinv, rfl, fun _ _ hc0 => hc0⟩
  | some c0 =>
    obtain ⟨kcap, hC, hLne, hLeq⟩ := unregisterClient_removes m m1 c c0 hreg h
    have hc0 : c0 = c := hsame c0 hreg
    subst hc0
    have hI : ∀ u, m1.idsOf u
        = if u = c0.UserID then setRemove c0.ID (m.idsOf c0.UserID) else m.idsOf u := by
      intro u
      show (mapLookup m1.userIndex u).getD [] = _
      by_cases hu : u = c0.UserID
      · rw [hu, hLeq]
        by_cases he : setRemove c0.ID (m.idsOf c0.UserID) = []
        · simp [he]
        · simp [he]
      · rw [hLne u hu]
        simp [hu, Manager.idsOf]
    obtain ⟨i1, i2, i3, i4⟩ := hinv
    refine ⟨⟨?_, ?_, ?_, ?_⟩, kcap, ?_⟩
    · intro u id
      rw [hI u, hC id]
      by_cases hid : id = c0.ID
      · simp only [hid, if_true]
        constructor
        · intro hm
          exfalso
          by_cases hu : u = c0.UserID
          · simp only [hu, if_true, mem_setRemove] at hm
            exact hm.2 rfl
          · simp only [hu, if_false] at hm
            obtain ⟨c1, hc1, hu1⟩ := (i1 u c0.ID).mp hm
            rw [hreg] at hc1
            simp only [Option.some.injEq] at hc1
            subst hc1
            exact hu hu1.symm
        · rintro ⟨c1, hc1, _⟩
          cases hc1
      · simp only [hid, if_false]
        by_cases hu : u = c0.UserID
        · simp only [hu, if_true, mem_setRemove]
          rw [← i1 c0.UserID id]
          constructor
          · exact fun hm => hm.1
          · exact fun hm => ⟨hm, hid⟩
        · simp only [hu, if_false]
          exact i1 u id
    · intro u ids hids
      by_cases hu : u = c0.UserID
      · rw [hu, hLeq] at hids
        by_cases he : setRemove c0.ID (m.idsOf c0.UserID) = []
        · simp [he] at hids
        · simp only [he, if_false, Option.some.injEq] at hids
          rw [← hids]
          exact he
      · rw [hLne u hu] at hids
        exact i2 u ids hids
    · intro u
      rw [hI u, kcap]
      by_cases hu : u = c0.UserID
      · simp only [hu, if_true]
        have h1 := length_setRemove c0.ID (m.idsOf c0.UserID)
        have h2 := i3 c0.UserID
        omega
      · simp only [hu, if_false]
        exact i3 u
    · intro u
      rw [hI u]
      by_cases hu : u = c0.UserID
      · simp only [hu, if_true]
        exact nodup_setRemove _ _ (i4 c0.UserID)
      · simp only [hu, if_false]
        exact i4 u
    · intro id c1 hc1
      rw [hC id] at hc1
      by_cases hid : id = c0.ID
      · simp [hid] at hc1
      · simpa [hid] using hc1

/-- The invariant along the loop of `Manager.Run`, for connections drawn from a
set in which the id determines the connection. -/
theorem runEvents_consistent (known : Client → Prop)
    (hknown : ∀ c1 c2, known c1 → known c2 → c1.ID = c2.ID → c1 = c2)
    (events : List RegistryEvent) (m m1 : Manager)
    (hev : ∀ e ∈ events, known e.client)
    (hcap : 1 ≤ m.maxConnPerUser) (hinv : RegistryConsistent m)
    (hkey : ∀ id c, mapLookup m.clients id = some c → c.ID = id ∧ known c)
    (hrun : runEvents m events = .ok m1) :
    RegistryConsistent m1 := by
  induction events generalizing m with
  | nil =>
    simp only [runEvents, Except.ok.injEq] at hrun
    rw [← hrun]
    exact hinv
  | cons ev rest ih =>
    have hk : known ev.client := hev ev (List.mem_cons_self _ _)
    have hsame : ∀ c0, mapLookup m.clients ev.client.ID = some c0 → c0 = ev.client := by
      intro c0 hc0
      obtain ⟨h1, h2⟩ := hkey _ c0 hc0
      exact hknown c0 ev.client h2 hk h1
    unfold runEvents at hrun
    cases hstep : runEvent m ev with
    | error e => simp [hstep] at hrun
    | ok m2 =>
      simp only [hstep] at hrun
      have hrest : ∀ e ∈ rest, known e.client := fun e he => hev e (List.mem_cons_of_mem _ he)
      cases ev with
      | register c =>
        obtain ⟨j1, j2, j3⟩ := consistent_register m m2 c hcap hinv hsame hstep
        refine ih m2 hrest (by rw [j2]; exact hcap) j1 ?_ hrun
        intro id c0 hc0
        rcases j3 id c0 hc0 with h | ⟨h1, h2⟩
        · exact hkey id c0 h
        · subst h1
          exact ⟨h2.symm, hk⟩
      | unregister c =>
        obtain ⟨j1, j2, j3⟩ := consistent_unregister m m2 c hinv hsame hstep
        refine ih m2 hrest (by rw [j2]; exact hcap) j1 ?_ hrun
        intro id c0 hc0
        exact hkey id c0 (j3 id c0 hc0)

theorem consistent_newManager (cap : Int) (chans : List (String × Chan)) (hcap : 1 ≤ cap) :
    RegistryConsistent (NewManager cap chans) := by
  unfold RegistryConsistent Manager.idsOf NewManager
  refine ⟨?_, ?_, ?_, ?_⟩
  · intro u id
    simp [mapLookup]
  · intro u ids h
    simp [mapLookup] at h
  · intro u
    simp only [mapLookup, List.find?_nil, Option.map_none', Option.getD_none, List.length_nil]
    omega
  · intro u
    simp [mapLookup]

theorem broadcastStep_finds_client (clients : List (String × Client)) (msg exclude : String)
    (st : Fanout) (id : String) (hid : ∃ c, mapLookup clients id = some c)
    (hst : st.stop ≠ some (.panicked .nilDeref)) :
    (broadcastStep clients msg exclude st id).stop ≠ some (.panicked .nilDeref) := by
  obtain ⟨c, hc⟩ := hid
  unfold broadcastStep
  cases hs : st.stop with
  | some e => simpa [hs] using hst
  | none =>
    simp only [hc]
    by_cases hd : c.DeviceID ≠ exclude
    · simp only [hd, if_true, ne_eq, not_false_eq_true]
      unfold chanTrySend
      cases hl : mapLookup st.chans c.Send with
      | none =>
        cases hr : st.run <;> simp [hs]
      | some ch =>
        by_cases hcl : ch.closed = true
        · simp [hcl]
        · by_cases hroom : ch.buf.length < ch.cap
          · simp [hcl, hroom, hs]
          · cases hr : st.run <;> simp [hcl, hroom, hs]
    · simp only [hd, if_false]
      simp [hs]

theorem broadcastFold_finds_client (clients : List (String × Client)) (msg exclude : String)
    (ids : List String) (st : Fanout) (hid : ∀ id ∈ ids, ∃ c, mapLookup clients id = some c)
    (hst : st.stop ≠ some (.panicked .nilDeref)) :
    (ids.foldl (broadcastStep clients msg exclude) st).stop ≠ some (.panicked .nilDeref) := by
  induction ids generalizing st with
  | nil => exact hst
  | cons id rest ih =>
    exact ih _ (fun k hk => hid k (List.mem_cons_of_mem _ hk))
      (broadcastStep_finds_client clients msg exclude st id (hid id (List.mem_cons_self _ _)) hst)

/-- C29: from the empty registry of `NewManager` with a cap of at least 1, every
state that the loop of `Manager.Run` reaches through registrations and
unregistrations of connections with distinct ids keeps the two indexes
consistent: an id is indexed for a user exactly when `clients` holds it with
that user, no user is indexed with an empty set, no user has more than
`maxConnPerUser` connections. Hence `BroadcastToUser` never meets a missing
client (it does not end in a nil dereference), and unregistering a connection
whose id is not in `clients` returns the manager unchanged, its queue not
closed again. -/
theorem registry_stays_consistent (cap : Int) (chans : List (String × Chan))
    (events : List RegistryEvent) (m : Manager) (hcap : 1 ≤ cap)
    (hdistinct : ∀ e1 ∈ events, ∀ e2 ∈ events,
      e1.client.ID = e2.client.ID → e1.client = e2.client)
    (hrun : runEvents (NewManager cap chans) events = .ok m) :
    RegistryConsistent m ∧
    (∀ (env : WsEnv) (userID : String) (message : Message) (exclude : String),
      (∀ ids, (env.rangeClients ids).Perm ids) →
      (BroadcastToUser env m userID message exclude).1 ≠ .panicked .nilDeref) ∧
    (∀ c, mapLookup m.clients c.ID = none → unregisterClient m c = .ok m) := by
  have hinv : RegistryConsistent m := by
    refine runEvents_consistent (fun c => ∃ e ∈ events, e.client = c) ?_ events
      (NewManager cap chans) m (fun e he => ⟨e, he, rfl⟩) hcap
      (consistent_newManager cap chans hcap) ?_ hrun
    · rintro c1 c2 ⟨e1, h1, rfl⟩ ⟨e2, h2, rfl⟩ hid
      exact hdistinct e1 h1 e2 h2 hid
    · intro id c hc
      simp [NewManager, mapLookup] at hc
  refine ⟨hinv, ?_, ?_⟩
  · intro env userID message exclude hperm
    unfold BroadcastToUser
    cases hj : env.jsonMarshal message with
    | error e => simp
    | ok bytes =>
      cases hl : mapLookup m.userIndex userID with
      | none => simp
      | some ids =>
        have hfind : ∀ id ∈ env.rangeClients ids, ∃ c, mapLookup m.clients id = some c := by
          intro id hid
          have hmem : id ∈ m.idsOf userID := by
            simp only [Manager.idsOf, hl, Option.getD_some]
            exact (hperm ids).mem_iff.mp hid
          obtain ⟨c, hc, _⟩ := (hinv.1 userID id).mp hmem
          exact ⟨c, hc⟩
        have hfold := broadcastFold_finds_client m.clients bytes exclude (env.rangeClients ids)
          (Fanout.mk m.chans m.run none) hfind (by simp)
        simp only []
        cases hst : ((env.rangeClients ids).foldl (broadcastStep m.clients bytes exclude)
          (Fanout.mk m.chans m.run none)).stop with
        | none => simp
        | some e =>
          rw [hst] at hfold
          simp only [Option.getD_some]
          intro he
          exact hfold (by rw [he])
  · intro c hc
    simp [unregisterClient, hc]

/-- Witness for C29 (cap 2): `a` and `b` are registered, `c` is refused, `a`
leaves, and the late unregistration of the refused `c` changes nothing. -/
theorem registry_stays_consistent_witness :
    runEvents (NewManager 2 threeChans)
      [.register clientA, .register clientB, .register clientC, .unregister clientA,
       .unregister clientC]
      = .ok (Manager.mk [("b", clientB)] [("u1", ["b"])] 2
          [("chA", Chan.mk [] 2 true), ("chB", openChan), ("chC", Chan.mk [] 2 true)]
          .selecting) ∧
    RegistryConsistent (Manager.mk [("b", clientB)] [("u1", ["b"])] 2
      [("chA", Chan.mk [] 2 true), ("chB", openChan), ("chC", Chan.mk [] 2 true)] .selecting) :=
  ⟨rfl, (registry_stays_consistent 2 threeChans
    [.register clientA, .register clientB, .register clientC, .unregister clientA,
     .unregister clientC] _ (by decide) (by decide) rfl).1⟩

/-! ## Owner isolation of batch diff and manifest -/

/-- C30: a workspace id makes both calls list the notes of that workspace
whoever owns them. The stores `emptyStore` and `foreignStore` hold the same notes
of user `u1` (none); for the workspace `w2` of user `u2` the results for `u1`
differ, and the download list and the manifest describe the note of `u2`. -/
theorem batchDiff_manifest_list_foreign_notes :
    emptyStore.notes.filter (fun n => decide (n.UserID = "u1"))
      = foreignStore.notes.filter (fun n => decide (n.UserID = "u1")) ∧
    foreignNote.UserID = "u2" ∧
    ProcessBatchDiff sampleEnv emptyStore "u1" foreignRequest = .ok (emptyDiff 5) ∧
    ProcessBatchDiff sampleEnv foreignStore "u1" foreignRequest
      = .ok (BatchDiffResponse.mk [downloadPayload foreignNote] [] [] [] 5) ∧
    GetManifest sampleEnv emptyStore "u1" "w2" = .ok (ManifestResponse.mk [] 5) ∧
    GetManifest sampleEnv foreignStore "u1" "w2"
      = .ok (ManifestResponse.mk [manifestEntry foreignNote] 5) :=
  ⟨by decide, rfl, rfl, rfl, rfl, rfl⟩

end Inkdown
